import Mathlib

/-!
# QuranLab scoring engine: a shallow embedding and its verification

The development embeds the four pure calculations of the repository
(`calculateAbjadValue`, `calculateAccuracy`, `calculateJannahPoints`,
`analyzeTajweed`) as they are written in `scripts/setup.js`,
`scripts/test.js` and `src/components/RecitationAnalyzer.jsx`.

Modelling conventions.

* A JavaScript string is the list of its UTF-16 code units (`JSString`);
  `split('')` yields exactly these units, one array element each.
* An argument that may be `null`/`undefined` is an `Option JSString`.
* Integer-valued Numbers (sums of table weights, counters, array lengths)
  are natural numbers: IEEE-754 doubles are exact on integers below `2^53`.
* The one place where the code leaves the integers, the expression
  `Math.round((matches / expectedChars.length) * 100)`, is embedded with
  correctly rounded binary64 arithmetic (`Double.div`, `Double.mul`).
* `calculateJannahPoints` is embedded with the same binary64 arithmetic, on signed
  Numbers (`Number`): the product, the quotient and both sums are correctly rounded, so
  the embedding follows the code beyond `2^53` as well, where Numbers stop counting
  exactly.
* `getLevelBadge` of `src/pages/index.jsx` is embedded on rational numbers, which
  cover every finite Number.
-/

namespace QuranLab

/-! ## JavaScript values -/

/-- A JavaScript string: its sequence of UTF-16 code units. -/
abbrev JSString := List Nat

/-- The exceptions a call can end with: `typeError` is the one the embedded code can
raise; `invalidArgument` is the error named by the specification, which no statement
of the source raises. -/
inductive JSError where
  | typeError
  | invalidArgument
  deriving DecidableEq, Repr

/-- JavaScript `!text` for an argument that is a string, `null` or `undefined`:
true exactly for the absent value and for the empty string. -/
def isFalsy : Option JSString → Bool
  | none => true
  | some [] => true
  | some (_ :: _) => false

/-- Property read `obj[key] || 0` on an object literal whose keys are single
code units and whose values are numbers: the stored value, or `0` when the key is
not an own property (`undefined || 0`) or the stored value is `0`. -/
def getOrZero (obj : List (Nat × Nat)) (key : Nat) : Nat :=
  match obj.lookup key with
  | some v => v
  | none => 0

/-! ## Numbers: correctly rounded binary64 arithmetic -/

/-- The non-negative values of the Number type: `NaN`, `+Infinity` and the
finite value `num / den` (with `den > 0`). -/
inductive Double where
  | nan
  | inf
  | fin (num den : Nat)
  deriving DecidableEq, Repr

/-- An integer-valued Number (exact for every integer below `2^53`). -/
def Double.ofNat (n : Nat) : Double := .fin n 1

/-- The quotient `x / y` rounded to the nearest integer, ties to the even one. -/
def roundHalfEven (x y : Nat) : Nat :=
  let q := x / y
  let r := x % y
  if 2 * r < y then q
  else if y < 2 * r then q + 1
  else if q % 2 = 0 then q else q + 1

/-- Binary logarithm by repeated halving; the first argument bounds the number of steps. -/
def log2Fuel : Nat → Nat → Nat
  | 0, _ => 0
  | fuel + 1, n => if 2 ≤ n then log2Fuel fuel (n / 2) + 1 else 0

/-- The position of the leading bit: `floor (log2 n)` for `n > 0`. -/
def ilog2 (n : Nat) : Nat := log2Fuel n n

/-- The binary exponent of the positive rational `a / b`: `floor (log2 (a / b))`. -/
def floorLog2 (a b : Nat) : Int :=
  let d : Int := (ilog2 a : Int) - (ilog2 b : Int)
  if b * 2 ^ (ilog2 a) ≤ a * 2 ^ (ilog2 b) then d else d - 1

/-- Round-to-nearest, ties-to-even, of the exact non-negative rational `a / b`
(`b > 0`) into binary64: 53 significant bits, gradual underflow below `2^-1022`
(unit in the last place never below `2^-1074`), overflow to `+Infinity` from
`2^1024` on. The rounded significand is `M`, the unit in the last place `2^E`. -/
def Double.round64 (a b : Nat) : Double :=
  if a = 0 then .fin 0 1
  else
    let E : Int := max (floorLog2 a b - 52) (-1074)
    let up := E.toNat
    let down := (-E).toNat
    let M := roundHalfEven (a * 2 ^ down) (b * 2 ^ up)
    if 1024 ≤ (ilog2 M : Int) + E then .inf
    else .fin (M * 2 ^ up) (2 ^ down)

/-- The Number operator `/` on non-negative operands. -/
def Double.div : Double → Double → Double
  | .fin a b, .fin c d =>
      if c = 0 then (if a = 0 then .nan else .inf) else Double.round64 (a * d) (b * c)
  | .inf, .fin _ _ => .inf
  | .fin _ _, .inf => .fin 0 1
  | _, _ => .nan

/-- The Number operator `*` on non-negative operands. -/
def Double.mul : Double → Double → Double
  | .fin a b, .fin c d => Double.round64 (a * c) (b * d)
  | .inf, .fin c _ => if c = 0 then .nan else .inf
  | .fin a _, .inf => if a = 0 then .nan else .inf
  | .inf, .inf => .inf
  | _, _ => .nan

/-- `Math.round` on non-negative Numbers: the nearest integer, ties towards
`+Infinity`; `NaN` and `+Infinity` are returned unchanged. -/
def Math.round : Double → Double
  | .fin a b => .fin ((2 * a + b) / (2 * b)) 1
  | x => x

/-- The comparison `x >= n` of a non-negative Number with a non-negative integer
constant; every comparison with `NaN` is false. -/
def Double.geNat : Double → Nat → Bool
  | .fin a b, n => decide (n * b ≤ a)
  | .inf, _ => true
  | .nan, _ => false

/-! ## Signed Numbers -/

/-- A Number with its sign: `negative` is the sign bit and `magnitude` the absolute
value, so that `-0` is the zero magnitude with the sign bit set. The sign bit of `NaN`
is not observable. -/
structure Number where
  negative : Bool
  magnitude : Double
  deriving DecidableEq, Repr

/-- The Number of a non-negative integer, taken exactly. -/
def Number.ofNat (n : Nat) : Number := ⟨false, .fin n 1⟩

/-- The Number of an integer, taken exactly: a binary64 value whenever the integer is one
(as every integer of absolute value up to `2^53` is). -/
def Number.ofInt (z : Int) : Number := ⟨decide (z < 0), .fin z.natAbs 1⟩

/-- A non-negative Number as a signed one. -/
def Number.ofDouble (d : Double) : Number := ⟨false, d⟩

/-- The Number operator `*`: the sign is the exclusive or of the signs. -/
def Number.mul (x y : Number) : Number :=
  ⟨x.negative != y.negative, Double.mul x.magnitude y.magnitude⟩

/-- The Number operator `/`: the sign is the exclusive or of the signs. -/
def Number.div (x y : Number) : Number :=
  ⟨x.negative != y.negative, Double.div x.magnitude y.magnitude⟩

/-- The Number operator `+`: the exact sum, correctly rounded. An exact sum of zero is
`+0` unless both operands are negative; `Infinity + -Infinity` is `NaN`. -/
def Number.add (x y : Number) : Number :=
  match x.magnitude, y.magnitude with
  | .fin a b, .fin c d =>
      if x.negative = y.negative then ⟨x.negative, Double.round64 (a * d + c * b) (b * d)⟩
      else if c * b < a * d then ⟨x.negative, Double.round64 (a * d - c * b) (b * d)⟩
      else if a * d < c * b then ⟨y.negative, Double.round64 (c * b - a * d) (b * d)⟩
      else ⟨false, .fin 0 1⟩
  | .inf, .fin _ _ => ⟨x.negative, .inf⟩
  | .fin _ _, .inf => ⟨y.negative, .inf⟩
  | .inf, .inf => if x.negative = y.negative then ⟨x.negative, .inf⟩ else ⟨false, .nan⟩
  | _, _ => ⟨false, .nan⟩

/-- `Math.floor` on signed Numbers: the magnitude is rounded down for a positive and up
for a negative Number; `NaN`, the infinities and both zeros are returned unchanged. -/
def Math.floor (x : Number) : Number :=
  match x.magnitude with
  | .fin a b =>
      if x.negative then ⟨true, .fin ((a + b - 1) / b) 1⟩ else ⟨false, .fin (a / b) 1⟩
  | _ => x

/-- The comparison `x <= y` of Numbers: false as soon as one side is `NaN`; `-0` and
`+0` compare equal. -/
def Number.le (x y : Number) : Bool :=
  match x.magnitude, y.magnitude with
  | .fin a b, .fin c d =>
      match x.negative, y.negative with
      | false, false => decide (a * d ≤ c * b)
      | true, true => decide (c * b ≤ a * d)
      | true, false => true
      | false, true => decide (a = 0 ∧ c = 0)
  | .fin _ _, .inf => !y.negative
  | .inf, .fin _ _ => x.negative
  | .inf, .inf => x.negative || !y.negative
  | _, _ => false

/-- The comparison `x >= y` of Numbers. -/
def Number.ge (x y : Number) : Bool := Number.le y x

/-- The comparison `x < y` of Numbers. -/
def Number.lt (x y : Number) : Bool := Number.le x y && !Number.le y x

/-- Strict equality `x === y` of Numbers: the same value (`NaN` equals nothing, `-0`
equals `+0`). -/
def Number.eq (x y : Number) : Bool := Number.le x y && Number.le y x

/-! ## Strings: whitespace and the pattern engine -/

/-- The characters matched by `\s` in a JavaScript regular expression
(WhiteSpace and LineTerminator code points; all lie in the basic plane). -/
def isWhiteSpace (c : Nat) : Bool :=
  (0x0009 ≤ c && c ≤ 0x000D) || c == 0x0020 || c == 0x00A0 || c == 0x1680 ||
  (0x2000 ≤ c && c ≤ 0x200A) || c == 0x2028 || c == 0x2029 || c == 0x202F ||
  c == 0x205F || c == 0x3000 || c == 0xFEFF

/-- The call `s.replace(/\s/g, '').split('')`: the code units of `s` that are not
whitespace, in order. -/
def stripWhitespace (s : JSString) : JSString :=
  s.filter (fun c => !isWhiteSpace c)

/-- A regular expression that is a sequence of single-character atoms; each atom
(a literal or a bracketed class) is given by the list of code units it accepts. -/
structure RegExp where
  atoms : List (List Nat)

/-- Whether the atoms match the code units at the start of the text. -/
def matchesAt : List (List Nat) → JSString → Bool
  | [], _ => true
  | _ :: _, [] => false
  | cls :: rest, c :: cs => cls.contains c && matchesAt rest cs

/-- Search of the atoms from every position of the text, left to right. -/
def searchFrom (atoms : List (List Nat)) : JSString → Bool
  | [] => matchesAt atoms []
  | c :: cs => matchesAt atoms (c :: cs) || searchFrom atoms cs

/-- `RegExp.prototype.test` for a pattern without flags: whether the pattern
matches somewhere in the text. -/
def RegExp.test (p : RegExp) (text : JSString) : Bool :=
  searchFrom p.atoms text

/-! ## The abjad table and `calculateAbjadValue` -/

namespace Setup

/-- `ABJAD_MAP` of `scripts/setup.js`, lines 25-30, keys as code units. -/
def ABJAD_MAP : List (Nat × Nat) :=
  [(0x0627, 1), (0x0628, 2), (0x062C, 3), (0x062F, 4), (0x0647, 5), (0x0648, 6),
   (0x0632, 7), (0x062D, 8), (0x0637, 9),
   (0x064A, 10), (0x0643, 20), (0x0644, 30), (0x0645, 40), (0x0646, 50), (0x0633, 60),
   (0x0639, 70), (0x0641, 80),
   (0x0635, 90), (0x0642, 100), (0x0631, 200), (0x0634, 300), (0x062A, 400), (0x062B, 500),
   (0x062E, 600),
   (0x0630, 700), (0x0636, 800), (0x0638, 900), (0x063A, 1000)]

/-- `calculateAbjadValue` of `scripts/setup.js`, lines 238-243. -/
def calculateAbjadValue (text : Option JSString) : Nat :=
  if isFalsy text then 0
  else (text.getD []).foldl (fun sum char => sum + getOrZero ABJAD_MAP char) 0

/-- The constant `testText` of `validateSetup`, `scripts/setup.js`, line 344: the
Basmala without diacritics. -/
def testText : JSString :=
  [0x0628, 0x0633, 0x0645, 0x0020, 0x0627, 0x0644, 0x0644, 0x0647, 0x0020,
   0x0627, 0x0644, 0x0631, 0x062D, 0x0645, 0x0646, 0x0020,
   0x0627, 0x0644, 0x0631, 0x062D, 0x064A, 0x0645]

end Setup

namespace TestScript

/-- `ABJAD_MAP` of `scripts/test.js`, lines 63-68, keys as code units. -/
def ABJAD_MAP : List (Nat × Nat) :=
  [(0x0627, 1), (0x0628, 2), (0x062C, 3), (0x062F, 4), (0x0647, 5), (0x0648, 6),
   (0x0632, 7), (0x062D, 8), (0x0637, 9),
   (0x064A, 10), (0x0643, 20), (0x0644, 30), (0x0645, 40), (0x0646, 50), (0x0633, 60),
   (0x0639, 70), (0x0641, 80),
   (0x0635, 90), (0x0642, 100), (0x0631, 200), (0x0634, 300), (0x062A, 400), (0x062B, 500),
   (0x062E, 600),
   (0x0630, 700), (0x0636, 800), (0x0638, 900), (0x063A, 1000)]

/-- `calculateAbjadValue` of `scripts/test.js`, lines 365-370. -/
def calculateAbjadValue (text : Option JSString) : Nat :=
  if isFalsy text then 0
  else (text.getD []).foldl (fun sum char => sum + getOrZero ABJAD_MAP char) 0

/-- `calculateAccuracy` of `scripts/test.js`, lines 347-363 (the counter `matches` of the
source is `matchCount` here). -/
def calculateAccuracy (expected actual : Option JSString) : Double :=
  if isFalsy expected || isFalsy actual then Double.ofNat 0
  else
    let expectedChars := stripWhitespace (expected.getD [])
    let actualChars := stripWhitespace (actual.getD [])
    let minLength := min expectedChars.length actualChars.length
    let matchCount := (List.range minLength).foldl
      (fun matchCount i => if expectedChars[i]? = actualChars[i]? then matchCount + 1
        else matchCount) 0
    Math.round (Double.mul
      (Double.div (Double.ofNat matchCount) (Double.ofNat expectedChars.length))
      (Double.ofNat 100))

/-- `calculateJannahPoints` of `scripts/test.js`, lines 372-377, in the binary64 arithmetic of
the source: a rounded product and a rounded quotient, each under `Math.floor`, the
comparison `accuracy >= 95`, and two rounded sums. -/
def calculateJannahPoints (accuracy abjadValue : Number) : Number :=
  let basePoints := Math.floor (Number.mul accuracy (Number.ofNat 10))
  let abjadBonus := Math.floor (Number.div abjadValue (Number.ofNat 100))
  let perfectionBonus :=
    if Number.ge accuracy (Number.ofNat 95) then Number.ofNat 500 else Number.ofNat 0
  Number.add (Number.add basePoints abjadBonus) perfectionBonus

/-- The completion of a call `calculateJannahPoints(accuracy, abjadValue)` on numbers:
the body is four arithmetic statements and a `return`, without any `throw`, so the call
completes normally with the computed value. -/
def calculateJannahPointsCall (accuracy abjadValue : Number) : Except JSError Number :=
  .ok (calculateJannahPoints accuracy abjadValue)

/-- One entry of `TEST_SAMPLES`. -/
structure TestSample where
  id : Nat
  surah : Nat
  ayah : Nat
  arabic : JSString
  expected_abjad : Nat
  difficulty : Nat
  tajweed_rules : List String

/-- The array `TEST_SAMPLES` of `scripts/test.js`, lines 71-108, each `arabic` text given
by its code units. -/
def TEST_SAMPLES : List TestSample :=
  [ { id := 1, surah := 1, ayah := 1,
      arabic :=
        [0x0628, 0x0650, 0x0633, 0x0645, 0x0650, 0x0020, 0x0627, 0x0644, 0x0644, 0x0647,
         0x0650, 0x0020, 0x0627, 0x0644, 0x0631, 0x064E, 0x062D, 0x0645, 0x0670, 0x0646,
         0x0650, 0x0020, 0x0627, 0x0644, 0x0631, 0x064E, 0x062D, 0x0650, 0x064A, 0x0645,
         0x0650],
      expected_abjad := 786, difficulty := 1, tajweed_rules := ["idgham", "madd"] },
    { id := 2, surah := 1, ayah := 2,
      arabic :=
        [0x0627, 0x0644, 0x062D, 0x064E, 0x0645, 0x062F, 0x064F, 0x0020, 0x0644, 0x0650,
         0x0644, 0x0647, 0x0650, 0x0020, 0x0631, 0x064E, 0x0628, 0x0651, 0x0650, 0x0020,
         0x0627, 0x0644, 0x0639, 0x064E, 0x0627, 0x0644, 0x064E, 0x0645, 0x0650, 0x064A,
         0x0646, 0x064E],
      expected_abjad := 1038, difficulty := 1, tajweed_rules := ["ghunnah", "qalqalah"] },
    { id := 3, surah := 2, ayah := 1,
      arabic := [0x0627, 0x0644, 0x0645],
      expected_abjad := 71, difficulty := 1, tajweed_rules := ["madd"] },
    { id := 4, surah := 2, ayah := 255,
      arabic :=
        [0x0627, 0x0644, 0x0644, 0x0647, 0x064F, 0x0020, 0x0644, 0x0627, 0x0020, 0x0625,
         0x0650, 0x0644, 0x0670, 0x0647, 0x064E, 0x0020, 0x0625, 0x0650, 0x0644, 0x0627,
         0x064E, 0x0651, 0x0020, 0x0647, 0x064F, 0x0648, 0x064E, 0x0020, 0x0627, 0x0644,
         0x062D, 0x064E, 0x064A, 0x064F, 0x0651, 0x0020, 0x0627, 0x0644, 0x0642, 0x064E,
         0x064A, 0x064F, 0x0651, 0x0648, 0x0645, 0x064F],
      expected_abjad := 319, difficulty := 3,
      tajweed_rules := ["madd", "ghunnah", "qalqalah"] } ]

/-- The fully vocalised Basmala printed by `scripts/test.js`, lines 6 and 31. -/
def printedBasmala : JSString :=
  [0x0628, 0x0650, 0x0633, 0x0652, 0x0645, 0x0650, 0x0020, 0x0627, 0x0644, 0x0644,
   0x064E, 0x0651, 0x0647, 0x0650, 0x0020, 0x0627, 0x0644, 0x0631, 0x064E, 0x0651,
   0x062D, 0x0652, 0x0645, 0x064E, 0x0670, 0x0646, 0x0650, 0x0020, 0x0627, 0x0644,
   0x0631, 0x064E, 0x0651, 0x062D, 0x0650, 0x064A, 0x0645, 0x0650]

/-- The pass condition of one abjad test case, `testAbjadCalculations`, line 242:
`Math.abs(calculated - expected) <= 5`. -/
def abjadTestPasses (sample : TestSample) : Bool :=
  let calculated := calculateAbjadValue (some sample.arabic)
  let expected := sample.expected_abjad
  decide (Int.natAbs ((calculated : Int) - (expected : Int)) ≤ 5)

/-- The field `targetAccuracy` of `CONFIG`, `scripts/test.js`, line 58. -/
def CONFIG.targetAccuracy : Nat := 85

/-- The field `maxTestSamples` of `CONFIG`, `scripts/test.js`, line 59. -/
def CONFIG.maxTestSamples : Nat := 10

/-- One element of the array `testCases` of `testAccuracy`. -/
structure AccuracyTestCase where
  input : JSString
  expected : JSString
  name : String

/-- The array `testCases` built for one sample, `scripts/test.js`, lines 195-200:
the verse itself, `slice(0, -2)`, the verse with every fatha (U+064E) removed, and the
verse followed by a space and the word alif lam lam ha. -/
def testCases (sample : TestSample) : List AccuracyTestCase :=
  [ { input := sample.arabic, expected := sample.arabic, name := "Perfect Match" },
    { input := sample.arabic.take (sample.arabic.length - 2), expected := sample.arabic,
      name := "Missing End" },
    { input := sample.arabic.filter (fun c => c != 0x064E), expected := sample.arabic,
      name := "Missing Diacritics" },
    { input := sample.arabic ++ [0x0020, 0x0627, 0x0644, 0x0644, 0x0647],
      expected := sample.arabic, name := "Extra Words" } ]

/-- One element pushed to `results.accuracy` (the measured `duration` is left out). -/
structure AccuracyResult where
  sample_id : Nat
  test_case : String
  accuracy : Double
  passed : Bool
  surah : Nat
  ayah : Nat
  deriving DecidableEq, Repr

/-- The results recorded by `testAccuracy`, `scripts/test.js`, lines 187-233: for each of
the first `maxTestSamples` samples and each of its test cases, the accuracy and whether it
reaches `targetAccuracy`. -/
def testAccuracy : List AccuracyResult :=
  ((TEST_SAMPLES.take CONFIG.maxTestSamples).map fun sample =>
    (testCases sample).map fun testCase =>
      let accuracy := calculateAccuracy (some testCase.expected) (some testCase.input)
      { sample_id := sample.id, test_case := testCase.name, accuracy := accuracy,
        passed := accuracy.geNat CONFIG.targetAccuracy,
        surah := sample.surah, ayah := sample.ayah }).flatten

/-- The object `patterns` of `detectTajweedRule`, `scripts/test.js`, lines 505-510. -/
def patterns : List (String × RegExp) :=
  [ ("madd", ⟨[[0x0627, 0x0648, 0x064A, 0x0670]]⟩),
    ("ghunnah", ⟨[[0x0645, 0x0646]]⟩),
    ("qalqalah", ⟨[[0x0642, 0x0637, 0x0628, 0x062C, 0x062F]]⟩),
    ("idgham", ⟨[[0x0646], [0x0645, 0x0644, 0x0646, 0x0631, 0x064A, 0x0648]]⟩) ]

/-- The property names every object literal inherits from `Object.prototype`; reading one
of them from `patterns` gives a truthy value that has no method `test`. -/
def inheritedKeys : List String :=
  ["constructor", "__defineGetter__", "__defineSetter__", "hasOwnProperty",
   "__lookupGetter__", "__lookupSetter__", "isPrototypeOf", "propertyIsEnumerable",
   "toString", "valueOf", "__proto__", "toLocaleString"]

/-- `detectTajweedRule` of `scripts/test.js`, lines 504-513:
`patterns[rule] ? patterns[rule].test(text) : false`. -/
def detectTajweedRule (text : JSString) (rule : String) : Except JSError Bool :=
  match patterns.lookup rule with
  | some pattern => .ok (pattern.test text)
  | none => if rule ∈ inheritedKeys then .error .typeError else .ok false

end TestScript

namespace RecitationAnalyzer

/-- `abjadMap` of `RecitationAnalyzer.jsx`, lines 28-33, keys as code units. -/
def abjadMap : List (Nat × Nat) :=
  [(0x0627, 1), (0x0628, 2), (0x062C, 3), (0x062F, 4), (0x0647, 5), (0x0648, 6),
   (0x0632, 7), (0x062D, 8), (0x0637, 9),
   (0x064A, 10), (0x0643, 20), (0x0644, 30), (0x0645, 40), (0x0646, 50), (0x0633, 60),
   (0x0639, 70), (0x0641, 80),
   (0x0635, 90), (0x0642, 100), (0x0631, 200), (0x0634, 300), (0x062A, 400), (0x062B, 500),
   (0x062E, 600),
   (0x0630, 700), (0x0636, 800), (0x0638, 900), (0x063A, 1000)]

/-- `calculateAbjadValue` of `RecitationAnalyzer.jsx`, lines 63-67. There is no
guard here: on an absent text the method call `text.split` raises a `TypeError`. -/
def calculateAbjadValue (text : Option JSString) : Except JSError Nat :=
  match text with
  | none => .error .typeError
  | some t => .ok (t.foldl (fun sum char => sum + getOrZero abjadMap char) 0)

/-- `calculateAccuracy` of `RecitationAnalyzer.jsx`, lines 69-85 (the counter `matches`
of the source is `matchCount` here). -/
def calculateAccuracy (expected actual : Option JSString) : Double :=
  if isFalsy expected || isFalsy actual then Double.ofNat 0
  else
    let expectedChars := stripWhitespace (expected.getD [])
    let actualChars := stripWhitespace (actual.getD [])
    let minLength := min expectedChars.length actualChars.length
    let matchCount := (List.range minLength).foldl
      (fun matchCount i => if expectedChars[i]? = actualChars[i]? then matchCount + 1
        else matchCount) 0
    Math.round (Double.mul
      (Double.div (Double.ofNat matchCount) (Double.ofNat expectedChars.length))
      (Double.ofNat 100))

/-- `calculateJannahPoints` of `RecitationAnalyzer.jsx`, lines 87-92, in the binary64 arithmetic of
the source: a rounded product and a rounded quotient, each under `Math.floor`, the
comparison `accuracy >= 95`, and two rounded sums. -/
def calculateJannahPoints (accuracy abjadValue : Number) : Number :=
  let basePoints := Math.floor (Number.mul accuracy (Number.ofNat 10))
  let abjadBonus := Math.floor (Number.div abjadValue (Number.ofNat 100))
  let perfectionBonus :=
    if Number.ge accuracy (Number.ofNat 95) then Number.ofNat 500 else Number.ofNat 0
  Number.add (Number.add basePoints abjadBonus) perfectionBonus

/-- One entry of the `tajweedRules` array. -/
structure TajweedRule where
  rule : String
  pattern : RegExp
  description : String

/-- One element of the array returned by `analyzeTajweed`. -/
structure TajweedError where
  rule : String
  description : String
  severity : String
  deriving DecidableEq, Repr

/-- The array `tajweedRules` of `RecitationAnalyzer.jsx`, lines 195-200. -/
def tajweedRules : List TajweedRule :=
  [ { rule := "Madd", pattern := ⟨[[0x0627, 0x0648, 0x064A]]⟩,
      description := "Elongation rules" },
    { rule := "Ghunnah", pattern := ⟨[[0x0645, 0x0646]]⟩,
      description := "Nasal sound rules" },
    { rule := "Qalqalah", pattern := ⟨[[0x0642, 0x0637, 0x0628, 0x062C, 0x062F]]⟩,
      description := "Echoing rules" },
    { rule := "Idgham",
      pattern := ⟨[[0x0646], [0x0645, 0x0644, 0x0646, 0x0631, 0x064A, 0x0648]]⟩,
      description := "Merging rules" } ]

/-- `analyzeTajweed` of `RecitationAnalyzer.jsx`, lines 190-213: the `forEach`
over the rule array, pushing one entry per rule that matches `expected` and does
not match `actual`. -/
def analyzeTajweed (actual expected : JSString) : List TajweedError :=
  tajweedRules.foldl
    (fun errors rule =>
      if rule.pattern.test expected && !rule.pattern.test actual then
        errors ++ [{ rule := rule.rule, description := rule.description, severity := "medium" }]
      else errors)
    []

/-- The completion of a call `calculateJannahPoints(accuracy, abjadValue)` on numbers:
the body is four arithmetic statements and a `return`, without any `throw`, so the call
completes normally with the computed value. -/
def calculateJannahPointsCall (accuracy abjadValue : Number) : Except JSError Number :=
  .ok (calculateJannahPoints accuracy abjadValue)

/-- The table `quranData` of `loadExpectedText`, `RecitationAnalyzer.jsx`, lines 50-54:
keys `1:1`, `1:2`, `1:3`, each verse given by its code units. -/
def quranData : List (String × JSString) :=
  [ ("1:1",
      [0x0628, 0x0650, 0x0633, 0x0645, 0x0650, 0x0020, 0x0627, 0x0644, 0x0644, 0x0647,
       0x0650, 0x0020, 0x0627, 0x0644, 0x0631, 0x064E, 0x062D, 0x0645, 0x0670, 0x0646,
       0x0650, 0x0020, 0x0627, 0x0644, 0x0631, 0x064E, 0x062D, 0x0650, 0x064A, 0x0645,
       0x0650]),
    ("1:2",
      [0x0627, 0x0644, 0x062D, 0x064E, 0x0645, 0x062F, 0x064F, 0x0020, 0x0644, 0x0650,
       0x0644, 0x0647, 0x0650, 0x0020, 0x0631, 0x064E, 0x0628, 0x0650, 0x0651, 0x0020,
       0x0627, 0x0644, 0x0639, 0x064E, 0x0627, 0x0644, 0x064E, 0x0645, 0x0650, 0x064A,
       0x0646, 0x064E]),
    ("1:3",
      [0x0627, 0x0644, 0x0631, 0x064E, 0x062D, 0x0645, 0x0670, 0x0646, 0x0650, 0x0020,
       0x0627, 0x0644, 0x0631, 0x064E, 0x062D, 0x0650, 0x064A, 0x0645, 0x0650]) ]

end RecitationAnalyzer

namespace IndexPage

/-- The object returned by `getLevelBadge`; `icon` is given by its code units. -/
structure LevelBadge where
  level : String
  color : String
  icon : JSString
  deriving DecidableEq, Repr

/-- `getLevelBadge` of `src/pages/index.jsx`, lines 128-134, on a finite number (the call
site passes `total_jannah_points || 0`, never `NaN` or an absent value). -/
def getLevelBadge (points : ℚ) : LevelBadge :=
  if points ≥ 10000 then
    { level := "Master Scholar", color := "#FFD700", icon := [0xF8FF, 0xFC, 0xEB, 0xEB] }
  else if points ≥ 5000 then
    { level := "Advanced Reciter", color := "#C0392B", icon := [0xF8FF, 0xFC, 0xE5, 0xFC] }
  else if points ≥ 2000 then
    { level := "Intermediate", color := "#E67E22", icon := [0xF8FF, 0xFC, 0xEC, 0xF8] }
  else if points ≥ 500 then
    { level := "Beginner", color := "#27AE60", icon := [0xF8FF, 0xFC, 0xE5, 0xB1] }
  else
    { level := "Learner", color := "#3498DB", icon := [0xF8FF, 0xFC, 0xEC, 0xF6] }

end IndexPage

/-! ## Letters named in the specification -/

def alif : Nat := 0x0627
def ba : Nat := 0x0628
def ta : Nat := 0x062A
def tha : Nat := 0x062B
def jim : Nat := 0x062C
def hha : Nat := 0x062D
def kha : Nat := 0x062E
def dal : Nat := 0x062F
def dhal : Nat := 0x0630
def ra : Nat := 0x0631
def zay : Nat := 0x0632
def sin : Nat := 0x0633
def shin : Nat := 0x0634
def sad : Nat := 0x0635
def dad : Nat := 0x0636
def tta : Nat := 0x0637
def zza : Nat := 0x0638
def ain : Nat := 0x0639
def ghain : Nat := 0x063A
def fa : Nat := 0x0641
def qaf : Nat := 0x0642
def kaf : Nat := 0x0643
def lam : Nat := 0x0644
def mim : Nat := 0x0645
def nun : Nat := 0x0646
def ha : Nat := 0x0647
def waw : Nat := 0x0648
def ya : Nat := 0x064A

/-- The weight of one character as the specification words it: the traditional
value of each of the 28 letters, and `0` for every other character. -/
def letterWeight (c : Nat) : Nat :=
  if c = alif then 1 else if c = ba then 2 else if c = jim then 3
  else if c = dal then 4 else if c = ha then 5 else if c = waw then 6
  else if c = zay then 7 else if c = hha then 8 else if c = tta then 9
  else if c = ya then 10 else if c = kaf then 20 else if c = lam then 30
  else if c = mim then 40 else if c = nun then 50 else if c = sin then 60
  else if c = ain then 70 else if c = fa then 80 else if c = sad then 90
  else if c = qaf then 100 else if c = ra then 200 else if c = shin then 300
  else if c = ta then 400 else if c = tha then 500 else if c = kha then 600
  else if c = dhal then 700 else if c = dad then 800 else if c = zza then 900
  else if c = ghain then 1000 else 0

/-! ## Notions used to state the claims -/

/-- The number of indices below both lengths at which two texts carry the same
character, as the specification words the match count. -/
def positionalMatches (e a : JSString) : Nat :=
  ((List.range (min e.length a.length)).filter (fun i => decide (e[i]? = a[i]?))).length

/-- The integer nearest to `p / q`, an exact half rounded up: `floor (p / q + 1 / 2)`. -/
def roundHalfUp (p q : Nat) : Nat := (2 * p + q) / (2 * q)

/-- The final expression of `calculateAccuracy`,
`Math.round((matches / expectedChars.length) * 100)`, as a function of its two counters. -/
def scoreExpr (matchCount length : Nat) : Double :=
  Math.round (Double.mul (Double.div (Double.ofNat matchCount) (Double.ofNat length))
    (Double.ofNat 100))

/-- The text contains at least one of the given letters. -/
def containsAnyOf (letters : List Nat) (text : JSString) : Prop :=
  ∃ c ∈ text, c ∈ letters

instance containsAnyOf.decidable (letters : List Nat) (text : JSString) :
    Decidable (containsAnyOf letters text) :=
  inferInstanceAs (Decidable (∃ c ∈ text, c ∈ letters))

/-- Somewhere in the text the letter `first` is immediately followed by one of `seconds`. -/
def containsFollowedBy (first : Nat) (seconds : List Nat) (text : JSString) : Prop :=
  ∃ i < text.length, text[i]? = some first ∧ ∃ c ∈ seconds, text[i + 1]? = some c

instance containsFollowedBy.decidable (first : Nat) (seconds : List Nat) (text : JSString) :
    Decidable (containsFollowedBy first seconds text) :=
  inferInstanceAs
    (Decidable (∃ i < text.length, text[i]? = some first ∧ ∃ c ∈ seconds, text[i + 1]? = some c))

/-- The rank of a level name, from `Learner` (0) to `Master Scholar` (4). -/
def levelRank (level : String) : Nat :=
  if level = "Learner" then 0
  else if level = "Beginner" then 1
  else if level = "Intermediate" then 2
  else if level = "Advanced Reciter" then 3
  else 4

/-- The 28 letters of the abjad table, by name. -/
def abjadLetters : List Nat :=
  [alif, ba, jim, dal, ha, waw, zay, hha, tta, ya, kaf, lam, mim, nun, sin, ain, fa, sad,
   qaf, ra, shin, ta, tha, kha, dhal, dad, zza, ghain]

/-- The Arabic diacritics: tanwin, the short vowels, shadda and sukun (U+064B to U+0652)
and the superscript alif (U+0670). -/
def isArabicDiacritic (c : Nat) : Prop :=
  (0x064B ≤ c ∧ c ≤ 0x0652) ∨ c = 0x0670

/-- Forty characters: twenty-three times `a`, then seventeen times `b`. -/
def tieExpected : JSString := List.replicate 23 0x61 ++ List.replicate 17 0x62

/-- Twenty-three times `a`. -/
def tieActual : JSString := List.replicate 23 0x61

/-- The value of a non-negative Number as a rational; `+Infinity` counts as `2^1024`,
the bound every finite binary64 value stays below. -/
def Double.val : Double → ℚ
  | .fin a b => (a : ℚ) / b
  | .inf => 2 ^ 1024
  | .nan => 0

/-- The value of a Number as a rational, the infinities counting as `2^1024` and
`-2^1024`. -/
def Number.val (x : Number) : ℚ :=
  if x.negative then -x.magnitude.val else x.magnitude.val

/-- Rounding of a rational to binary64, on values: the sign is kept and the absolute value
is rounded by `round64`. -/
def roundRat (q : ℚ) : ℚ :=
  if 0 ≤ q then Double.val (Double.round64 q.num.natAbs q.den)
  else -Double.val (Double.round64 q.num.natAbs q.den)

/-- A non-negative Number is well formed when it is not `NaN` and, if finite, has a
positive denominator, lies below `2^1024`, and is an integer or at most `2^53`. -/
def Double.IsD (x : Double) : Prop :=
  x = .inf ∨ ∃ N D, x = .fin N D ∧ 0 < D ∧ (N : ℚ) / D < 2 ^ 1024 ∧
    (D = 1 ∨ (N : ℚ) / D ≤ 2 ^ 53)

/-- A signed Number is well formed when its magnitude is. -/
def Number.IsD (x : Number) : Prop := x.magnitude.IsD

/-! ## Theorems -/

/-! ### Table lookup and the abjad sum -/

theorem foldl_add_eq_sum (f : Nat → Nat) (l : List Nat) (acc : Nat) :
    l.foldl (fun sum char => sum + f char) acc = acc + (l.map f).sum := by
  induction l generalizing acc with
  | nil => simp
  | cons x xs ih => simp [List.foldl_cons, ih, Nat.add_assoc]

theorem getOrZero_nil (c : Nat) : getOrZero [] c = 0 := rfl

theorem getOrZero_cons (k v c : Nat) (es : List (Nat × Nat)) :
    getOrZero ((k, v) :: es) c = if c = k then v else getOrZero es c := by
  by_cases h : c = k
  · subst h; simp [getOrZero, List.lookup_cons]
  · have hb : (c == k) = false := by simpa using h
    simp [getOrZero, List.lookup_cons, hb, h]

theorem getOrZero_setup (c : Nat) : getOrZero Setup.ABJAD_MAP c = letterWeight c := by
  unfold Setup.ABJAD_MAP letterWeight
  simp only [getOrZero_cons, getOrZero_nil]
  rfl

theorem getOrZero_test (c : Nat) : getOrZero TestScript.ABJAD_MAP c = letterWeight c := by
  unfold TestScript.ABJAD_MAP letterWeight
  simp only [getOrZero_cons, getOrZero_nil]
  rfl

theorem getOrZero_component (c : Nat) :
    getOrZero RecitationAnalyzer.abjadMap c = letterWeight c := by
  unfold RecitationAnalyzer.abjadMap letterWeight
  simp only [getOrZero_cons, getOrZero_nil]
  rfl

/-- C1: in each of the three copies, `calculateAbjadValue` of a string is the sum,
over its characters taken one at a time, of the character's weight in the fixed
28-letter table, every character outside the table counting as 0. -/
theorem calculateAbjadValue_eq_sum (text : JSString) :
    Setup.calculateAbjadValue (some text) = (text.map letterWeight).sum ∧
    TestScript.calculateAbjadValue (some text) = (text.map letterWeight).sum ∧
    RecitationAnalyzer.calculateAbjadValue (some text) = .ok (text.map letterWeight).sum := by
  refine ⟨?_, ?_, ?_⟩
  · cases text with
    | nil => simp [Setup.calculateAbjadValue, isFalsy]
    | cons c cs =>
      simp only [Setup.calculateAbjadValue, isFalsy, Option.getD_some]
      rw [if_neg (by simp), foldl_add_eq_sum, Nat.zero_add]
      rw [show getOrZero Setup.ABJAD_MAP = letterWeight from funext getOrZero_setup]
  · cases text with
    | nil => simp [TestScript.calculateAbjadValue, isFalsy]
    | cons c cs =>
      simp only [TestScript.calculateAbjadValue, isFalsy, Option.getD_some]
      rw [if_neg (by simp), foldl_add_eq_sum, Nat.zero_add]
      rw [show getOrZero TestScript.ABJAD_MAP = letterWeight from funext getOrZero_test]
  · simp only [RecitationAnalyzer.calculateAbjadValue]
    rw [foldl_add_eq_sum, Nat.zero_add]
    rw [show getOrZero RecitationAnalyzer.abjadMap = letterWeight from
      funext getOrZero_component]

/-! ### Binary logarithm and rounding of quotients -/

theorem log2Fuel_spec (fuel n : Nat) (hfuel : n ≤ fuel) (hn : 0 < n) :
    2 ^ log2Fuel fuel n ≤ n ∧ n < 2 ^ (log2Fuel fuel n + 1) := by
  induction fuel generalizing n with
  | zero => omega
  | succ k ih =>
    unfold log2Fuel
    split_ifs with h2
    · have hk := ih (n / 2) (by omega) (by omega)
      constructor
      · calc 2 ^ (log2Fuel k (n / 2) + 1) = 2 ^ log2Fuel k (n / 2) * 2 := by rw [pow_succ]
          _ ≤ (n / 2) * 2 := Nat.mul_le_mul_right 2 hk.1
          _ ≤ n := Nat.div_mul_le_self n 2
      · have h3 : n / 2 + 1 ≤ 2 ^ (log2Fuel k (n / 2) + 1) := hk.2
        calc n < (n / 2 + 1) * 2 := by omega
          _ ≤ 2 ^ (log2Fuel k (n / 2) + 1) * 2 := Nat.mul_le_mul_right 2 h3
          _ = 2 ^ (log2Fuel k (n / 2) + 1 + 1) := by rw [← pow_succ]
    · constructor
      · simpa using hn
      · simp; omega

theorem ilog2_spec (n : Nat) (hn : 0 < n) : 2 ^ ilog2 n ≤ n ∧ n < 2 ^ (ilog2 n + 1) :=
  log2Fuel_spec n n (Nat.le_refl n) hn

theorem ilog2_lt_of_lt_pow (n k : Nat) (hn : 0 < n) (h : n < 2 ^ k) : ilog2 n < k := by
  by_contra hc
  have h1 : 2 ^ k ≤ 2 ^ ilog2 n := Nat.pow_le_pow_right (by norm_num) (by omega)
  have h2 := (ilog2_spec n hn).1
  omega

theorem roundHalfEven_spec (x y : Nat) (hy : 0 < y) :
    2 * (y * roundHalfEven x y) ≤ 2 * x + y ∧ 2 * x ≤ 2 * (y * roundHalfEven x y) + y := by
  have hx : y * (x / y) + x % y = x := Nat.div_add_mod x y
  have hr : x % y < y := Nat.mod_lt x hy
  unfold roundHalfEven
  simp only []
  split_ifs <;> (try simp only [Nat.mul_add, Nat.mul_one]) <;> omega

theorem floorLog2_spec (a b : Nat) (ha : 0 < a) (hb : 0 < b) :
    (2 : ℚ) ^ floorLog2 a b ≤ (a : ℚ) / b ∧ (a : ℚ) / b < (2 : ℚ) ^ (floorLog2 a b + 1) := by
  obtain ⟨ha1, ha2⟩ := ilog2_spec a ha
  obtain ⟨hb1, hb2⟩ := ilog2_spec b hb
  have hbq : (0 : ℚ) < b := by exact_mod_cast hb
  have h2 : (2 : ℚ) ≠ 0 := by norm_num
  have hpa : (0 : ℚ) < 2 ^ ilog2 a := by positivity
  have hpb : (0 : ℚ) < 2 ^ ilog2 b := by positivity
  have ha1q : (2 : ℚ) ^ ilog2 a ≤ a := by exact_mod_cast ha1
  have ha2q : (a : ℚ) < 2 ^ ilog2 a * 2 := by
    have : a < 2 ^ ilog2 a * 2 := by rw [← pow_succ]; exact ha2
    exact_mod_cast this
  have hb1q : (2 : ℚ) ^ ilog2 b ≤ b := by exact_mod_cast hb1
  have hb2q : (b : ℚ) < 2 ^ ilog2 b * 2 := by
    have : b < 2 ^ ilog2 b * 2 := by rw [← pow_succ]; exact hb2
    exact_mod_cast this
  have hd : (2 : ℚ) ^ ((ilog2 a : Int) - (ilog2 b : Int)) = 2 ^ ilog2 a / 2 ^ ilog2 b := by
    rw [zpow_sub₀ h2, zpow_natCast, zpow_natCast]
  unfold floorLog2
  simp only []
  split_ifs with hc
  · have hcq : (b : ℚ) * 2 ^ ilog2 a ≤ a * 2 ^ ilog2 b := by exact_mod_cast hc
    constructor
    · rw [hd, div_le_div_iff₀ hpb hbq]
      linarith
    · rw [zpow_add_one₀ h2, hd, div_lt_iff₀ hbq, div_mul_eq_mul_div, div_mul_eq_mul_div,
        lt_div_iff₀ hpb]
      nlinarith
  · have hcq : (a : ℚ) * 2 ^ ilog2 b < b * 2 ^ ilog2 a := by
      have := Nat.lt_of_not_le hc
      exact_mod_cast this
    constructor
    · rw [zpow_sub_one₀ h2, hd, div_mul_eq_mul_div, div_le_div_iff₀ hpb hbq]
      have : (2 : ℚ)⁻¹ = 1 / 2 := by norm_num
      rw [this]
      nlinarith
    · rw [sub_add_cancel, hd, div_lt_div_iff₀ hbq hpb]
      linarith

theorem zpow_two_split (E : Int) :
    (2 : ℚ) ^ E = 2 ^ E.toNat / 2 ^ (-E).toNat := by
  by_cases h : 0 ≤ E
  · have h1 : (-E).toNat = 0 := by omega
    have h2 : ((E.toNat : Nat) : Int) = E := Int.toNat_of_nonneg h
    rw [h1, pow_zero, div_one]
    conv_lhs => rw [← h2]
    rw [zpow_natCast]
  · have h1 : E.toNat = 0 := by omega
    have h2 : E = -(((-E).toNat : Nat) : Int) := by omega
    rw [h1, pow_zero, one_div]
    conv_lhs => rw [h2]
    rw [zpow_neg, zpow_natCast]

/-- Outside the subnormal and overflow ranges `round64` scales the quotient into
`[2^52, 2^53)`, rounds it to an integer significand and scales back. -/
theorem round64_normal (a b : Nat) (ha : 0 < a) (hb : 0 < b)
    (hlo : -1022 ≤ floorLog2 a b) (hhi : floorLog2 a b ≤ 1022) :
    ∃ up down M, (floorLog2 a b - 52).toNat = up ∧ (-(floorLog2 a b - 52)).toNat = down ∧
      roundHalfEven (a * 2 ^ down) (b * 2 ^ up) = M ∧
      Double.round64 a b = .fin (M * 2 ^ up) (2 ^ down) ∧
      2 ^ 52 * (b * 2 ^ up) ≤ a * 2 ^ down ∧ a * 2 ^ down < 2 ^ 53 * (b * 2 ^ up) := by
  obtain ⟨hl, hu⟩ := floorLog2_spec a b ha hb
  have hE : max (floorLog2 a b - 52) (-1074) = floorLog2 a b - 52 := max_eq_left (by omega)
  have h2 : (2 : ℚ) ≠ 0 := by norm_num
  have haq : (0 : ℚ) < a := by exact_mod_cast ha
  have hbq : (0 : ℚ) < b := by exact_mod_cast hb
  have hsplit := zpow_two_split (floorLog2 a b - 52)
  rw [zpow_sub₀ h2] at hsplit
  have h52 : (2 : ℚ) ^ (52 : Int) = 2 ^ 52 := by norm_cast
  rw [h52] at hsplit
  rw [zpow_add_one₀ h2] at hu
  generalize hup : (floorLog2 a b - 52).toNat = up at hsplit
  generalize hdown : (-(floorLog2 a b - 52)).toNat = down at hsplit
  have hu0 : (0 : ℚ) < 2 ^ up := by positivity
  have hd0 : (0 : ℚ) < 2 ^ down := by positivity
  have hrel : (2 : ℚ) ^ floorLog2 a b * 2 ^ down = 2 ^ up * 2 ^ 52 := by
    field_simp at hsplit
    linarith
  rw [le_div_iff₀ hbq] at hl
  rw [div_lt_iff₀ hbq] at hu
  have hXlo : (2 : ℚ) ^ 52 * ((b : ℚ) * 2 ^ up) ≤ (a : ℚ) * 2 ^ down := by
    have h1 := mul_le_mul_of_nonneg_right hl hd0.le
    have h3 : (2 : ℚ) ^ floorLog2 a b * b * 2 ^ down
        = 2 ^ 52 * ((b : ℚ) * 2 ^ up) := by
      calc (2 : ℚ) ^ floorLog2 a b * b * 2 ^ down
          = ((2 : ℚ) ^ floorLog2 a b * 2 ^ down) * b := by ring
        _ = 2 ^ 52 * ((b : ℚ) * 2 ^ up) := by rw [hrel]; ring
    rw [h3] at h1
    exact h1
  have hXhi : (a : ℚ) * 2 ^ down < 2 ^ 53 * ((b : ℚ) * 2 ^ up) := by
    have h1 := mul_lt_mul_of_pos_right hu hd0
    have h3 : (2 : ℚ) ^ floorLog2 a b * 2 * b * 2 ^ down
        = 2 ^ 53 * ((b : ℚ) * 2 ^ up) := by
      calc (2 : ℚ) ^ floorLog2 a b * 2 * b * 2 ^ down
          = ((2 : ℚ) ^ floorLog2 a b * 2 ^ down) * (2 * b) := by ring
        _ = 2 ^ 53 * ((b : ℚ) * 2 ^ up) := by rw [hrel]; ring
    rw [h3] at h1
    exact h1
  have hXloN : 2 ^ 52 * (b * 2 ^ up) ≤ a * 2 ^ down := by exact_mod_cast hXlo
  have hXhiN : a * 2 ^ down < 2 ^ 53 * (b * 2 ^ up) := by exact_mod_cast hXhi
  have hY : 0 < b * 2 ^ up := Nat.mul_pos hb (by positivity)
  obtain ⟨hr1, hr2⟩ := roundHalfEven_spec (a * 2 ^ down) (b * 2 ^ up) hY
  generalize hM : roundHalfEven (a * 2 ^ down) (b * 2 ^ up) = M at hr1 hr2
  have hMhi : M ≤ 2 ^ 53 := by
    by_contra hc
    have : (b * 2 ^ up) * (2 ^ 53 + 1) ≤ (b * 2 ^ up) * M :=
      Nat.mul_le_mul_left _ (by omega)
    rw [Nat.mul_add, Nat.mul_one] at this
    omega
  have hMlo : 2 ^ 52 ≤ M := by
    by_contra hc
    have : (b * 2 ^ up) * (M + 1) ≤ (b * 2 ^ up) * 2 ^ 52 :=
      Nat.mul_le_mul_left _ (by omega)
    rw [Nat.mul_add, Nat.mul_one] at this
    omega
  have hlog : ilog2 M < 54 := ilog2_lt_of_lt_pow M 54 (by omega) (by omega)
  refine ⟨up, down, M, rfl, rfl, hM, ?_, hXloN, hXhiN⟩
  unfold Double.round64
  rw [if_neg (by omega)]
  simp only [hE, hup, hdown, hM]
  rw [if_neg (by omega)]

/-- Outside the subnormal and overflow ranges the rounded value differs from the exact
quotient by at most the relative error `2^-53`. -/
theorem round64_spec (a b : Nat) (ha : 0 < a) (hb : 0 < b)
    (hlo : -1022 ≤ floorLog2 a b) (hhi : floorLog2 a b ≤ 1022) :
    ∃ N D, Double.round64 a b = .fin N D ∧ 0 < D ∧
      |(N : ℚ) / D - (a : ℚ) / b| ≤ (a : ℚ) / b / 2 ^ 53 := by
  obtain ⟨up, down, M, -, -, hM, hval, hXloN, -⟩ := round64_normal a b ha hb hlo hhi
  have haq : (0 : ℚ) < a := by exact_mod_cast ha
  have hbq : (0 : ℚ) < b := by exact_mod_cast hb
  have hY : 0 < b * 2 ^ up := Nat.mul_pos hb (by positivity)
  obtain ⟨hr1, hr2⟩ := roundHalfEven_spec (a * 2 ^ down) (b * 2 ^ up) hY
  rw [hM] at hr1 hr2
  refine ⟨M * 2 ^ up, 2 ^ down, hval, by positivity, ?_⟩
  have hXlo : (2 : ℚ) ^ 52 * ((b : ℚ) * 2 ^ up) ≤ (a : ℚ) * 2 ^ down := by
    exact_mod_cast hXloN
  have hr1q : (2 : ℚ) * ((b : ℚ) * 2 ^ up * M) ≤ 2 * (a * 2 ^ down) + b * 2 ^ up := by
    exact_mod_cast hr1
  have hr2q : (2 : ℚ) * (a * 2 ^ down) ≤ 2 * ((b : ℚ) * 2 ^ up * M) + b * 2 ^ up := by
    exact_mod_cast hr2
  have key : ((M * 2 ^ up : Nat) : ℚ) / ((2 ^ down : Nat) : ℚ) - (a : ℚ) / b
      = ((M : ℚ) * 2 ^ up * b - a * 2 ^ down) / (2 ^ down * b) := by
    push_cast
    field_simp
    ring
  have hbound : (a : ℚ) / b / 2 ^ 53 = (a * 2 ^ down) / (2 ^ 53 * (2 ^ down * b)) := by
    field_simp
    ring
  rw [key, hbound, abs_le]
  have hden : (0 : ℚ) < 2 ^ down * b := by positivity
  have hp : (2 : ℚ) ^ 53 = 2 * 2 ^ 52 := by norm_num
  constructor
  · rw [neg_le, ← neg_div, neg_sub, div_le_div_iff₀ hden (by positivity)]
    have h1 : ((a : ℚ) * 2 ^ down - M * 2 ^ up * b) * 2 ^ 53 ≤ a * 2 ^ down := by
      rw [hp]; nlinarith
    calc ((a : ℚ) * 2 ^ down - M * 2 ^ up * b) * (2 ^ 53 * (2 ^ down * b))
        = (((a : ℚ) * 2 ^ down - M * 2 ^ up * b) * 2 ^ 53) * (2 ^ down * b) := by ring
      _ ≤ ((a : ℚ) * 2 ^ down) * (2 ^ down * (b : ℚ)) :=
          mul_le_mul_of_nonneg_right h1 hden.le
  · rw [div_le_div_iff₀ hden (by positivity)]
    have h1 : ((M : ℚ) * 2 ^ up * b - a * 2 ^ down) * 2 ^ 53 ≤ a * 2 ^ down := by
      rw [hp]; nlinarith
    calc ((M : ℚ) * 2 ^ up * b - a * 2 ^ down) * (2 ^ 53 * (2 ^ down * b))
        = (((M : ℚ) * 2 ^ up * b - a * 2 ^ down) * 2 ^ 53) * (2 ^ down * b) := by ring
      _ ≤ ((a : ℚ) * 2 ^ down) * (2 ^ down * (b : ℚ)) :=
          mul_le_mul_of_nonneg_right h1 hden.le

theorem le_floorLog2 (a b : Nat) (ha : 0 < a) (hb : 0 < b) (k : Int)
    (h : (2 : ℚ) ^ k ≤ (a : ℚ) / b) : k ≤ floorLog2 a b := by
  have hu := (floorLog2_spec a b ha hb).2
  have hlt : (2 : ℚ) ^ k < 2 ^ (floorLog2 a b + 1) := lt_of_le_of_lt h hu
  rw [zpow_lt_zpow_iff_right₀ (by norm_num)] at hlt
  omega

theorem floorLog2_lt (a b : Nat) (ha : 0 < a) (hb : 0 < b) (k : Int)
    (h : (a : ℚ) / b < (2 : ℚ) ^ k) : floorLog2 a b < k := by
  have hl := (floorLog2_spec a b ha hb).1
  have hlt : (2 : ℚ) ^ floorLog2 a b < 2 ^ k := lt_of_le_of_lt hl h
  rwa [zpow_lt_zpow_iff_right₀ (by norm_num)] at hlt

/-- The double-precision value of `(m / n) * 100` for counters `m ≤ n < 2^32`: it is
finite and within `2^-45` of the exact `100 * m / n`. -/
theorem percent_error (m n : Nat) (hmn : m ≤ n) (hn : 0 < n) (hn32 : n < 2 ^ 32) :
    ∃ N D, Double.mul (Double.div (Double.ofNat m) (Double.ofNat n)) (Double.ofNat 100)
        = .fin N D ∧ 0 < D ∧
      |(N : ℚ) / D - 100 * (m : ℚ) / n| ≤ 1 / 2 ^ 45 := by
  have hnq : (0 : ℚ) < n := by exact_mod_cast hn
  rcases Nat.eq_zero_or_pos m with hm0 | hm
  · subst hm0
    refine ⟨0, 1, ?_, by norm_num, by norm_num⟩
    simp [Double.ofNat, Double.div, Double.mul, Double.round64, hn.ne']
  have hmq : (1 : ℚ) ≤ m := by exact_mod_cast hm
  have hmnq : (m : ℚ) ≤ n := by exact_mod_cast hmn
  have hn32q : (n : ℚ) < 2 ^ 32 := by exact_mod_cast hn32
  have hx1 : (m : ℚ) / n ≤ 1 := by rw [div_le_one hnq]; exact hmnq
  have hx0 : (1 : ℚ) / 2 ^ 32 ≤ (m : ℚ) / n := by
    rw [div_le_div_iff₀ (by positivity) hnq]
    nlinarith
  -- the quotient
  have he1 : -32 ≤ floorLog2 m n := by
    apply le_floorLog2 m n hm hn
    have : (2 : ℚ) ^ (-32 : Int) = 1 / 2 ^ 32 := by
      rw [zpow_neg, one_div]; norm_cast
    rw [this]; exact hx0
  have he2 : floorLog2 m n < 1 := by
    apply floorLog2_lt m n hm hn
    have : (2 : ℚ) ^ (1 : Int) = 2 := by norm_num
    rw [this]; linarith
  obtain ⟨N1, D1, hq, hD1, herr1⟩ := round64_spec m n hm hn (by omega) (by omega)
  have hD1q : (0 : ℚ) < D1 := by exact_mod_cast hD1
  rw [abs_le] at herr1
  obtain ⟨herr1a, herr1b⟩ := herr1
  have hp53 : (0 : ℚ) < 2 ^ 53 := by positivity
  have hxs : (m : ℚ) / n / 2 ^ 53 ≤ 1 / 2 ^ 53 :=
    div_le_div_of_nonneg_right hx1 hp53.le
  have hd_lo : (1 : ℚ) / 2 ^ 33 ≤ (N1 : ℚ) / D1 := by
    have h1 : (m : ℚ) / n / 2 ^ 53 ≤ (m : ℚ) / n / 2 := by
      apply div_le_div_of_nonneg_left (by positivity) (by norm_num) (by norm_num)
    have h2 : (1 : ℚ) / 2 ^ 33 = 1 / 2 ^ 32 / 2 := by norm_num
    linarith
  have hd_hi : (N1 : ℚ) / D1 ≤ 1 + 1 / 2 ^ 53 := by linarith
  have hN1 : 0 < N1 := by
    rcases Nat.eq_zero_or_pos N1 with h0 | h0
    · rw [h0] at hd_lo
      norm_num at hd_lo
    · exact h0
  -- the product
  have hcast : (((N1 * 100 : Nat) : ℚ)) / ((D1 * 1 : Nat) : ℚ) = 100 * ((N1 : ℚ) / D1) := by
    push_cast; field_simp; ring
  have hf1 : -32 ≤ floorLog2 (N1 * 100) (D1 * 1) := by
    apply le_floorLog2 _ _ (by omega) (by omega)
    have : (2 : ℚ) ^ (-32 : Int) = 1 / 2 ^ 32 := by
      rw [zpow_neg, one_div]; norm_cast
    rw [this, hcast]
    have : (1 : ℚ) / 2 ^ 32 ≤ 100 * (1 / 2 ^ 33) := by norm_num
    linarith
  have hf2 : floorLog2 (N1 * 100) (D1 * 1) < 7 := by
    apply floorLog2_lt _ _ (by omega) (by omega)
    have : (2 : ℚ) ^ (7 : Int) = 128 := by norm_num
    rw [this, hcast]
    have : (1 : ℚ) / 2 ^ 53 ≤ 1 / 100 := by norm_num
    linarith
  obtain ⟨N2, D2, hq2, hD2, herr2⟩ :=
    round64_spec (N1 * 100) (D1 * 1) (by omega) (by omega) (by omega) (by omega)
  rw [hcast, abs_le] at herr2
  obtain ⟨herr2a, herr2b⟩ := herr2
  refine ⟨N2, D2, ?_, hD2, ?_⟩
  · simp only [Double.ofNat, Double.div, if_neg hn.ne', Nat.mul_one, Nat.one_mul] at hq ⊢
    rw [hq]
    simp only [Double.mul]
    exact hq2
  · have hbig : 100 * ((N1 : ℚ) / D1) / 2 ^ 53 ≤ 101 / 2 ^ 53 := by
      apply div_le_div_of_nonneg_right _ hp53.le
      have : (1 : ℚ) / 2 ^ 53 ≤ 1 / 100 := by norm_num
      linarith
    have hrw : 100 * (m : ℚ) / n = 100 * ((m : ℚ) / n) := by ring
    have hfin : (101 : ℚ) / 2 ^ 53 + 100 * (1 / 2 ^ 53) ≤ 1 / 2 ^ 45 := by norm_num
    rw [hrw, abs_le]
    constructor <;> linarith

/-! ### Signed Numbers: values, rounding and monotonicity -/

theorem roundHalfEven_tie_up (x y : Nat) (hy : 0 < y)
    (h : 2 * (y * roundHalfEven x y) = 2 * x + y) : roundHalfEven x y % 2 = 0 := by
  have hx : y * (x / y) + x % y = x := Nat.div_add_mod x y
  have hr : x % y < y := Nat.mod_lt x hy
  revert h
  unfold roundHalfEven
  simp only []
  split_ifs <;> (try simp only [Nat.mul_add, Nat.mul_one]) <;> intro h <;> omega

theorem roundHalfEven_tie_down (x y : Nat) (hy : 0 < y)
    (h : 2 * x = 2 * (y * roundHalfEven x y) + y) : roundHalfEven x y % 2 = 0 := by
  have hx : y * (x / y) + x % y = x := Nat.div_add_mod x y
  have hr : x % y < y := Nat.mod_lt x hy
  revert h
  unfold roundHalfEven
  simp only []
  split_ifs <;> (try simp only [Nat.mul_add, Nat.mul_one]) <;> intro h <;> omega

theorem roundHalfEven_mono (x1 y1 x2 y2 : Nat) (hy1 : 0 < y1) (hy2 : 0 < y2)
    (h : x1 * y2 ≤ x2 * y1) : roundHalfEven x1 y1 ≤ roundHalfEven x2 y2 := by
  obtain ⟨h1a, h1b⟩ := roundHalfEven_spec x1 y1 hy1
  obtain ⟨h2a, h2b⟩ := roundHalfEven_spec x2 y2 hy2
  have t1 := roundHalfEven_tie_up x1 y1 hy1
  have t2 := roundHalfEven_tie_down x2 y2 hy2
  generalize roundHalfEven x1 y1 = n1 at *
  generalize roundHalfEven x2 y2 = n2 at *
  by_contra hc
  have hn : n2 + 1 ≤ n1 := by omega
  -- 2 y1 y2 n1 ≤ (2 x1 + y1) y2 ≤ 2 x2 y1 + y1 y2 ≤ (2 y2 n2 + y2) y1 + y1 y2 = 2 y1 y2 (n2 + 1)
  have e1 : 2 * (y1 * n1) * y2 ≤ (2 * x1 + y1) * y2 := Nat.mul_le_mul_right _ h1a
  have e2 : 2 * x2 * y1 ≤ (2 * (y2 * n2) + y2) * y1 := Nat.mul_le_mul_right _ h2b
  have e3 : y1 * y2 * (n2 + 1) ≤ y1 * y2 * n1 := Nat.mul_le_mul_left _ hn
  have hq1 : (2 : ℚ) * (y1 * n1) * y2 ≤ (2 * x1 + y1) * y2 := by exact_mod_cast e1
  have hq2 : (2 : ℚ) * x2 * y1 ≤ (2 * (y2 * n2) + y2) * y1 := by exact_mod_cast e2
  have hq3 : (y1 : ℚ) * y2 * (n2 + 1) ≤ y1 * y2 * n1 := by exact_mod_cast e3
  have hq : (x1 : ℚ) * y2 ≤ x2 * y1 := by exact_mod_cast h
  have hy1q : (0 : ℚ) < y1 := by exact_mod_cast hy1
  have hy2q : (0 : ℚ) < y2 := by exact_mod_cast hy2
  -- all inequalities are equalities
  have k1 : (2 : ℚ) * (y1 * n1) * y2 = (2 * x1 + y1) * y2 := by nlinarith
  have k2 : (2 : ℚ) * x2 * y1 = (2 * (y2 * n2) + y2) * y1 := by nlinarith
  have k3 : (y1 : ℚ) * y2 * (n2 + 1) = y1 * y2 * n1 := by nlinarith
  have k1n : (2 : ℚ) * (y1 * n1) = 2 * x1 + y1 := mul_right_cancel₀ hy2q.ne' k1
  have k2n : (2 : ℚ) * x2 = 2 * (y2 * n2) + y2 := mul_right_cancel₀ hy1q.ne' k2
  have k3n : ((n2 : ℚ) + 1) = n1 := mul_left_cancel₀ (mul_pos hy1q hy2q).ne' k3
  have k1N : 2 * (y1 * n1) = 2 * x1 + y1 := by exact_mod_cast k1n
  have k2N : 2 * x2 = 2 * (y2 * n2) + y2 := by exact_mod_cast k2n
  have k3N : n2 + 1 = n1 := by exact_mod_cast k3n
  have := t1 k1N
  have := t2 k2N
  omega

theorem ilog2_overflow_iff (M : Nat) (hM : 0 < M) (E : Int) :
    1024 ≤ (ilog2 M : Int) + E ↔ (2 : ℚ) ^ (1024 : Nat) ≤ (M : ℚ) * 2 ^ E := by
  obtain ⟨h1, h2⟩ := ilog2_spec M hM
  have h1q : (2 : ℚ) ^ (ilog2 M) ≤ M := by exact_mod_cast h1
  have h2q : (M : ℚ) < 2 ^ (ilog2 M + 1) := by exact_mod_cast h2
  have hE : (0 : ℚ) < 2 ^ E := by positivity
  have h2 : (2 : ℚ) ≠ 0 := by norm_num
  have hB : (2 : ℚ) ^ (1024 : Nat) = 2 ^ (1024 : Int) := (zpow_natCast (2 : ℚ) 1024).symm
  constructor
  · intro h
    calc (2 : ℚ) ^ (1024 : Nat) = 2 ^ (1024 : Int) := hB
      _ ≤ 2 ^ ((ilog2 M : Int) + E) := zpow_le_zpow_right₀ (by norm_num) h
      _ = 2 ^ (ilog2 M) * 2 ^ E := by rw [zpow_add₀ h2, zpow_natCast]
      _ ≤ M * 2 ^ E := mul_le_mul_of_nonneg_right h1q hE.le
  · intro h
    have : (2 : ℚ) ^ (1024 : Int) < 2 ^ (((ilog2 M + 1 : Nat) : Int) + E) := by
      calc (2 : ℚ) ^ (1024 : Int) = 2 ^ (1024 : Nat) := hB.symm
        _ ≤ M * 2 ^ E := h
        _ < 2 ^ (ilog2 M + 1) * 2 ^ E := mul_lt_mul_of_pos_right h2q hE
        _ = 2 ^ (((ilog2 M + 1 : Nat) : Int) + E) := by rw [zpow_add₀ h2, zpow_natCast]
    rw [zpow_lt_zpow_iff_right₀ (by norm_num)] at this
    push_cast at this
    omega

/-- The general shape of `round64` on a positive quotient: the unit in the last place is
`2^E`, the significand `M` is at most `2^53` (at least `2^52` outside the subnormal
range), and the value is `M * 2^E`, capped at `2^1024` for `Infinity`. -/
theorem round64_pre (a b : Nat) (ha : 0 < a) (hb : 0 < b) :
    ∃ (E : Int) (M : Nat), E = max (floorLog2 a b - 52) (-1074) ∧
      M = roundHalfEven (a * 2 ^ (-E).toNat) (b * 2 ^ E.toNat) ∧
      M ≤ 2 ^ 53 ∧ (E = floorLog2 a b - 52 → 2 ^ 52 ≤ M) ∧
      Double.val (Double.round64 a b) = min (2 ^ 1024) ((M : ℚ) * 2 ^ E) ∧
      (Double.round64 a b = .inf ∨
        (Double.round64 a b = .fin (M * 2 ^ E.toNat) (2 ^ (-E).toNat) ∧
          (M : ℚ) * 2 ^ E < 2 ^ 1024)) := by
  obtain ⟨hl, hu⟩ := floorLog2_spec a b ha hb
  have h2 : (2 : ℚ) ≠ 0 := by norm_num
  have haq : (0 : ℚ) < a := by exact_mod_cast ha
  have hbq : (0 : ℚ) < b := by exact_mod_cast hb
  generalize hE : max (floorLog2 a b - 52) (-1074) = E
  have hEge : floorLog2 a b - 52 ≤ E := by rw [← hE]; exact le_max_left _ _
  have hsplit := zpow_two_split E
  generalize hup : E.toNat = up at hsplit
  generalize hdown : (-E).toNat = down at hsplit
  have hu0 : (0 : ℚ) < 2 ^ up := by positivity
  have hd0 : (0 : ℚ) < 2 ^ down := by positivity
  have hY : 0 < b * 2 ^ up := Nat.mul_pos hb (by positivity)
  obtain ⟨hr1, hr2⟩ := roundHalfEven_spec (a * 2 ^ down) (b * 2 ^ up) hY
  generalize hM : roundHalfEven (a * 2 ^ down) (b * 2 ^ up) = M at hr1 hr2
  -- the scaled quotient is below 2^53
  have hXhi : (a : ℚ) * 2 ^ down < 2 ^ 53 * ((b : ℚ) * 2 ^ up) := by
    have h3 : (2 : ℚ) ^ (floorLog2 a b + 1) ≤ 2 ^ (E + 53) :=
      zpow_le_zpow_right₀ (by norm_num) (by omega)
    have h4 : (2 : ℚ) ^ (E + 53) = 2 ^ up / 2 ^ down * 2 ^ 53 := by
      rw [zpow_add₀ h2, hsplit]; norm_cast
    have h5 : (a : ℚ) / b < 2 ^ up / 2 ^ down * 2 ^ 53 := by
      rw [← h4]; exact lt_of_lt_of_le hu h3
    rw [div_lt_iff₀ hbq] at h5
    have h6 : (2 : ℚ) ^ up / 2 ^ down * 2 ^ 53 * b = (2 ^ 53 * ((b : ℚ) * 2 ^ up)) / 2 ^ down := by
      field_simp
      ring
    rw [h6, lt_div_iff₀ hd0] at h5
    exact h5
  have hXhiN : a * 2 ^ down < 2 ^ 53 * (b * 2 ^ up) := by exact_mod_cast hXhi
  have hMhi : M ≤ 2 ^ 53 := by
    by_contra hc
    have : (b * 2 ^ up) * (2 ^ 53 + 1) ≤ (b * 2 ^ up) * M :=
      Nat.mul_le_mul_left _ (by omega)
    rw [Nat.mul_add, Nat.mul_one] at this
    omega
  have hMlo : E = floorLog2 a b - 52 → 2 ^ 52 ≤ M := by
    intro hEq
    have h4 : (2 : ℚ) ^ (floorLog2 a b) = 2 ^ up / 2 ^ down * 2 ^ 52 := by
      have : floorLog2 a b = E + 52 := by omega
      rw [this, zpow_add₀ h2, hsplit]; norm_cast
    have h5 : (2 : ℚ) ^ up / 2 ^ down * 2 ^ 52 ≤ (a : ℚ) / b := by rw [← h4]; exact hl
    rw [le_div_iff₀ hbq] at h5
    have h6 : (2 : ℚ) ^ up / 2 ^ down * 2 ^ 52 * b = (2 ^ 52 * ((b : ℚ) * 2 ^ up)) / 2 ^ down := by
      field_simp
      ring
    rw [h6, div_le_iff₀ hd0] at h5
    have hXloN : 2 ^ 52 * (b * 2 ^ up) ≤ a * 2 ^ down := by exact_mod_cast h5
    by_contra hc
    have : (b * 2 ^ up) * (M + 1) ≤ (b * 2 ^ up) * 2 ^ 52 :=
      Nat.mul_le_mul_left _ (by omega)
    rw [Nat.mul_add, Nat.mul_one] at this
    omega
  have hval : ((M * 2 ^ up : Nat) : ℚ) / ((2 ^ down : Nat) : ℚ) = (M : ℚ) * 2 ^ E := by
    rw [hsplit]; push_cast; ring
  have hunf : Double.round64 a b
      = if 1024 ≤ (ilog2 M : Int) + E then .inf else .fin (M * 2 ^ up) (2 ^ down) := by
    unfold Double.round64
    rw [if_neg (by omega)]
    simp only [hE, hup, hdown, hM]
  refine ⟨E, M, rfl, ?_, hMhi, hMlo, ?_, ?_⟩
  · rw [hup, hdown, hM]
  · rw [hunf]
    split_ifs with hov
    · have hMpos : 0 < M := by
        by_contra h0
        have hM0 : M = 0 := by omega
        have hEq : E = floorLog2 a b - 52 := by
          rw [← hE]
          apply max_eq_left
          have : ilog2 M = 0 := by rw [hM0]; rfl
          rw [this] at hov
          omega
        have := hMlo hEq
        rw [hM0] at this
        norm_num at this
      rw [ilog2_overflow_iff M hMpos E] at hov
      simp only [Double.val]
      rw [min_eq_left hov]
    · simp only [Double.val]
      rw [hval]
      rcases Nat.eq_zero_or_pos M with hM0 | hMpos
      · rw [hM0]; simp
      · rw [ilog2_overflow_iff M hMpos E] at hov
        rw [min_eq_right (le_of_lt (not_le.mp hov))]
  · rw [hunf, hup, hdown]
    split_ifs with hov
    · exact Or.inl rfl
    · refine Or.inr ⟨rfl, ?_⟩
      rcases Nat.eq_zero_or_pos M with hM0 | hMpos
      · rw [hM0]; simp
      · rw [ilog2_overflow_iff M hMpos E] at hov
        exact not_le.mp hov

theorem round64_zero (b : Nat) : Double.round64 0 b = .fin 0 1 := by
  unfold Double.round64
  rw [if_pos rfl]

theorem round64_val_nonneg (a b : Nat) (hb : 0 < b) : 0 ≤ Double.val (Double.round64 a b) := by
  rcases Nat.eq_zero_or_pos a with rfl | ha
  · rw [round64_zero]; simp [Double.val]
  · obtain ⟨E, M, -, -, -, -, hval, -⟩ := round64_pre a b ha hb
    rw [hval]
    exact le_min (by positivity) (by positivity)

theorem floorLog2_mono (a b c d : Nat) (ha : 0 < a) (hb : 0 < b) (hc : 0 < c) (hd : 0 < d)
    (h : (a : ℚ) / b ≤ (c : ℚ) / d) : floorLog2 a b ≤ floorLog2 c d :=
  le_floorLog2 c d hc hd _ (le_trans (floorLog2_spec a b ha hb).1 h)

/-- Rounding to binary64 is monotone. -/
theorem round64_mono (a b c d : Nat) (hb : 0 < b) (hd : 0 < d) (h : a * d ≤ c * b) :
    Double.val (Double.round64 a b) ≤ Double.val (Double.round64 c d) := by
  rcases Nat.eq_zero_or_pos a with rfl | ha
  · rw [round64_zero]
    have := round64_val_nonneg c d hd
    simpa [Double.val] using this
  have hc : 0 < c := by
    by_contra h0
    have : c = 0 := by omega
    rw [this, Nat.zero_mul] at h
    have := Nat.mul_pos ha hd
    omega
  have hbq : (0 : ℚ) < b := by exact_mod_cast hb
  have hdq : (0 : ℚ) < d := by exact_mod_cast hd
  have hq : (a : ℚ) / b ≤ (c : ℚ) / d := by
    rw [div_le_div_iff₀ hbq hdq]
    exact_mod_cast h
  have hfl := floorLog2_mono a b c d ha hb hc hd hq
  obtain ⟨E1, M1, hE1, hM1, hM1hi, -, hval1, -⟩ := round64_pre a b ha hb
  obtain ⟨E2, M2, hE2, hM2, -, hM2lo, hval2, -⟩ := round64_pre c d hc hd
  rw [hval1, hval2]
  apply min_le_min_left
  have hE12 : E1 ≤ E2 := by
    rw [hE1, hE2]
    exact max_le_max (by omega) (le_refl _)
  have h2 : (2 : ℚ) ≠ 0 := by norm_num
  rcases eq_or_lt_of_le hE12 with heq | hlt
  · subst heq
    have hM : M1 ≤ M2 := by
      rw [hM1, hM2]
      apply roundHalfEven_mono _ _ _ _ (Nat.mul_pos hb (by positivity))
        (Nat.mul_pos hd (by positivity))
      calc a * 2 ^ (-E1).toNat * (d * 2 ^ E1.toNat)
          = (a * d) * (2 ^ (-E1).toNat * 2 ^ E1.toNat) := by ring
        _ ≤ (c * b) * (2 ^ (-E1).toNat * 2 ^ E1.toNat) := Nat.mul_le_mul_right _ h
        _ = c * 2 ^ (-E1).toNat * (b * 2 ^ E1.toNat) := by ring
    have hMq : (M1 : ℚ) ≤ M2 := by exact_mod_cast hM
    exact mul_le_mul_of_nonneg_right hMq (by positivity)
  · have hE2eq : E2 = floorLog2 c d - 52 := by
      rw [hE2]
      apply max_eq_left
      have : -1074 ≤ E1 := by rw [hE1]; exact le_max_right _ _
      have : -1074 < E2 := by omega
      by_contra hcon
      rw [hE2, max_eq_right (by omega)] at this
      omega
    have hlo := hM2lo hE2eq
    have hM1q : (M1 : ℚ) ≤ 2 ^ 53 := by exact_mod_cast hM1hi
    have hM2q : (2 : ℚ) ^ 52 ≤ M2 := by exact_mod_cast hlo
    have hp1 : (0 : ℚ) < 2 ^ E1 := by positivity
    have hp2 : (0 : ℚ) < 2 ^ E2 := by positivity
    calc (M1 : ℚ) * 2 ^ E1 ≤ 2 ^ 53 * 2 ^ E1 := mul_le_mul_of_nonneg_right hM1q hp1.le
      _ = 2 ^ (53 + E1) := by rw [zpow_add₀ h2]; norm_cast
      _ ≤ 2 ^ (52 + E2) := zpow_le_zpow_right₀ (by norm_num) (by omega)
      _ = 2 ^ 52 * 2 ^ E2 := by rw [zpow_add₀ h2]; norm_cast
      _ ≤ M2 * 2 ^ E2 := mul_le_mul_of_nonneg_right hM2q hp2.le

/-- The value of the rounded quotient depends on the quotient only. -/
theorem round64_val_congr (a b c d : Nat) (hb : 0 < b) (hd : 0 < d) (h : a * d = c * b) :
    Double.val (Double.round64 a b) = Double.val (Double.round64 c d) :=
  le_antisymm (round64_mono a b c d hb hd (le_of_eq h))
    (round64_mono c d a b hd hb (le_of_eq h.symm))

theorem round64_isD (a b : Nat) (hb : 0 < b) : (Double.round64 a b).IsD := by
  rcases Nat.eq_zero_or_pos a with rfl | ha
  · rw [round64_zero]
    exact Or.inr ⟨0, 1, rfl, by norm_num, by simp, Or.inl rfl⟩
  obtain ⟨E, M, hE, hM, hMhi, -, hval, hcase⟩ := round64_pre a b ha hb
  rcases hcase with hinf | ⟨hfin, hlt⟩
  · exact Or.inl hinf
  · refine Or.inr ⟨_, _, hfin, by positivity, ?_, ?_⟩
    · have := zpow_two_split E
      rw [this] at hlt
      push_cast
      calc (M : ℚ) * 2 ^ E.toNat / 2 ^ (-E).toNat = M * (2 ^ E.toNat / 2 ^ (-E).toNat) := by ring
        _ < 2 ^ 1024 := hlt
    · by_cases h0 : 0 ≤ E
      · left
        have : (-E).toNat = 0 := by omega
        rw [this, pow_zero]
      · right
        have hup : E.toNat = 0 := by omega
        rw [hup, pow_zero, Nat.mul_one]
        have hMq : (M : ℚ) ≤ 2 ^ 53 := by exact_mod_cast hMhi
        have hd1 : (1 : ℚ) ≤ ((2 ^ (-E).toNat : Nat) : ℚ) := by
          have : 1 ≤ 2 ^ (-E).toNat := Nat.one_le_two_pow
          exact_mod_cast this
        calc (M : ℚ) / ((2 ^ (-E).toNat : Nat) : ℚ) ≤ M / 1 :=
              div_le_div_of_nonneg_left (Nat.cast_nonneg M) zero_lt_one hd1
          _ = M := div_one _
          _ ≤ 2 ^ 53 := hMq

theorem roundHalfEven_one (x : Nat) : roundHalfEven x 1 = x := by
  unfold roundHalfEven
  simp [Nat.mod_one]

theorem isD_val_lt (x : Double) (N D : Nat) (h : x.IsD) (hx : x = .fin N D) :
    0 < D ∧ (N : ℚ) / D < 2 ^ 1024 ∧ (D = 1 ∨ (N : ℚ) / D ≤ 2 ^ 53) := by
  rcases h with h | ⟨N', D', h, h1, h2, h3⟩
  · rw [hx] at h; cases h
  · rw [hx] at h
    injection h with e1 e2
    subst e1; subst e2
    exact ⟨h1, h2, h3⟩

theorem isD_val_bounds (x : Double) (h : x.IsD) : 0 ≤ x.val ∧ x.val ≤ 2 ^ 1024 := by
  rcases h with h | ⟨N, D, h, h1, h2, -⟩
  · have e : Double.val Double.inf = 2 ^ 1024 := by simp only [Double.val]
    rw [h, e]
    exact ⟨by positivity, le_refl _⟩
  · rw [h]
    exact ⟨div_nonneg (Nat.cast_nonneg N) (Nat.cast_nonneg D), h2.le⟩

/-- Integers below `2^53` are binary64 values. -/
theorem round64_nat (n : Nat) (hn : n < 2 ^ 53) : Double.val (Double.round64 n 1) = n := by
  rcases Nat.eq_zero_or_pos n with rfl | hpos
  · rw [round64_zero]; simp [Double.val]
  obtain ⟨E, M, hE, hM, -, -, hval, -⟩ := round64_pre n 1 hpos (by norm_num)
  have hnq : (1 : ℚ) ≤ n := by exact_mod_cast hpos
  have hn53 : (n : ℚ) < 2 ^ 53 := by exact_mod_cast hn
  have hf1 : 0 ≤ floorLog2 n 1 := by
    apply le_floorLog2 n 1 hpos (by norm_num)
    simpa using hnq
  have hf2 : floorLog2 n 1 < 53 := by
    apply floorLog2_lt n 1 hpos (by norm_num)
    have : (2 : ℚ) ^ (53 : Int) = 2 ^ 53 := by norm_cast
    rw [this]; simpa using hn53
  have hEeq : E = floorLog2 n 1 - 52 := by rw [hE]; exact max_eq_left (by omega)
  have hup : E.toNat = 0 := by omega
  rw [hup, pow_zero, Nat.mul_one, roundHalfEven_one] at hM
  have hME : (M : ℚ) * 2 ^ E = n := by
    rw [zpow_two_split E, hup, pow_zero, hM]
    push_cast
    field_simp
  rw [hval, hME]
  apply min_eq_right
  calc (n : ℚ) ≤ 2 ^ 53 := hn53.le
    _ ≤ 2 ^ 1024 := pow_le_pow_right₀ (by norm_num) (by norm_num)

theorem roundRat_frac (a b : Nat) (hb : 0 < b) :
    roundRat ((a : ℚ) / b) = Double.val (Double.round64 a b) := by
  have hbq : (0 : ℚ) < b := by exact_mod_cast hb
  have hq : (0 : ℚ) ≤ (a : ℚ) / b := by positivity
  generalize hqd : (a : ℚ) / b = q at hq
  unfold roundRat
  rw [if_pos hq]
  apply round64_val_congr _ _ _ _ q.den_pos hb
  have hnum : 0 ≤ q.num := Rat.num_nonneg.mpr hq
  have hdq : (0 : ℚ) < q.den := by exact_mod_cast q.den_pos
  have h1 : ((q.num.natAbs : Nat) : ℚ) = (q.num : ℚ) := by
    rw [Nat.cast_natAbs, abs_of_nonneg hnum]
  have h2 : (q.num : ℚ) / q.den = (a : ℚ) / b := by rw [Rat.num_div_den, hqd]
  rw [div_eq_div_iff hdq.ne' hbq.ne'] at h2
  rw [← h1] at h2
  exact_mod_cast h2

theorem roundRat_zero : roundRat 0 = 0 := by
  have := roundRat_frac 0 1 (by norm_num)
  rw [round64_zero] at this
  simpa [Double.val] using this

theorem roundRat_neg (q : ℚ) : roundRat (-q) = -roundRat q := by
  rcases lt_trichotomy q 0 with h | h | h
  · unfold roundRat
    rw [if_pos (by linarith), if_neg (by linarith)]
    simp
  · rw [h, neg_zero, roundRat_zero, neg_zero]
  · unfold roundRat
    rw [if_neg (by linarith), if_pos (by linarith)]
    simp

theorem roundRat_nonneg (q : ℚ) (h : 0 ≤ q) : 0 ≤ roundRat q := by
  unfold roundRat
  rw [if_pos h]
  exact round64_val_nonneg _ _ q.den_pos

theorem roundRat_nonpos (q : ℚ) (h : q ≤ 0) : roundRat q ≤ 0 := by
  have := roundRat_nonneg (-q) (by linarith)
  rw [roundRat_neg] at this
  linarith

theorem roundRat_mono_nonneg (p q : ℚ) (hp : 0 ≤ p) (h : p ≤ q) : roundRat p ≤ roundRat q := by
  have hq : 0 ≤ q := le_trans hp h
  unfold roundRat
  rw [if_pos hp, if_pos hq]
  apply round64_mono _ _ _ _ p.den_pos q.den_pos
  have hpd : (0 : ℚ) < p.den := by exact_mod_cast p.den_pos
  have hqd : (0 : ℚ) < q.den := by exact_mod_cast q.den_pos
  have h1 : ((p.num.natAbs : Nat) : ℚ) = (p.num : ℚ) := by
    rw [Nat.cast_natAbs, abs_of_nonneg (Rat.num_nonneg.mpr hp)]
  have h2 : ((q.num.natAbs : Nat) : ℚ) = (q.num : ℚ) := by
    rw [Nat.cast_natAbs, abs_of_nonneg (Rat.num_nonneg.mpr hq)]
  have h3 : (p.num : ℚ) / p.den ≤ (q.num : ℚ) / q.den := by
    rw [Rat.num_div_den, Rat.num_div_den]; exact h
  rw [div_le_div_iff₀ hpd hqd, ← h1, ← h2] at h3
  exact_mod_cast h3

/-- Rounding to binary64 is monotone on all rationals. -/
theorem roundRat_mono (p q : ℚ) (h : p ≤ q) : roundRat p ≤ roundRat q := by
  rcases le_or_lt 0 p with hp | hp
  · exact roundRat_mono_nonneg p q hp h
  · rcases le_or_lt 0 q with hq | hq
    · exact le_trans (roundRat_nonpos p hp.le) (roundRat_nonneg q hq)
    · have := roundRat_mono_nonneg (-q) (-p) (by linarith) (by linarith)
      rw [roundRat_neg, roundRat_neg] at this
      linarith

theorem roundRat_natCast (n : Nat) (hn : n < 2 ^ 53) : roundRat (n : ℚ) = n := by
  have := roundRat_frac n 1 (by norm_num)
  rw [Nat.cast_one, div_one] at this
  rw [this, round64_nat n hn]

/-- Integers of absolute value below `2^53` are rounded to themselves. -/
theorem roundRat_intCast (z : Int) (hz : |z| < 2 ^ 53) : roundRat (z : ℚ) = z := by
  rcases le_or_lt 0 z with h | h
  · obtain ⟨n, rfl⟩ := Int.eq_ofNat_of_zero_le h
    have hn : n < 2 ^ 53 := by
      rw [abs_of_nonneg h] at hz
      exact_mod_cast hz
    simpa using roundRat_natCast n hn
  · obtain ⟨n, hn⟩ := Int.eq_ofNat_of_zero_le (show 0 ≤ -z by omega)
    have hz2 : z = -(n : Int) := by omega
    have hn53 : n < 2 ^ 53 := by
      rw [abs_of_neg h, hn] at hz
      exact_mod_cast hz
    rw [hz2]
    push_cast
    rw [roundRat_neg, roundRat_natCast n hn53]

theorem val_ofNat (n : Nat) : (Number.ofNat n).val = n := by
  simp [Number.ofNat, Number.val, Double.val]

theorem val_ofInt (z : Int) : (Number.ofInt z).val = z := by
  unfold Number.ofInt Number.val
  simp only [Double.val, Nat.cast_one, div_one, Nat.cast_natAbs]
  by_cases h : z < 0
  · simp only [h, decide_True, if_true]
    rw [abs_of_neg h]; push_cast; ring
  · simp only [h, decide_False, Bool.false_eq_true, if_false]
    rw [abs_of_nonneg (not_lt.mp h)]

theorem isD_ofNat (n : Nat) (hn : (n : ℚ) < 2 ^ 1024) : (Number.ofNat n).IsD :=
  Or.inr ⟨n, 1, rfl, Nat.one_pos, by rw [Nat.cast_one, div_one]; exact hn, Or.inl rfl⟩

theorem isD_ofInt (z : Int) (hz : |(z : ℚ)| < 2 ^ 1024) : (Number.ofInt z).IsD := by
  refine Or.inr ⟨z.natAbs, 1, rfl, Nat.one_pos, ?_, Or.inl rfl⟩
  rw [Nat.cast_one, div_one, Nat.cast_natAbs]
  push_cast
  exact hz

theorem val_of_parts (s : Bool) (m : Double) :
    (Number.mk s m).val = if s then -m.val else m.val := rfl

theorem neg_roundRat_frac (s : Bool) (a b : Nat) (hb : 0 < b) :
    (Number.mk s (Double.round64 a b)).val
      = roundRat (if s then -((a : ℚ) / b) else (a : ℚ) / b) := by
  rw [val_of_parts]
  cases s
  · simp only [Bool.false_eq_true, if_false]
    rw [roundRat_frac a b hb]
  · simp only [if_true]
    rw [roundRat_neg, roundRat_frac a b hb]

theorem mul_val (x : Number) (k a b : Nat) (hx : x.magnitude = .fin a b) (hb : 0 < b) :
    (Number.mul x (Number.ofNat k)).val = roundRat (x.val * k) ∧
    (Number.mul x (Number.ofNat k)).IsD := by
  obtain ⟨s, m⟩ := x
  simp only at hx
  subst hx
  have hb1 : 0 < b * 1 := by omega
  have hbq : (b : ℚ) ≠ 0 := by exact_mod_cast hb.ne'
  constructor
  · simp only [Number.mul, Number.ofNat, Double.mul, Bool.bne_false]
    rw [neg_roundRat_frac s _ _ hb1, val_of_parts]
    congr 1
    cases s <;> simp only [Double.val, Bool.false_eq_true, if_false, if_true] <;>
      push_cast <;> field_simp
  · simp only [Number.IsD, Number.mul, Number.ofNat, Double.mul]
    exact round64_isD _ _ hb1

theorem div_val (x : Number) (k a b : Nat) (hk : 0 < k) (hx : x.magnitude = .fin a b)
    (hb : 0 < b) :
    (Number.div x (Number.ofNat k)).val = roundRat (x.val / k) ∧
    (Number.div x (Number.ofNat k)).IsD := by
  obtain ⟨s, m⟩ := x
  simp only at hx
  subst hx
  have hb1 : 0 < b * k := Nat.mul_pos hb hk
  have hbq : (b : ℚ) ≠ 0 := by exact_mod_cast hb.ne'
  have hkq : (k : ℚ) ≠ 0 := by exact_mod_cast hk.ne'
  constructor
  · simp only [Number.div, Number.ofNat, Double.div, Bool.bne_false, if_neg hk.ne']
    rw [neg_roundRat_frac s _ _ hb1, val_of_parts]
    congr 1
    cases s <;> simp only [Double.val, Bool.false_eq_true, if_false, if_true] <;>
      push_cast <;> field_simp
  · simp only [Number.IsD, Number.div, Number.ofNat, Double.div, if_neg hk.ne']
    exact round64_isD _ _ hb1

theorem two_pow_1024_int : (2 : ℚ) ^ 1024 = (((2 : Int) ^ 1024 : Int) : ℚ) := by
  rw [Int.cast_pow, Int.cast_ofNat]

theorem nat_ceil_div (a b : Nat) (hb : 0 < b) :
    a ≤ ((a + b - 1) / b) * b ∧ ((a + b - 1) / b) * b < a + b := by
  have h1 := Nat.div_mul_le_self (a + b - 1) b
  have h2 := Nat.lt_mul_div_succ (a + b - 1) hb
  rw [Nat.mul_add, Nat.mul_one, Nat.mul_comm] at h2
  constructor <;> omega

/-- `Math.floor` on values, for a well-formed Number. -/
theorem floor_val (x : Number) (hx : x.IsD) :
    (Math.floor x).val = (⌊x.val⌋ : ℚ) ∧ (Math.floor x).IsD := by
  obtain ⟨s, m⟩ := x
  rcases hx with hinf | ⟨N, D, hfin, hD, hlt, hint⟩
  · simp only at hinf
    subst hinf
    refine ⟨?_, Or.inl rfl⟩
    simp only [Math.floor, val_of_parts]
    have e : Double.val Double.inf = 2 ^ 1024 := by simp only [Double.val]
    rw [e, two_pow_1024_int]
    cases s
    · simp only [Bool.false_eq_true, if_false, Int.floor_intCast]
    · simp only [if_true]
      rw [← Int.cast_neg, Int.floor_intCast]
  · simp only at hfin
    subst hfin
    have hDq : (0 : ℚ) < D := by exact_mod_cast hD
    cases s
    · simp only [Math.floor, val_of_parts, Bool.false_eq_true, if_false, Double.val,
        Nat.cast_one, div_one]
      have hfl : ⌊(N : ℚ) / D⌋ = ((N / D : Nat) : Int) := by
        have := Rat.floor_intCast_div_natCast (N : Int) D
        rw [Int.cast_natCast] at this
        rw [this]; norm_cast
      constructor
      · rw [hfl]; norm_cast
      · refine Or.inr ⟨N / D, 1, rfl, Nat.one_pos, ?_, Or.inl rfl⟩
        rw [Nat.cast_one, div_one]
        refine lt_of_le_of_lt ?_ hlt
        rw [le_div_iff₀ hDq]
        exact_mod_cast Nat.div_mul_le_self N D
    · simp only [Math.floor, val_of_parts, if_true, Double.val, Nat.cast_one, div_one]
      obtain ⟨c1, c2⟩ := nat_ceil_div N D hD
      generalize (N + D - 1) / D = c at c1 c2
      have c1q : (N : ℚ) ≤ c * D := by exact_mod_cast c1
      have c2q : (c : ℚ) * D < N + D := by exact_mod_cast c2
      have hfl : ⌊-((N : ℚ) / D)⌋ = -(c : Int) := by
        rw [Int.floor_eq_iff]
        push_cast
        constructor
        · rw [neg_le_neg_iff, div_le_iff₀ hDq]; exact c1q
        · have : (c : ℚ) - 1 < (N : ℚ) / D := by
            rw [lt_div_iff₀ hDq]; linarith
          linarith
      constructor
      · rw [hfl]; push_cast; ring
      · refine Or.inr ⟨c, 1, rfl, Nat.one_pos, ?_, Or.inl rfl⟩
        rw [Nat.cast_one, div_one]
        rcases hint with h1 | h53
        · subst h1
          have : c = N := by
            have e1 : N ≤ c := by simpa using c1
            have e2 : c < N + 1 := by simpa using c2
            omega
          rw [this]
          simpa using hlt
        · have hc : (c : ℚ) < 2 ^ 53 + 1 := by
            have : (c : ℚ) - 1 < (N : ℚ) / D := by
              rw [lt_div_iff₀ hDq]; linarith
            linarith
          have h54 : (2 : ℚ) ^ 53 + 1 ≤ 2 ^ 54 := by norm_num
          have h1024 : (2 : ℚ) ^ 54 ≤ 2 ^ 1024 :=
            pow_le_pow_right₀ (by norm_num) (by norm_num)
          linarith

/-- On well-formed Numbers the comparison `<=` holds as soon as the values compare. -/
theorem le_of_val (x y : Number) (hx : x.IsD) (hy : y.IsD) (h : x.val ≤ y.val) :
    Number.le x y = true := by
  obtain ⟨sx, mx⟩ := x
  obtain ⟨sy, my⟩ := y
  have einf : Double.val Double.inf = 2 ^ 1024 := by simp only [Double.val]
  have hB : (0 : ℚ) < 2 ^ 1024 := by positivity
  rcases hx with hx | ⟨a, b, hx, hb, hxlt, -⟩ <;> rcases hy with hy | ⟨c, d, hy, hd, hylt, -⟩ <;>
    simp only at hx hy <;> subst hx <;> subst hy <;>
    simp only [val_of_parts] at h
  · cases sx <;> cases sy <;> simp only [Number.le] <;>
      simp only [Bool.false_eq_true, if_false, if_true, einf] at h <;>
      first | rfl | (exfalso; linarith)
  · have hdq : (0 : ℚ) < d := by exact_mod_cast hd
    have hv : (0 : ℚ) ≤ (c : ℚ) / d := div_nonneg (Nat.cast_nonneg c) (Nat.cast_nonneg d)
    cases sx <;> cases sy <;> simp only [Number.le] <;>
      simp only [Bool.false_eq_true, if_false, if_true, einf, Double.val] at h <;>
      first | rfl | (exfalso; linarith)
  · have hbq : (0 : ℚ) < b := by exact_mod_cast hb
    have hv : (0 : ℚ) ≤ (a : ℚ) / b := div_nonneg (Nat.cast_nonneg a) (Nat.cast_nonneg b)
    cases sx <;> cases sy <;> simp only [Number.le] <;>
      simp only [Bool.false_eq_true, if_false, if_true, einf, Double.val] at h <;>
      first | rfl | (exfalso; linarith)
  · have hbq : (0 : ℚ) < b := by exact_mod_cast hb
    have hdq : (0 : ℚ) < d := by exact_mod_cast hd
    have hva : (0 : ℚ) ≤ (a : ℚ) / b := div_nonneg (Nat.cast_nonneg a) (Nat.cast_nonneg b)
    have hvc : (0 : ℚ) ≤ (c : ℚ) / d := div_nonneg (Nat.cast_nonneg c) (Nat.cast_nonneg d)
    cases sx <;> cases sy <;> simp only [Number.le] <;>
      simp only [Bool.false_eq_true, if_false, if_true, Double.val] at h
    · rw [div_le_div_iff₀ hbq hdq] at h
      have : a * d ≤ c * b := by exact_mod_cast h
      simpa using this
    · have ha0 : (a : ℚ) / b = 0 := by linarith
      have hc0 : (c : ℚ) / d = 0 := by linarith
      rw [div_eq_zero_iff] at ha0 hc0
      have ha : a = 0 := by
        rcases ha0 with h1 | h1
        · exact_mod_cast h1
        · exact absurd h1 hbq.ne'
      have hc : c = 0 := by
        rcases hc0 with h1 | h1
        · exact_mod_cast h1
        · exact absurd h1 hdq.ne'
      simp [ha, hc]
    · rw [neg_le_neg_iff, div_le_div_iff₀ hdq hbq] at h
      have : c * b ≤ a * d := by exact_mod_cast h
      simpa using this

theorem isD_fin_one (s : Bool) (N : Nat) (h : (N : ℚ) < 2 ^ 1024) :
    (Number.mk s (.fin N 1)).IsD :=
  Or.inr ⟨N, 1, rfl, Nat.one_pos, by rw [Nat.cast_one, div_one]; exact h, Or.inl rfl⟩

/-- The sum of two finite Numbers is the rounded exact sum. -/
theorem add_val_fin (x y : Number) (a b c d : Nat) (hx : x.magnitude = .fin a b) (hb : 0 < b)
    (hy : y.magnitude = .fin c d) (hd : 0 < d) :
    (Number.add x y).val = roundRat (x.val + y.val) ∧ (Number.add x y).IsD := by
  obtain ⟨sx, mx⟩ := x
  obtain ⟨sy, my⟩ := y
  simp only at hx hy
  subst hx
  subst hy
  have hbd : 0 < b * d := Nat.mul_pos hb hd
  have hbq : (b : ℚ) ≠ 0 := by exact_mod_cast hb.ne'
  have hdq : (d : ℚ) ≠ 0 := by exact_mod_cast hd.ne'
  have hsame : ∀ s : Bool,
      (Number.mk s (Double.round64 (a * d + c * b) (b * d))).val
        = roundRat ((Number.mk s (.fin a b)).val + (Number.mk s (.fin c d)).val) := by
    intro s
    rw [neg_roundRat_frac s _ _ hbd]
    congr 1
    cases s <;>
      (simp only [val_of_parts, Double.val, Bool.false_eq_true, if_false, if_true]
       push_cast
       field_simp
       try ring)
  have hdiff1 : ∀ s : Bool, c * b < a * d →
      (Number.mk s (Double.round64 (a * d - c * b) (b * d))).val
        = roundRat ((Number.mk s (.fin a b)).val + (Number.mk (!s) (.fin c d)).val) := by
    intro s hlt
    rw [neg_roundRat_frac s _ _ hbd]
    congr 1
    cases s <;> simp only [val_of_parts, Double.val, Bool.false_eq_true, if_false, if_true,
      Bool.not_false, Bool.not_true] <;>
      rw [Nat.cast_sub hlt.le] <;> push_cast <;> field_simp <;> ring
  have hdiff2 : ∀ s : Bool, a * d < c * b →
      (Number.mk (!s) (Double.round64 (c * b - a * d) (b * d))).val
        = roundRat ((Number.mk s (.fin a b)).val + (Number.mk (!s) (.fin c d)).val) := by
    intro s hlt
    rw [neg_roundRat_frac (!s) _ _ hbd]
    congr 1
    cases s <;> simp only [val_of_parts, Double.val, Bool.false_eq_true, if_false, if_true,
      Bool.not_false, Bool.not_true] <;>
      rw [Nat.cast_sub hlt.le] <;> push_cast <;> field_simp <;> ring
  have hzero : ∀ s : Bool, a * d = c * b →
      (Number.mk false (.fin 0 1)).val
        = roundRat ((Number.mk s (.fin a b)).val + (Number.mk (!s) (.fin c d)).val) := by
    intro s heq
    have hq : (a : ℚ) * d = c * b := by exact_mod_cast heq
    have hv : (a : ℚ) / b = c / d := by
      rw [div_eq_div_iff hbq hdq]; exact hq
    have : (Number.mk s (.fin a b)).val + (Number.mk (!s) (.fin c d)).val = 0 := by
      cases s <;> simp only [val_of_parts, Double.val, Bool.false_eq_true, if_false, if_true,
        Bool.not_false, Bool.not_true] <;> rw [hv] <;> ring
    rw [this, roundRat_zero]
    simp [val_of_parts, Double.val]
  have hz0 : (Number.mk false (.fin 0 1)).IsD := isD_fin_one false 0 (by simp)
  have hr : ∀ (s : Bool) (n : Nat), (Number.mk s (Double.round64 n (b * d))).IsD :=
    fun s n => round64_isD n (b * d) hbd
  cases sx <;> cases sy
  · simp only [Number.add, if_true]
    exact ⟨hsame false, hr _ _⟩
  · simp only [Number.add, Bool.false_eq_true, if_false]
    split_ifs with h1 h2
    · exact ⟨hdiff1 false h1, hr _ _⟩
    · exact ⟨hdiff2 false h2, hr _ _⟩
    · exact ⟨hzero false (by omega), hz0⟩
  · simp only [Number.add, Bool.true_eq_false, if_false]
    split_ifs with h1 h2
    · exact ⟨hdiff1 true h1, hr _ _⟩
    · exact ⟨hdiff2 true h2, hr _ _⟩
    · exact ⟨hzero true (by omega), hz0⟩
  · simp only [Number.add, if_true]
    exact ⟨hsame true, hr _ _⟩

/-- An infinite first operand absorbs a finite second one. -/
theorem add_inf_fin (x y : Number) (c d : Nat) (hx : x.magnitude = .inf)
    (hy : y.magnitude = .fin c d) :
    Number.add x y = ⟨x.negative, .inf⟩ := by
  obtain ⟨sx, mx⟩ := x
  obtain ⟨sy, my⟩ := y
  simp only at hx hy
  subst hx
  subst hy
  simp only [Number.add]

theorem isD_abs_val_le (x : Number) (hx : x.IsD) : |x.val| ≤ 2 ^ 1024 := by
  obtain ⟨h1, h2⟩ := isD_val_bounds x.magnitude hx
  unfold Number.val
  split_ifs
  · rw [abs_neg, abs_of_nonneg h1]; exact h2
  · rw [abs_of_nonneg h1]; exact h2

theorem fin_abs_val_lt (x : Number) (N D : Nat) (hx : x.IsD) (hf : x.magnitude = .fin N D) :
    0 < D ∧ |x.val| < 2 ^ 1024 := by
  obtain ⟨h1, h2, -⟩ := isD_val_lt x.magnitude N D hx hf
  refine ⟨h1, ?_⟩
  have h0 : (0 : ℚ) ≤ (N : ℚ) / D := div_nonneg (Nat.cast_nonneg N) (Nat.cast_nonneg D)
  unfold Number.val
  rw [hf]
  simp only [Double.val]
  split_ifs
  · rw [abs_neg, abs_of_nonneg h0]; exact h2
  · rw [abs_of_nonneg h0]; exact h2

theorem inf_val (x : Number) (hx : x.magnitude = .inf) :
    x.val = if x.negative then -(2 ^ 1024) else 2 ^ 1024 := by
  unfold Number.val
  rw [hx]
  simp only [Double.val]

/-- A well-formed Number whose value stays inside `(-2^1024, 2^1024)` is finite. -/
theorem fin_of_abs_val_lt (x : Number) (hx : x.IsD) (h : |x.val| < 2 ^ 1024) :
    ∃ N D, x.magnitude = .fin N D ∧ 0 < D := by
  rcases hx with hinf | ⟨N, D, hfin, hD, -, -⟩
  · exfalso
    rw [inf_val x hinf] at h
    have hB : (0 : ℚ) < 2 ^ 1024 := pow_pos two_pos 1024
    split_ifs at h
    · rw [abs_neg, abs_of_pos hB] at h; exact lt_irrefl _ h
    · rw [abs_of_pos hB] at h; exact lt_irrefl _ h
  · exact ⟨N, D, hfin, hD⟩

/-- Addition of a finite Number is monotone, also when the first operands are infinite. -/
theorem add_mono (x1 y1 x2 y2 : Number) (hx1 : x1.IsD) (hx2 : x2.IsD)
    (hy1 : ∃ c d, y1.magnitude = .fin c d ∧ 0 < d)
    (hy2 : ∃ c d, y2.magnitude = .fin c d ∧ 0 < d)
    (hx : x1.val ≤ x2.val) (hy : y1.val ≤ y2.val) :
    (Number.add x1 y1).val ≤ (Number.add x2 y2).val ∧
      (Number.add x1 y1).IsD ∧ (Number.add x2 y2).IsD := by
  obtain ⟨c1, d1, hy1, hd1⟩ := hy1
  obtain ⟨c2, d2, hy2, hd2⟩ := hy2
  have hB : (0 : ℚ) < 2 ^ 1024 := pow_pos two_pos 1024
  have hinfD : ∀ s : Bool, (Number.mk s Double.inf).IsD := fun s => Or.inl rfl
  have key : ∀ x y : Number, x.IsD → ∀ c d, y.magnitude = .fin c d → 0 < d →
      (Number.add x y).IsD ∧
      ((∃ a b, x.magnitude = .fin a b ∧ (Number.add x y).val = roundRat (x.val + y.val)) ∨
        (x.magnitude = .inf ∧ (Number.add x y).val = x.val)) := by
    intro x y hxD c d hyf hd
    rcases hxD with hinf | ⟨a, b, hfin, hb, -, -⟩
    · rw [add_inf_fin x y c d hinf hyf]
      refine ⟨hinfD _, Or.inr ⟨hinf, ?_⟩⟩
      rw [inf_val x hinf, inf_val _ rfl]
    · obtain ⟨hv, hD⟩ := add_val_fin x y a b c d hfin hb hyf hd
      exact ⟨hD, Or.inl ⟨a, b, hfin, hv⟩⟩
  obtain ⟨hD1, hc1⟩ := key x1 y1 hx1 c1 d1 hy1 hd1
  obtain ⟨hD2, hc2⟩ := key x2 y2 hx2 c2 d2 hy2 hd2
  refine ⟨?_, hD1, hD2⟩
  have hb1 := isD_abs_val_le _ hD1
  have hb2 := isD_abs_val_le _ hD2
  rw [abs_le] at hb1 hb2
  rcases hc1 with ⟨a1, b1, hf1, hv1⟩ | ⟨hi1, hv1⟩ <;>
    rcases hc2 with ⟨a2, b2, hf2, hv2⟩ | ⟨hi2, hv2⟩
  · rw [hv1, hv2]
    exact roundRat_mono _ _ (by linarith)
  · have hlt := (fin_abs_val_lt x1 a1 b1 hx1 hf1).2
    rw [abs_lt] at hlt
    rw [hv2, inf_val x2 hi2]
    rw [inf_val x2 hi2] at hx
    split_ifs at hx ⊢
    · exfalso; linarith [hlt.1]
    · exact hb1.2
  · have hlt := (fin_abs_val_lt x2 a2 b2 hx2 hf2).2
    rw [abs_lt] at hlt
    rw [hv1, inf_val x1 hi1]
    rw [inf_val x1 hi1] at hx
    split_ifs at hx ⊢
    · exact hb2.1
    · exfalso; linarith [hlt.2]
  · rw [hv1, hv2]; exact hx

/-- The comparison of a finite Number with a positive integer constant. -/
theorem le_ofNat_iff (n : Nat) (hn : 0 < n) (x : Number) (a b : Nat)
    (hx : x.magnitude = .fin a b) (hb : 0 < b) :
    Number.le (Number.ofNat n) x = true ↔ (n : ℚ) ≤ x.val := by
  obtain ⟨s, m⟩ := x
  simp only at hx
  subst hx
  have hbq : (0 : ℚ) < b := by exact_mod_cast hb
  have hnq : (0 : ℚ) < n := by exact_mod_cast hn
  cases s
  · simp only [Number.le, Number.ofNat, val_of_parts, Double.val, Bool.false_eq_true, if_false,
      decide_eq_true_eq, Nat.mul_one]
    rw [le_div_iff₀ hbq]
    norm_cast
  · simp only [Number.le, Number.ofNat, val_of_parts, Double.val, if_true, decide_eq_true_eq]
    have h0 : (0 : ℚ) ≤ (a : ℚ) / b := div_nonneg (Nat.cast_nonneg a) (Nat.cast_nonneg b)
    constructor
    · rintro ⟨h1, -⟩; omega
    · intro h; exfalso; linarith

/-- The rounded quotient `w / 100` of a natural number below `2^53` is closer than
`1 / 100` to the exact one. -/
theorem roundRat_div_hundred_nat (w : Nat) (hw : w < 2 ^ 53) :
    |roundRat ((w : ℚ) / 100) - (w : ℚ) / 100| < 1 / 100 := by
  rcases Nat.eq_zero_or_pos w with rfl | hpos
  · rw [Nat.cast_zero, zero_div, roundRat_zero]; norm_num
  have hwq : (1 : ℚ) ≤ w := by exact_mod_cast hpos
  have hw53 : (w : ℚ) < 2 ^ 53 := by exact_mod_cast hw
  have he1 : -7 ≤ floorLog2 w 100 := by
    apply le_floorLog2 w 100 hpos (by norm_num)
    have : (2 : ℚ) ^ (-7 : Int) = 1 / 128 := by
      rw [zpow_neg, one_div]; norm_num
    rw [this, div_le_div_iff₀ (by norm_num) (by norm_num)]
    push_cast
    linarith
  have he2 : floorLog2 w 100 < 47 := by
    apply floorLog2_lt w 100 hpos (by norm_num)
    have : (2 : ℚ) ^ (47 : Int) = 2 ^ 47 := by norm_cast
    rw [this, div_lt_iff₀ (by norm_num)]
    push_cast
    have : (2 : ℚ) ^ 53 ≤ 2 ^ 47 * 100 := by norm_num
    linarith
  obtain ⟨N, D, hfin, hD, herr⟩ := round64_spec w 100 hpos (by norm_num) (by omega) (by omega)
  have h := roundRat_frac w 100 (by norm_num)
  rw [hfin] at h
  simp only [Double.val, Nat.cast_ofNat] at h
  push_cast at herr
  rw [h]
  refine lt_of_le_of_lt herr ?_
  rw [div_div, div_lt_div_iff₀ (by norm_num) (by norm_num)]
  linarith

theorem roundRat_div_hundred_err (v : Int) (hv : |v| < 2 ^ 53) :
    |roundRat ((v : ℚ) / 100) - (v : ℚ) / 100| < 1 / 100 := by
  rcases le_or_lt 0 v with h | h
  · obtain ⟨n, rfl⟩ := Int.eq_ofNat_of_zero_le h
    have hn : n < 2 ^ 53 := by
      rw [abs_of_nonneg h] at hv
      exact_mod_cast hv
    simpa using roundRat_div_hundred_nat n hn
  · obtain ⟨n, hn⟩ := Int.eq_ofNat_of_zero_le (show 0 ≤ -v by omega)
    have hz2 : v = -(n : Int) := by omega
    have hn53 : n < 2 ^ 53 := by
      rw [abs_of_neg h, hn] at hv
      exact_mod_cast hv
    have := roundRat_div_hundred_nat n hn53
    rw [hz2]
    push_cast
    rw [neg_div, roundRat_neg, ← abs_neg]
    have e : -(-roundRat ((n : ℚ) / 100) - -((n : ℚ) / 100))
        = roundRat ((n : ℚ) / 100) - (n : ℚ) / 100 := by ring
    rw [e]
    exact this

/-- The floor of the rounded quotient `v / 100` is the floor of the exact quotient, for
every integer `v` of absolute value below `2^53`. -/
theorem floor_roundRat_div_hundred (v : Int) (hv : |v| < 2 ^ 53) :
    ⌊roundRat ((v : ℚ) / 100)⌋ = Int.fdiv v 100 := by
  have herr := roundRat_div_hundred_err v hv
  rw [abs_lt] at herr hv
  rw [Int.fdiv_eq_ediv v (by norm_num)]
  have hk1 : 100 * (v / 100) ≤ v := by omega
  have hk2 : v < 100 * (v / 100) + 100 := by omega
  generalize v / 100 = k at hk1 hk2
  have hk1q : (100 : ℚ) * k ≤ v := by exact_mod_cast hk1
  have hk2q : (v : ℚ) + 1 ≤ 100 * k + 100 := by
    have : v + 1 ≤ 100 * k + 100 := by omega
    exact_mod_cast this
  have hkabs : |k| < 2 ^ 53 := by
    rw [abs_lt]; constructor <;> omega
  have hmono : (k : ℚ) ≤ roundRat ((v : ℚ) / 100) := by
    have := roundRat_mono (k : ℚ) ((v : ℚ) / 100) (by rw [le_div_iff₀ (by norm_num)]; linarith)
    rwa [roundRat_intCast k hkabs] at this
  rw [Int.floor_eq_iff]
  refine ⟨hmono, ?_⟩
  have : (v : ℚ) / 100 ≤ k + 99 / 100 := by
    rw [div_le_iff₀ (by norm_num)]; linarith
  linarith [herr.2]

theorem two_pow_53_lt : (2 : ℚ) ^ 53 < 2 ^ 1024 :=
  pow_lt_pow_right₀ (by norm_num) (by norm_num)

theorem floor_fin (x : Number) (N D : Nat) (hx : x.magnitude = .fin N D) :
    ∃ N1, (Math.floor x).magnitude = .fin N1 1 := by
  obtain ⟨s, m⟩ := x
  simp only at hx
  subst hx
  cases s
  · exact ⟨_, rfl⟩
  · exact ⟨_, rfl⟩

/-- The perfection bonus of a finite accuracy, on values. -/
theorem bonus_val (x : Number) (a b : Nat) (hx : x.magnitude = .fin a b) (hb : 0 < b) :
    (if Number.le (Number.ofNat 95) x then Number.ofNat 500 else Number.ofNat 0).val
      = (if (95 : ℚ) ≤ x.val then 500 else 0) ∧
    ∃ N, (if Number.le (Number.ofNat 95) x then Number.ofNat 500 else Number.ofNat 0).magnitude
      = .fin N 1 := by
  have h := le_ofNat_iff 95 (by norm_num) x a b hx hb
  by_cases hc : Number.le (Number.ofNat 95) x = true
  · have hv := h.mp hc
    rw [if_pos hc, val_ofNat]
    push_cast at hv
    rw [if_pos hv]
    exact ⟨by norm_num, 500, rfl⟩
  · have hv : ¬ ((95 : Nat) : ℚ) ≤ x.val := fun hv => hc (h.mpr hv)
    rw [if_neg hc, val_ofNat]
    push_cast at hv
    rw [if_neg hv]
    exact ⟨by norm_num, 0, rfl⟩

theorem two_zpow_1024 : (2 : ℚ) ^ (1024 : Nat) = 2 * 2 ^ (1023 : Int) := by
  have h1 : (2 : ℚ) ^ (1024 : Nat) = 2 ^ (1024 : Int) := (zpow_natCast (2 : ℚ) 1024).symm
  have h2 : (1024 : Int) = 1 + 1023 := by norm_num
  rw [h1, h2, zpow_one_add₀ (by norm_num : (2 : ℚ) ≠ 0)]

/-- A quotient below `2^1023` does not overflow. -/
theorem round64_val_lt (a b : Nat) (hb : 0 < b) (h : 2 * ((a : ℚ) / b) < 2 ^ 1024) :
    Double.val (Double.round64 a b) < 2 ^ 1024 := by
  have hB : (0 : ℚ) < 2 ^ 1024 := pow_pos two_pos 1024
  rcases Nat.eq_zero_or_pos a with rfl | ha
  · rw [round64_zero]
    have e : Double.val (.fin 0 1) = 0 := by simp [Double.val]
    rw [e]
    exact hB
  obtain ⟨E, M, hE, -, hMhi, -, hval, -⟩ := round64_pre a b ha hb
  rw [hval]
  rw [two_zpow_1024] at h ⊢
  have hfl : floorLog2 a b < 1023 := by
    apply floorLog2_lt a b ha hb
    linarith
  have hE970 : E ≤ 970 := by
    rw [hE]; exact max_le (by omega) (by decide)
  have h2 : (2 : ℚ) ≠ 0 := by norm_num
  have hMq : (M : ℚ) ≤ 2 ^ 53 := by exact_mod_cast hMhi
  have hp : (0 : ℚ) < 2 ^ E := zpow_pos two_pos E
  have hq : (0 : ℚ) < 2 ^ (1023 : Int) := zpow_pos two_pos 1023
  refine lt_of_le_of_lt (min_le_right _ _) ?_
  calc (M : ℚ) * 2 ^ E ≤ 2 ^ 53 * 2 ^ E := mul_le_mul_of_nonneg_right hMq hp.le
    _ = 2 ^ (53 + E) := by
        rw [zpow_add₀ h2, ← zpow_natCast (2 : ℚ) 53, Nat.cast_ofNat]
    _ ≤ 2 ^ (1023 : Int) := zpow_le_zpow_right₀ one_le_two (by omega)
    _ < 2 * 2 ^ (1023 : Int) := by linarith

theorem roundRat_abs_lt (q : ℚ) (h : 2 * |q| < 2 ^ 1024) : |roundRat q| < 2 ^ 1024 := by
  have key : ∀ p : ℚ, 0 ≤ p → 2 * p < 2 ^ 1024 → |roundRat p| < 2 ^ 1024 := by
    intro p hp hlt
    rw [abs_of_nonneg (roundRat_nonneg p hp)]
    unfold roundRat
    rw [if_pos hp]
    apply round64_val_lt _ _ p.den_pos
    have h1 : ((p.num.natAbs : Nat) : ℚ) = (p.num : ℚ) := by
      rw [Nat.cast_natAbs, abs_of_nonneg (Rat.num_nonneg.mpr hp)]
    rw [h1, Rat.num_div_den]
    exact hlt
  rcases le_or_lt 0 q with hq | hq
  · rw [abs_of_nonneg hq] at h
    exact key q hq h
  · rw [abs_of_neg hq] at h
    have := key (-q) (by linarith) h
    rwa [roundRat_neg, abs_neg] at this

/-- The points are monotone in both arguments, on all finite Numbers whose abjad argument
lies inside the range of the Number type. -/
theorem jannahPoints_mono (x1 x2 y1 y2 : Number)
    (hx1 : ∃ a b, x1.magnitude = .fin a b ∧ 0 < b)
    (hx2 : ∃ a b, x2.magnitude = .fin a b ∧ 0 < b)
    (hy1 : ∃ c d, y1.magnitude = .fin c d ∧ 0 < d)
    (hy2 : ∃ c d, y2.magnitude = .fin c d ∧ 0 < d)
    (hy1r : |y1.val| < 2 ^ 1024) (hy2r : |y2.val| < 2 ^ 1024)
    (hx : x1.val ≤ x2.val) (hy : y1.val ≤ y2.val) :
    Number.le (RecitationAnalyzer.calculateJannahPoints x1 y1)
      (RecitationAnalyzer.calculateJannahPoints x2 y2) = true := by
  obtain ⟨a1, b1, hx1f, hb1⟩ := hx1
  obtain ⟨a2, b2, hx2f, hb2⟩ := hx2
  obtain ⟨c1, d1, hy1f, hd1⟩ := hy1
  obtain ⟨c2, d2, hy2f, hd2⟩ := hy2
  -- base points
  obtain ⟨hm1, hm1D⟩ := mul_val x1 10 a1 b1 hx1f hb1
  obtain ⟨hm2, hm2D⟩ := mul_val x2 10 a2 b2 hx2f hb2
  obtain ⟨hbp1, hbp1D⟩ := floor_val _ hm1D
  obtain ⟨hbp2, hbp2D⟩ := floor_val _ hm2D
  have hbp : (Math.floor (Number.mul x1 (Number.ofNat 10))).val
      ≤ (Math.floor (Number.mul x2 (Number.ofNat 10))).val := by
    rw [hbp1, hbp2, hm1, hm2]
    have : roundRat (x1.val * ((10 : Nat) : ℚ)) ≤ roundRat (x2.val * ((10 : Nat) : ℚ)) :=
      roundRat_mono _ _ (mul_le_mul_of_nonneg_right hx (Nat.cast_nonneg 10))
    exact_mod_cast Int.floor_le_floor this
  -- abjad bonus: finite, because the quotient by 100 cannot overflow
  have hfinq : ∀ (y : Number) (c d : Nat), y.magnitude = .fin c d → 0 < d →
      |y.val| < 2 ^ 1024 →
      (Math.floor (Number.div y (Number.ofNat 100))).val
          = (⌊roundRat (y.val / 100)⌋ : ℚ) ∧
        ∃ N, (Math.floor (Number.div y (Number.ofNat 100))).magnitude = .fin N 1 := by
    intro y c d hyf hd hyr
    obtain ⟨hdv, hdD⟩ := div_val y 100 c d (by norm_num) hyf hd
    have hq : 2 * |y.val / ((100 : Nat) : ℚ)| < 2 ^ 1024 := by
      have h0 : (0 : ℚ) ≤ |y.val| := abs_nonneg _
      rw [abs_div, abs_of_pos (by norm_num : (0 : ℚ) < ((100 : Nat) : ℚ))]
      have : 2 * (|y.val| / ((100 : Nat) : ℚ)) ≤ |y.val| := by
        rw [← mul_div_assoc, div_le_iff₀ (by norm_num)]
        push_cast
        linarith
      linarith
    have hlt : |(Number.div y (Number.ofNat 100)).val| < 2 ^ 1024 := by
      rw [hdv]
      exact roundRat_abs_lt _ hq
    obtain ⟨Nd, Dd, hdf, -⟩ := fin_of_abs_val_lt _ hdD hlt
    obtain ⟨hfl, -⟩ := floor_val _ hdD
    refine ⟨?_, floor_fin _ Nd Dd hdf⟩
    rw [hfl, hdv]
    norm_num
  obtain ⟨hab1, Na1, hab1f⟩ := hfinq y1 c1 d1 hy1f hd1 hy1r
  obtain ⟨hab2, Na2, hab2f⟩ := hfinq y2 c2 d2 hy2f hd2 hy2r
  have hab : (Math.floor (Number.div y1 (Number.ofNat 100))).val
      ≤ (Math.floor (Number.div y2 (Number.ofNat 100))).val := by
    rw [hab1, hab2]
    have : roundRat (y1.val / 100) ≤ roundRat (y2.val / 100) :=
      roundRat_mono _ _ (div_le_div_of_nonneg_right hy (by norm_num))
    exact_mod_cast Int.floor_le_floor this
  -- perfection bonus
  obtain ⟨hpb1, Np1, hpb1f⟩ := bonus_val x1 a1 b1 hx1f hb1
  obtain ⟨hpb2, Np2, hpb2f⟩ := bonus_val x2 a2 b2 hx2f hb2
  have hpb : (if Number.le (Number.ofNat 95) x1 then Number.ofNat 500 else Number.ofNat 0).val
      ≤ (if Number.le (Number.ofNat 95) x2 then Number.ofNat 500 else Number.ofNat 0).val := by
    rw [hpb1, hpb2]
    split_ifs with h1 h2
    · exact le_refl _
    · exact absurd (le_trans h1 hx) h2
    · norm_num
    · exact le_refl _
  -- the two sums
  obtain ⟨hs, hs1D, hs2D⟩ := add_mono _ _ _ _ hbp1D hbp2D ⟨Na1, 1, hab1f, Nat.one_pos⟩
    ⟨Na2, 1, hab2f, Nat.one_pos⟩ hbp hab
  obtain ⟨hr, hr1D, hr2D⟩ := add_mono _ _ _ _ hs1D hs2D ⟨Np1, 1, hpb1f, Nat.one_pos⟩
    ⟨Np2, 1, hpb2f, Nat.one_pos⟩ hs hpb
  exact le_of_val _ _ hr1D hr2D hr

/-- On well-formed Numbers the comparison `<=` fails as soon as the values compare the
other way. -/
theorem le_eq_false_of_val (x y : Number) (hx : x.IsD) (hy : y.IsD) (h : y.val < x.val) :
    Number.le x y = false := by
  obtain ⟨sx, mx⟩ := x
  obtain ⟨sy, my⟩ := y
  have einf : Double.val Double.inf = 2 ^ 1024 := by simp only [Double.val]
  have hB : (0 : ℚ) < 2 ^ 1024 := pow_pos two_pos 1024
  rcases hx with hx | ⟨a, b, hx, hb, hxlt, -⟩ <;> rcases hy with hy | ⟨c, d, hy, hd, hylt, -⟩ <;>
    simp only at hx hy <;> subst hx <;> subst hy <;>
    simp only [val_of_parts] at h
  · cases sx <;> cases sy <;> simp only [Number.le] <;>
      simp only [Bool.false_eq_true, if_false, if_true, einf] at h <;>
      first | rfl | (exfalso; linarith)
  · have hdq : (0 : ℚ) < d := by exact_mod_cast hd
    have hv : (0 : ℚ) ≤ (c : ℚ) / d := div_nonneg (Nat.cast_nonneg c) (Nat.cast_nonneg d)
    cases sx <;> cases sy <;> simp only [Number.le] <;>
      simp only [Bool.false_eq_true, if_false, if_true, einf, Double.val] at h <;>
      first | rfl | (exfalso; linarith)
  · have hbq : (0 : ℚ) < b := by exact_mod_cast hb
    have hv : (0 : ℚ) ≤ (a : ℚ) / b := div_nonneg (Nat.cast_nonneg a) (Nat.cast_nonneg b)
    cases sx <;> cases sy <;> simp only [Number.le] <;>
      simp only [Bool.false_eq_true, if_false, if_true, einf, Double.val] at h <;>
      first | rfl | (exfalso; linarith)
  · have hbq : (0 : ℚ) < b := by exact_mod_cast hb
    have hdq : (0 : ℚ) < d := by exact_mod_cast hd
    have hva : (0 : ℚ) ≤ (a : ℚ) / b := div_nonneg (Nat.cast_nonneg a) (Nat.cast_nonneg b)
    have hvc : (0 : ℚ) ≤ (c : ℚ) / d := div_nonneg (Nat.cast_nonneg c) (Nat.cast_nonneg d)
    cases sx <;> cases sy <;> simp only [Number.le] <;>
      simp only [Bool.false_eq_true, if_false, if_true, Double.val] at h
    · rw [div_lt_div_iff₀ hdq hbq] at h
      have : c * b < a * d := by exact_mod_cast h
      simpa using this
    · have hpos : (0 : ℚ) < (a : ℚ) / b + (c : ℚ) / d := by linarith
      rw [decide_eq_false_iff_not]
      rintro ⟨ha, hc⟩
      rw [ha, hc] at hpos
      simp at hpos
    · exfalso; linarith
    · rw [neg_lt_neg_iff, div_lt_div_iff₀ hbq hdq] at h
      have : a * d < c * b := by exact_mod_cast h
      simpa using this

/-- The points of integer arguments have the value of the exact formula as long as every
intermediate value stays below `2^53` in absolute value. -/
theorem jannahPoints_val (a v : Int)
    (ha : |10 * a| < 2 ^ 53) (hv : |v| < 2 ^ 53)
    (hs : |10 * a + Int.fdiv v 100| < 2 ^ 53)
    (hr : |10 * a + Int.fdiv v 100 + (if 95 ≤ a then 500 else 0)| < 2 ^ 53) :
    (RecitationAnalyzer.calculateJannahPoints (Number.ofInt a) (Number.ofInt v)).IsD ∧
    (RecitationAnalyzer.calculateJannahPoints (Number.ofInt a) (Number.ofInt v)).val
      = ((10 * a + Int.fdiv v 100 + (if 95 ≤ a then 500 else 0) : Int) : ℚ) := by
  have hcast : ∀ z : Int, |z| < 2 ^ 53 → |(z : ℚ)| < 2 ^ 1024 := by
    intro z hz
    have : |(z : ℚ)| < 2 ^ 53 := by exact_mod_cast hz
    exact lt_trans this two_pow_53_lt
  -- base points
  obtain ⟨hm, hmD⟩ := mul_val (Number.ofInt a) 10 a.natAbs 1 rfl Nat.one_pos
  have hm10 : (Number.mul (Number.ofInt a) (Number.ofNat 10)).val = ((10 * a : Int) : ℚ) := by
    rw [hm, val_ofInt]
    have : (a : ℚ) * ((10 : Nat) : ℚ) = ((10 * a : Int) : ℚ) := by push_cast; ring
    rw [this, roundRat_intCast _ ha]
  obtain ⟨hbp, hbpD⟩ := floor_val _ hmD
  rw [hm10, Int.floor_intCast] at hbp
  obtain ⟨Nm, Dm, hmf, -⟩ := fin_of_abs_val_lt _ hmD (by rw [hm10]; exact hcast _ ha)
  obtain ⟨Nb, hbpf⟩ := floor_fin _ Nm Dm hmf
  -- abjad bonus
  obtain ⟨hd, hdD⟩ := div_val (Number.ofInt v) 100 v.natAbs 1 (by norm_num) rfl Nat.one_pos
  have hd100 : (Number.div (Number.ofInt v) (Number.ofNat 100)).val
      = roundRat ((v : ℚ) / 100) := by
    rw [hd, val_ofInt]; norm_num
  obtain ⟨hab, habD⟩ := floor_val _ hdD
  rw [hd100, floor_roundRat_div_hundred v hv] at hab
  have hdlt : |(Number.div (Number.ofInt v) (Number.ofNat 100)).val| < 2 ^ 1024 := by
    rw [hd100]
    have herr := roundRat_div_hundred_err v hv
    have hvq : |(v : ℚ)| < 2 ^ 53 := by exact_mod_cast hv
    rw [abs_lt] at herr hvq ⊢
    have := two_pow_53_lt
    constructor <;> linarith [herr.1, herr.2, hvq.1, hvq.2]
  obtain ⟨Nd, Dd, hdf, -⟩ := fin_of_abs_val_lt _ hdD hdlt
  obtain ⟨Na, habf⟩ := floor_fin _ Nd Dd hdf
  -- first sum
  obtain ⟨hs1, hs1D⟩ := add_val_fin _ _ Nb 1 Na 1 hbpf Nat.one_pos habf Nat.one_pos
  have hs1v : (Number.add (Math.floor (Number.mul (Number.ofInt a) (Number.ofNat 10)))
      (Math.floor (Number.div (Number.ofInt v) (Number.ofNat 100)))).val
      = ((10 * a + Int.fdiv v 100 : Int) : ℚ) := by
    rw [hs1, hbp, hab]
    have : ((10 * a : Int) : ℚ) + ((Int.fdiv v 100 : Int) : ℚ)
        = ((10 * a + Int.fdiv v 100 : Int) : ℚ) := by push_cast; ring
    rw [this, roundRat_intCast _ hs]
  obtain ⟨Ns, Ds, hs1f, hDs⟩ := fin_of_abs_val_lt _ hs1D (by rw [hs1v]; exact hcast _ hs)
  -- perfection bonus
  obtain ⟨hpb, Np, hpbf⟩ := bonus_val (Number.ofInt a) a.natAbs 1 rfl Nat.one_pos
  rw [val_ofInt] at hpb
  have hpbv : (if Number.le (Number.ofNat 95) (Number.ofInt a) then Number.ofNat 500
      else Number.ofNat 0).val = (((if 95 ≤ a then 500 else 0 : Int)) : ℚ) := by
    rw [hpb]
    by_cases h95 : 95 ≤ a
    · have : (95 : ℚ) ≤ a := by exact_mod_cast h95
      rw [if_pos this, if_pos h95]; norm_num
    · have : ¬ (95 : ℚ) ≤ a := by
        intro h; apply h95; exact_mod_cast h
      rw [if_neg this, if_neg h95]; norm_num
  -- second sum
  obtain ⟨hs2, hs2D⟩ := add_val_fin _ _ Ns Ds Np 1 hs1f hDs hpbf Nat.one_pos
  have hres : (RecitationAnalyzer.calculateJannahPoints (Number.ofInt a) (Number.ofInt v)).val
      = ((10 * a + Int.fdiv v 100 + (if 95 ≤ a then 500 else 0) : Int) : ℚ) := by
    unfold RecitationAnalyzer.calculateJannahPoints
    simp only [Number.ge]
    rw [hs2, hs1v, hpbv]
    have : ((10 * a + Int.fdiv v 100 : Int) : ℚ) + (((if 95 ≤ a then 500 else 0 : Int)) : ℚ)
        = ((10 * a + Int.fdiv v 100 + (if 95 ≤ a then 500 else 0) : Int) : ℚ) := by push_cast; ring
    rw [this, roundRat_intCast _ hr]
  exact ⟨hs2D, hres⟩

/-- The points of integer arguments are the exact formula as long as every intermediate
value stays below `2^53` in absolute value. -/
theorem jannahPoints_exact (a v : Int)
    (ha : |10 * a| < 2 ^ 53) (hv : |v| < 2 ^ 53)
    (hs : |10 * a + Int.fdiv v 100| < 2 ^ 53)
    (hr : |10 * a + Int.fdiv v 100 + (if 95 ≤ a then 500 else 0)| < 2 ^ 53) :
    Number.eq (RecitationAnalyzer.calculateJannahPoints (Number.ofInt a) (Number.ofInt v))
      (Number.ofInt (10 * a + Int.fdiv v 100 + (if 95 ≤ a then 500 else 0))) = true := by
  obtain ⟨hresD, hres⟩ := jannahPoints_val a v ha hv hs hr
  have hq : |(((10 * a + Int.fdiv v 100 + (if 95 ≤ a then 500 else 0) : Int)) : ℚ)|
      < 2 ^ 1024 := by
    have : |(((10 * a + Int.fdiv v 100 + (if 95 ≤ a then 500 else 0) : Int)) : ℚ)|
        < 2 ^ 53 := by exact_mod_cast hr
    exact lt_trans this two_pow_53_lt
  have hfD := isD_ofInt _ hq
  have hfv := val_ofInt (10 * a + Int.fdiv v 100 + (if 95 ≤ a then 500 else 0))
  unfold Number.eq
  rw [le_of_val _ _ hresD hfD (by rw [hres, hfv]), le_of_val _ _ hfD hresD (by rw [hres, hfv])]
  rfl

theorem ofInt_natCast (n : Nat) : Number.ofInt (n : Int) = Number.ofNat n := by
  unfold Number.ofInt Number.ofNat
  simp

/-- The exact formula on natural numbers, with the value and the well-formedness of the
result. -/
theorem jannahPoints_exact_nat (accuracy abjadValue : Nat) (hv : abjadValue < 2 ^ 53)
    (h : 10 * accuracy + abjadValue / 100 + (if 95 ≤ accuracy then 500 else 0) < 2 ^ 53) :
    Number.eq
      (RecitationAnalyzer.calculateJannahPoints (Number.ofNat accuracy)
        (Number.ofNat abjadValue))
      (Number.ofNat (10 * accuracy + abjadValue / 100 + (if 95 ≤ accuracy then 500 else 0)))
      = true ∧
    (0 < 10 * accuracy + abjadValue / 100 + (if 95 ≤ accuracy then 500 else 0) →
      Number.lt (Number.ofNat 0)
        (RecitationAnalyzer.calculateJannahPoints (Number.ofNat accuracy)
          (Number.ofNat abjadValue))
        = true) := by
  have hfd : Int.fdiv (abjadValue : Int) 100 = ((abjadValue / 100 : Nat) : Int) := by
    rw [Int.fdiv_eq_ediv _ (by norm_num)]; norm_cast
  have hb : (if (95 : Int) ≤ (accuracy : Int) then (500 : Int) else 0)
      = (((if 95 ≤ accuracy then 500 else 0 : Nat)) : Int) := by
    split_ifs <;> first | rfl | omega
  have hform : (10 * (accuracy : Int) + Int.fdiv (abjadValue : Int) 100
      + (if (95 : Int) ≤ (accuracy : Int) then 500 else 0))
      = ((10 * accuracy + abjadValue / 100 + (if 95 ≤ accuracy then 500 else 0) : Nat) : Int) := by
    rw [hfd, hb]; push_cast; ring
  have hb0 : (0 : Int) ≤ (if (95 : Int) ≤ (accuracy : Int) then (500 : Int) else 0) := by
    split_ifs <;> norm_num
  have hlt : (10 * (accuracy : Int) + ((abjadValue / 100 : Nat) : Int)
      + (if (95 : Int) ≤ (accuracy : Int) then 500 else 0)) < 2 ^ 53 := by
    rw [← hfd, hform]; exact_mod_cast h
  have ha1 : |10 * (accuracy : Int)| < 2 ^ 53 := by rw [abs_lt]; constructor <;> omega
  have ha2 : |(abjadValue : Int)| < 2 ^ 53 := by rw [abs_lt]; constructor <;> omega
  have ha3 : |10 * (accuracy : Int) + Int.fdiv (abjadValue : Int) 100| < 2 ^ 53 := by
    rw [hfd, abs_lt]; constructor <;> omega
  have ha4 : |10 * (accuracy : Int) + Int.fdiv (abjadValue : Int) 100
      + (if (95 : Int) ≤ (accuracy : Int) then 500 else 0)| < 2 ^ 53 := by
    rw [hfd, abs_lt]; constructor <;> omega
  have hex := jannahPoints_exact (accuracy : Int) (abjadValue : Int) ha1 ha2 ha3 ha4
  obtain ⟨hD, hval⟩ := jannahPoints_val (accuracy : Int) (abjadValue : Int) ha1 ha2 ha3 ha4
  rw [hform] at hex hval
  rw [Int.cast_natCast] at hval
  rw [ofInt_natCast, ofInt_natCast] at hex hD hval
  rw [ofInt_natCast] at hex
  refine ⟨hex, ?_⟩
  intro hpos
  have h0D : (Number.ofNat 0).IsD := isD_ofNat 0 (by rw [Nat.cast_zero]; exact pow_pos two_pos 1024)
  have hposq : (0 : ℚ) < ((10 * accuracy + abjadValue / 100
      + (if 95 ≤ accuracy then 500 else 0) : Nat) : ℚ) := Nat.cast_pos.mpr hpos
  have hv0 : (Number.ofNat 0).val = 0 := by rw [val_ofNat]; norm_num
  unfold Number.lt
  rw [le_of_val _ _ h0D hD (by rw [hv0, hval]; exact hposq.le),
    le_eq_false_of_val _ _ hD h0D (by rw [hv0, hval]; exact hposq)]
  rfl

theorem jannahPoints_copies :
    TestScript.calculateJannahPoints = RecitationAnalyzer.calculateJannahPoints := rfl

/-! ### The matching loop and the final rounding -/

theorem foldl_count (p : Nat → Prop) [DecidablePred p] (l : List Nat) (acc : Nat) :
    l.foldl (fun c i => if p i then c + 1 else c) acc
      = acc + (l.filter (fun i => decide (p i))).length := by
  induction l generalizing acc with
  | nil => simp
  | cons x xs ih =>
    rw [List.foldl_cons, ih, List.filter_cons]
    by_cases hx : p x <;> simp [hx, Nat.add_assoc, Nat.add_comm]

theorem positionalMatches_le (e a : JSString) : positionalMatches e a ≤ e.length := by
  unfold positionalMatches
  calc _ ≤ (List.range (min e.length a.length)).length := List.length_filter_le _ _
    _ = min e.length a.length := List.length_range _
    _ ≤ e.length := Nat.min_le_left _ _

theorem calculateAccuracy_eq (expected actual : JSString)
    (he : expected ≠ []) (ha : actual ≠ []) :
    RecitationAnalyzer.calculateAccuracy (some expected) (some actual)
      = scoreExpr (positionalMatches (stripWhitespace expected) (stripWhitespace actual))
          (stripWhitespace expected).length := by
  obtain ⟨c, cs, rfl⟩ := List.exists_cons_of_ne_nil he
  obtain ⟨d, ds, rfl⟩ := List.exists_cons_of_ne_nil ha
  unfold RecitationAnalyzer.calculateAccuracy scoreExpr positionalMatches
  simp only [isFalsy, Bool.or_self, Bool.false_eq_true, if_false, Option.getD_some]
  rw [foldl_count, Nat.zero_add]

theorem calculateAccuracy_copies :
    TestScript.calculateAccuracy = RecitationAnalyzer.calculateAccuracy := rfl

theorem round_of_near (N D k : Nat) (hD : 0 < D)
    (hlo : (k : ℚ) - 1 / 2 ≤ (N : ℚ) / D) (hhi : (N : ℚ) / D < (k : ℚ) + 1 / 2) :
    Math.round (.fin N D) = Double.ofNat k := by
  have hDq : (0 : ℚ) < D := by exact_mod_cast hD
  rw [le_div_iff₀ hDq] at hlo
  rw [div_lt_iff₀ hDq] at hhi
  have h1 : (2 * D * k : ℚ) ≤ 2 * N + D := by linarith
  have h2 : (2 * N + D : ℚ) < 2 * D * (k + 1) := by linarith
  have h1n : 2 * D * k ≤ 2 * N + D := by exact_mod_cast h1
  have h2n : 2 * N + D < 2 * D * (k + 1) := by exact_mod_cast h2
  have : (2 * N + D) / (2 * D) = k := by
    apply Nat.le_antisymm
    · rw [← Nat.lt_succ_iff, Nat.div_lt_iff_lt_mul (by omega)]
      calc 2 * N + D < 2 * D * (k + 1) := h2n
        _ = (k + 1) * (2 * D) := by ring
    · rw [Nat.le_div_iff_mul_le (by omega)]
      calc k * (2 * D) = 2 * D * k := by ring
        _ ≤ 2 * N + D := h1n
  simp only [Math.round, Double.ofNat, this]

theorem scoreExpr_eq_roundHalfUp (m n : Nat) (hmn : m ≤ n) (hn : 0 < n) (hn32 : n < 2 ^ 32)
    (htie : ∀ j, 200 * m ≠ (2 * j + 1) * n) :
    scoreExpr m n = Double.ofNat (roundHalfUp (100 * m) n) := by
  obtain ⟨N, D, hval, hD, herr⟩ := percent_error m n hmn hn hn32
  unfold scoreExpr
  rw [hval]
  have hnq : (0 : ℚ) < n := by exact_mod_cast hn
  have hn32q : (n : ℚ) < 2 ^ 32 := by exact_mod_cast hn32
  generalize hk : roundHalfUp (100 * m) n = k
  have hk1 : k * (2 * n) ≤ 2 * (100 * m) + n := by
    rw [← hk]; exact Nat.div_mul_le_self _ _
  have hk2 : 2 * (100 * m) + n < (2 * n) * (k + 1) := by
    rw [← hk]; exact Nat.lt_mul_div_succ _ (by omega)
  -- away from a tie the exact value keeps a distance of `1 / (2 n)` from both halves
  have hk1s : k * (2 * n) + 1 ≤ 2 * (100 * m) + n := by
    rcases Nat.lt_or_ge (k * (2 * n)) (2 * (100 * m) + n) with h | h
    · exact h
    · exfalso
      have heq : k * (2 * n) = 2 * (100 * m) + n := Nat.le_antisymm hk1 h
      have hkpos : 0 < k := by
        rcases Nat.eq_zero_or_pos k with h0 | h0
        · rw [h0] at heq; omega
        · exact h0
      obtain ⟨j, hj⟩ : ∃ j, k = j + 1 := ⟨k - 1, by omega⟩
      apply htie j
      rw [hj] at heq
      have e1 : (j + 1) * (2 * n) = 2 * (j * n) + 2 * n := by ring
      have e2 : (2 * j + 1) * n = 2 * (j * n) + n := by ring
      omega
  have hk1q : (k : ℚ) * (2 * n) + 1 ≤ 2 * (100 * m) + n := by exact_mod_cast hk1s
  have hk2q : (2 * (100 * m) + n : ℚ) + 1 ≤ (2 * n) * (k + 1) := by
    have : 2 * (100 * m) + n + 1 ≤ (2 * n) * (k + 1) := hk2
    exact_mod_cast this
  have hgap : (1 : ℚ) / 2 ^ 45 < 1 / (2 * n) := by
    rw [div_lt_div_iff₀ (by positivity) (by positivity)]
    have : (2 : ℚ) ^ 45 = 2 ^ 33 * 2 ^ 12 := by norm_num
    nlinarith
  have hx_lo : (k : ℚ) - 1 / 2 + 1 / (2 * n) ≤ 100 * (m : ℚ) / n := by
    rw [le_div_iff₀ hnq]
    have : ((k : ℚ) - 1 / 2 + 1 / (2 * n)) * n = (k * (2 * n) + 1 - n) / 2 := by
      field_simp; ring
    rw [this]; linarith
  have hx_hi : 100 * (m : ℚ) / n ≤ (k : ℚ) + 1 / 2 - 1 / (2 * n) := by
    rw [div_le_iff₀ hnq]
    have : ((k : ℚ) + 1 / 2 - 1 / (2 * n)) * n = ((2 * n) * (k + 1) - 1 - n) / 2 := by
      field_simp; ring
    rw [this]; linarith
  rw [abs_le] at herr
  exact round_of_near N D k hD (by linarith [herr.1]) (by linarith [herr.2])

theorem positionalMatches_self (e : JSString) : positionalMatches e e = e.length := by
  unfold positionalMatches
  rw [Nat.min_self, List.filter_eq_self.mpr (by simp), List.length_range]

theorem positionalMatches_congr (e a b : JSString)
    (ha : e.length ≤ a.length) (hb : e.length ≤ b.length)
    (h : ∀ i, i < e.length → a[i]? = b[i]?) :
    positionalMatches e a = positionalMatches e b := by
  unfold positionalMatches
  rw [Nat.min_eq_left ha, Nat.min_eq_left hb]
  congr 1
  apply List.filter_congr
  intro i hi
  rw [List.mem_range] at hi
  rw [h i hi]

theorem round64_self (n : Nat) (hn : 0 < n) :
    Double.round64 (n * 1) (1 * n) = .fin (2 ^ 52) (2 ^ 52) := by
  have hfl : floorLog2 n n = 0 := by
    unfold floorLog2
    simp
  have hM : roundHalfEven (n * 2 ^ 52) n = 2 ^ 52 := by
    unfold roundHalfEven
    have h1 : n * 2 ^ 52 / n = 2 ^ 52 := Nat.mul_div_cancel_left _ hn
    have h2 : n * 2 ^ 52 % n = 0 := Nat.mul_mod_right _ _
    simp only [h1, h2]
    rw [if_pos (by omega)]
  have hl : ilog2 (2 ^ 52) = 52 := by decide
  unfold Double.round64
  rw [Nat.mul_one, Nat.one_mul, if_neg (by omega), hfl]
  have hE : max ((0 : Int) - 52) (-1074) = -52 := by decide
  have hup : (-52 : Int).toNat = 0 := by decide
  have hdown : (-(-52 : Int)).toNat = 52 := by decide
  simp only [hE, hup, hdown, pow_zero, Nat.mul_one, hM, hl]
  rw [if_neg (by decide)]

theorem scoreExpr_self (n : Nat) (hn : 0 < n) : scoreExpr n n = Double.ofNat 100 := by
  unfold scoreExpr
  simp only [Double.ofNat, Double.div, if_neg hn.ne']
  rw [round64_self n hn]
  decide


theorem stripWhitespace_ne_nil_of_mem (s : JSString) (c : Nat) (hc : c ∈ s)
    (hw : isWhiteSpace c = false) : stripWhitespace s ≠ [] := by
  intro h
  have : c ∈ stripWhitespace s := by
    unfold stripWhitespace
    rw [List.mem_filter]
    exact ⟨hc, by simp [hw]⟩
  rw [h] at this
  simp at this

theorem ne_nil_of_stripWhitespace_ne_nil (s : JSString) (h : stripWhitespace s ≠ []) :
    s ≠ [] := by
  rintro rfl
  exact h rfl

theorem stripWhitespace_idem (s : JSString) :
    stripWhitespace (stripWhitespace s) = stripWhitespace s := by
  unfold stripWhitespace
  rw [List.filter_filter]
  simp

theorem stripWhitespace_take (s : JSString) (n : Nat) :
    stripWhitespace ((stripWhitespace s).take n) = (stripWhitespace s).take n := by
  unfold stripWhitespace
  apply List.filter_eq_self.mpr
  intro c hc
  have := List.mem_of_mem_take hc
  rw [List.mem_filter] at this
  exact this.2

/-- Whenever the stripped `expected` is non-empty (and shorter than the array limit
`2^32`), the score is an integer between 0 and 100, whatever `actual` is. -/
theorem calculateAccuracy_range (expected : JSString) (actual : Option JSString)
    (hs : stripWhitespace expected ≠ [])
    (hlen : (stripWhitespace expected).length < 2 ^ 32) :
    ∃ k, k ≤ 100 ∧ RecitationAnalyzer.calculateAccuracy (some expected) actual
      = Double.ofNat k := by
  have he := ne_nil_of_stripWhitespace_ne_nil expected hs
  have hpos : 0 < (stripWhitespace expected).length := List.length_pos.mpr hs
  rcases actual with _ | actual
  · exact ⟨0, by omega, by simp [RecitationAnalyzer.calculateAccuracy, isFalsy]⟩
  rcases List.eq_nil_or_concat actual with rfl | ⟨l, c, hl⟩
  · exact ⟨0, by omega, by simp [RecitationAnalyzer.calculateAccuracy, isFalsy]⟩
  have ha : actual ≠ [] := by rw [hl]; simp
  rw [calculateAccuracy_eq expected actual he ha]
  obtain ⟨N, D, hval, hD, herr⟩ := percent_error _ _
    (positionalMatches_le (stripWhitespace expected) (stripWhitespace actual)) hpos hlen
  unfold scoreExpr
  rw [hval]
  refine ⟨(2 * N + D) / (2 * D), ?_, rfl⟩
  have hDq : (0 : ℚ) < D := by exact_mod_cast hD
  have hnq : (0 : ℚ) < ((stripWhitespace expected).length : ℚ) := by exact_mod_cast hpos
  have hm : ((positionalMatches (stripWhitespace expected) (stripWhitespace actual) : Nat) : ℚ)
      ≤ ((stripWhitespace expected).length : ℚ) := by
    exact_mod_cast positionalMatches_le (stripWhitespace expected) (stripWhitespace actual)
  have hx : 100 * ((positionalMatches (stripWhitespace expected) (stripWhitespace actual)
      : Nat) : ℚ) / ((stripWhitespace expected).length : ℚ) ≤ 100 := by
    rw [div_le_iff₀ hnq]; linarith
  rw [abs_le] at herr
  have hp : (N : ℚ) / D < 100 + 1 / 2 := by
    have : (1 : ℚ) / 2 ^ 45 < 1 / 2 := by norm_num
    linarith [herr.2]
  rw [div_lt_iff₀ hDq] at hp
  have hq : (2 * N + D : ℚ) < 101 * (2 * D) := by linarith
  have hn : 2 * N + D < 101 * (2 * D) := by exact_mod_cast hq
  have := (Nat.div_lt_iff_lt_mul (by omega : 0 < 2 * D)).mpr hn
  omega

/-- C2 (amended): for a non-empty `actual` and an `expected` whose stripped form `e'` is
non-empty (and shorter than the array limit `2^32`), with `m` the number of positions
below both stripped lengths that agree, the score is `100 * m / len(e')` rounded to the
nearest integer, provided that value is not exactly halfway between two integers. -/
theorem calculateAccuracy_eq_roundHalfUp (expected actual : JSString)
    (ha : actual ≠ []) (hs : stripWhitespace expected ≠ [])
    (hlen : (stripWhitespace expected).length < 2 ^ 32)
    (htie : ∀ j, 200 * positionalMatches (stripWhitespace expected) (stripWhitespace actual)
      ≠ (2 * j + 1) * (stripWhitespace expected).length) :
    TestScript.calculateAccuracy (some expected) (some actual)
      = Double.ofNat (roundHalfUp
          (100 * positionalMatches (stripWhitespace expected) (stripWhitespace actual))
          (stripWhitespace expected).length) ∧
    RecitationAnalyzer.calculateAccuracy (some expected) (some actual)
      = Double.ofNat (roundHalfUp
          (100 * positionalMatches (stripWhitespace expected) (stripWhitespace actual))
          (stripWhitespace expected).length) := by
  have hmain : RecitationAnalyzer.calculateAccuracy (some expected) (some actual)
      = Double.ofNat (roundHalfUp
          (100 * positionalMatches (stripWhitespace expected) (stripWhitespace actual))
          (stripWhitespace expected).length) := by
    rw [calculateAccuracy_eq expected actual (ne_nil_of_stripWhitespace_ne_nil _ hs) ha]
    exact scoreExpr_eq_roundHalfUp _ _ (positionalMatches_le _ _)
      (List.length_pos.mpr hs) hlen htie
  exact ⟨by rw [calculateAccuracy_copies]; exact hmain, hmain⟩

/-- The amended C2 at `expected = "a bc"`, `actual = "ax"`: one match out of three. -/
theorem calculateAccuracy_eq_roundHalfUp_witness :
    TestScript.calculateAccuracy (some [0x61, 0x20, 0x62, 0x63]) (some [0x61, 0x78])
      = Double.ofNat (roundHalfUp
          (100 * positionalMatches (stripWhitespace [0x61, 0x20, 0x62, 0x63])
            (stripWhitespace [0x61, 0x78]))
          (stripWhitespace [0x61, 0x20, 0x62, 0x63]).length) ∧
    RecitationAnalyzer.calculateAccuracy (some [0x61, 0x20, 0x62, 0x63]) (some [0x61, 0x78])
      = Double.ofNat (roundHalfUp
          (100 * positionalMatches (stripWhitespace [0x61, 0x20, 0x62, 0x63])
            (stripWhitespace [0x61, 0x78]))
          (stripWhitespace [0x61, 0x20, 0x62, 0x63]).length) :=
  calculateAccuracy_eq_roundHalfUp [0x61, 0x20, 0x62, 0x63] [0x61, 0x78] (by decide)
    (by decide) (by decide)
    (by
      have h1 : positionalMatches (stripWhitespace [0x61, 0x20, 0x62, 0x63])
          (stripWhitespace [0x61, 0x78]) = 1 := by decide
      have h2 : (stripWhitespace [0x61, 0x20, 0x62, 0x63]).length = 3 := by decide
      rw [h1, h2]
      intro j
      omega)

/-- C2 (counterexample): with `expected` forty characters long and `actual` its first
twenty-three characters, every hypothesis of the claim holds and `m = 23`, so the claimed
score is `round(57.5) = 58`; the code returns 57. -/
theorem calculateAccuracy_tie_rounds_down :
    tieExpected ≠ [] ∧ tieActual ≠ [] ∧ stripWhitespace tieExpected ≠ [] ∧
    positionalMatches (stripWhitespace tieExpected) (stripWhitespace tieActual) = 23 ∧
    (stripWhitespace tieExpected).length = 40 ∧
    roundHalfUp (100 * 23) 40 = 58 ∧
    TestScript.calculateAccuracy (some tieExpected) (some tieActual) = Double.ofNat 57 ∧
    RecitationAnalyzer.calculateAccuracy (some tieExpected) (some tieActual)
      = Double.ofNat 57 := by
  decide

/-- C4 (amended): on non-negative integers whose abjad value and whose result stay below
`2^53`, both copies of `calculateJannahPoints` return
`10 * accuracy + floor(abjadValue / 100) + (500 if accuracy >= 95 else 0)`; in particular
`(100, 786)` gives 1507 and `(85, 500)` gives 855. -/
theorem calculateJannahPoints_formula (accuracy abjadValue : Nat)
    (hv : abjadValue < 2 ^ 53)
    (h : 10 * accuracy + abjadValue / 100 + (if 95 ≤ accuracy then 500 else 0) < 2 ^ 53) :
    Number.eq
      (RecitationAnalyzer.calculateJannahPoints (Number.ofNat accuracy)
        (Number.ofNat abjadValue))
      (Number.ofNat (10 * accuracy + abjadValue / 100 + (if 95 ≤ accuracy then 500 else 0)))
      = true ∧
    Number.eq
      (TestScript.calculateJannahPoints (Number.ofNat accuracy) (Number.ofNat abjadValue))
      (Number.ofNat (10 * accuracy + abjadValue / 100 + (if 95 ≤ accuracy then 500 else 0)))
      = true ∧
    Number.eq (RecitationAnalyzer.calculateJannahPoints (Number.ofNat 100) (Number.ofNat 786))
      (Number.ofNat 1507) = true ∧
    Number.eq (RecitationAnalyzer.calculateJannahPoints (Number.ofNat 85) (Number.ofNat 500))
      (Number.ofNat 855) = true ∧
    Number.eq (TestScript.calculateJannahPoints (Number.ofNat 100) (Number.ofNat 786))
      (Number.ofNat 1507) = true ∧
    Number.eq (TestScript.calculateJannahPoints (Number.ofNat 85) (Number.ofNat 500))
      (Number.ofNat 855) = true := by
  have hmain := (jannahPoints_exact_nat accuracy abjadValue hv h).1
  refine ⟨hmain, ?_, by decide, by decide, by decide, by decide⟩
  rw [jannahPoints_copies]
  exact hmain

/-- The amended C4 at `(95, 1000)`: the result is 1460. -/
theorem calculateJannahPoints_formula_witness :
    (1000 : Nat) < 2 ^ 53 ∧
    10 * 95 + 1000 / 100 + (if 95 ≤ 95 then 500 else 0) < 2 ^ 53 ∧
    Number.eq (RecitationAnalyzer.calculateJannahPoints (Number.ofNat 95) (Number.ofNat 1000))
      (Number.ofNat (10 * 95 + 1000 / 100 + (if 95 ≤ 95 then 500 else 0)))
      = true ∧
    Number.eq (TestScript.calculateJannahPoints (Number.ofNat 95) (Number.ofNat 1000))
      (Number.ofNat (10 * 95 + 1000 / 100 + (if 95 ≤ 95 then 500 else 0)))
      = true ∧
    Number.eq (RecitationAnalyzer.calculateJannahPoints (Number.ofNat 100) (Number.ofNat 786))
      (Number.ofNat 1507) = true ∧
    Number.eq (RecitationAnalyzer.calculateJannahPoints (Number.ofNat 85) (Number.ofNat 500))
      (Number.ofNat 855) = true ∧
    Number.eq (TestScript.calculateJannahPoints (Number.ofNat 100) (Number.ofNat 786))
      (Number.ofNat 1507) = true ∧
    Number.eq (TestScript.calculateJannahPoints (Number.ofNat 85) (Number.ofNat 500))
      (Number.ofNat 855) = true :=
  ⟨by decide, by decide, calculateJannahPoints_formula 95 1000 (by decide) (by decide)⟩

/-- C4 (counterexample): for the non-negative integers `accuracy = 900719925474099` and
`abjadValue = 199` the formula gives 9007199254741491, an odd number above `2^53` and
hence no binary64 value; both copies return 9007199254741492. -/
theorem calculateJannahPoints_formula_inexact :
    (10 * 900719925474099 + 199 / 100 + (if 95 ≤ 900719925474099 then 500 else 0) : Nat)
      = 9007199254741491 ∧
    Number.eq (TestScript.calculateJannahPoints (Number.ofNat 900719925474099) (Number.ofNat 199))
      (Number.ofNat 9007199254741492) = true ∧
    Number.eq (TestScript.calculateJannahPoints (Number.ofNat 900719925474099) (Number.ofNat 199))
      (Number.ofNat 9007199254741491) = false ∧
    Number.eq
      (RecitationAnalyzer.calculateJannahPoints (Number.ofNat 900719925474099)
        (Number.ofNat 199))
      (Number.ofNat 9007199254741492) = true ∧
    Number.eq
      (RecitationAnalyzer.calculateJannahPoints (Number.ofNat 900719925474099)
        (Number.ofNat 199))
      (Number.ofNat 9007199254741491) = false := by
  decide

/-- C5 (failing input): for `expected = " "` and `actual = "a"` both copies of
`calculateAccuracy` return `NaN`, not an integer between 0 and 100. -/
theorem calculateAccuracy_blank_expected_nan :
    TestScript.calculateAccuracy (some [0x20]) (some [0x61]) = Double.nan ∧
    RecitationAnalyzer.calculateAccuracy (some [0x20]) (some [0x61]) = Double.nan ∧
    ∀ k : Nat, Double.nan ≠ Double.ofNat k := by
  refine ⟨by decide, by decide, ?_⟩
  intro k h
  simp [Double.ofNat] at h

/-- C6 (failing input): `expected = " "` and `actual = "a"` pass the guard `!expected ||
!actual`, yet the divisor `expectedChars.length` is 0 and the quotient `0 / 0` is `NaN`. -/
theorem calculateAccuracy_divisor_zero :
    (isFalsy (some [0x20]) || isFalsy (some [0x61])) = false ∧
    (stripWhitespace [0x20]).length = 0 ∧
    Double.div
      (Double.ofNat (positionalMatches (stripWhitespace [0x20]) (stripWhitespace [0x61])))
      (Double.ofNat (stripWhitespace [0x20]).length) = Double.nan := by
  decide

/-- C7: in both copies, `calculateAccuracy` returns 0 whenever one of its two arguments
is the empty string or absent, whatever the other argument is. -/
theorem calculateAccuracy_empty (x : Option JSString) :
    (TestScript.calculateAccuracy (some []) x = Double.ofNat 0 ∧
      TestScript.calculateAccuracy x (some []) = Double.ofNat 0 ∧
      TestScript.calculateAccuracy none x = Double.ofNat 0 ∧
      TestScript.calculateAccuracy x none = Double.ofNat 0) ∧
    (RecitationAnalyzer.calculateAccuracy (some []) x = Double.ofNat 0 ∧
      RecitationAnalyzer.calculateAccuracy x (some []) = Double.ofNat 0 ∧
      RecitationAnalyzer.calculateAccuracy none x = Double.ofNat 0 ∧
      RecitationAnalyzer.calculateAccuracy x none = Double.ofNat 0) := by
  constructor <;>
    simp [TestScript.calculateAccuracy, RecitationAnalyzer.calculateAccuracy, isFalsy]

/-- C8: for every `expected` that contains at least one non-whitespace character,
`calculateAccuracy(expected, expected)` is 100, in both copies. -/
theorem calculateAccuracy_self (expected : JSString)
    (h : ∃ c ∈ expected, isWhiteSpace c = false) :
    TestScript.calculateAccuracy (some expected) (some expected) = Double.ofNat 100 ∧
    RecitationAnalyzer.calculateAccuracy (some expected) (some expected)
      = Double.ofNat 100 := by
  obtain ⟨c, hc, hw⟩ := h
  have hs := stripWhitespace_ne_nil_of_mem expected c hc hw
  have hne := ne_nil_of_stripWhitespace_ne_nil expected hs
  have hmain : RecitationAnalyzer.calculateAccuracy (some expected) (some expected)
      = Double.ofNat 100 := by
    rw [calculateAccuracy_eq expected expected hne hne, positionalMatches_self]
    exact scoreExpr_self _ (List.length_pos.mpr hs)
  exact ⟨by rw [calculateAccuracy_copies]; exact hmain, hmain⟩

/-- C8 at the text `" " + ba + sin + mim`. -/
theorem calculateAccuracy_self_witness :
    (∃ c ∈ [0x20, 0x0628, 0x0633, 0x0645], isWhiteSpace c = false) ∧
    TestScript.calculateAccuracy (some [0x20, 0x0628, 0x0633, 0x0645])
      (some [0x20, 0x0628, 0x0633, 0x0645]) = Double.ofNat 100 ∧
    RecitationAnalyzer.calculateAccuracy (some [0x20, 0x0628, 0x0633, 0x0645])
      (some [0x20, 0x0628, 0x0633, 0x0645]) = Double.ofNat 100 :=
  ⟨by decide, calculateAccuracy_self [0x20, 0x0628, 0x0633, 0x0645] (by decide)⟩

/-! ### Excess characters and asymmetry -/

theorem stripWhitespace_append (s t : JSString) :
    stripWhitespace (s ++ t) = stripWhitespace s ++ stripWhitespace t := by
  unfold stripWhitespace
  exact List.filter_append _ _

theorem positionalMatches_append (e a x : JSString) (h : e.length ≤ a.length) :
    positionalMatches e (a ++ x) = positionalMatches e a := by
  apply positionalMatches_congr
  · rw [List.length_append]; omega
  · exact h
  · intro i hi
    exact List.getElem?_append_left (by omega)

theorem positionalMatches_take (e a : JSString) (h : e.length ≤ a.length) :
    positionalMatches e a = positionalMatches e (a.take e.length) := by
  apply positionalMatches_congr
  · exact h
  · rw [List.length_take]; omega
  · intro i hi
    rw [List.getElem?_take_of_lt hi]

theorem calculateAccuracy_append (expected actual extra : JSString)
    (hs : stripWhitespace expected ≠ [])
    (hlen : (stripWhitespace expected).length ≤ (stripWhitespace actual).length) :
    RecitationAnalyzer.calculateAccuracy (some expected) (some (actual ++ extra))
      = RecitationAnalyzer.calculateAccuracy (some expected) (some actual) := by
  have he := ne_nil_of_stripWhitespace_ne_nil expected hs
  have hpos : 0 < (stripWhitespace expected).length := List.length_pos.mpr hs
  have ha : actual ≠ [] := by
    rintro rfl
    have h0 : (stripWhitespace ([] : JSString)).length = 0 := rfl
    omega
  have hax : actual ++ extra ≠ [] := by simp [ha]
  rw [calculateAccuracy_eq expected _ he hax, calculateAccuracy_eq expected _ he ha,
    stripWhitespace_append, positionalMatches_append _ _ _ hlen]

/-- C9: when the stripped `expected` is non-empty and the stripped `actual` is at least as
long, the score equals the score against the first `len(e')` characters of the stripped
`actual`, and appending any text to `actual` (in particular to `expected` itself, the
"Extra Words" scenario) leaves the score unchanged. -/
theorem calculateAccuracy_ignores_excess (expected actual : JSString)
    (hs : stripWhitespace expected ≠ [])
    (hlen : (stripWhitespace expected).length ≤ (stripWhitespace actual).length) :
    (TestScript.calculateAccuracy (some expected) (some actual)
        = TestScript.calculateAccuracy (some expected)
            (some ((stripWhitespace actual).take (stripWhitespace expected).length)) ∧
      RecitationAnalyzer.calculateAccuracy (some expected) (some actual)
        = RecitationAnalyzer.calculateAccuracy (some expected)
            (some ((stripWhitespace actual).take (stripWhitespace expected).length))) ∧
    (∀ extra : JSString,
      TestScript.calculateAccuracy (some expected) (some (actual ++ extra))
        = TestScript.calculateAccuracy (some expected) (some actual) ∧
      RecitationAnalyzer.calculateAccuracy (some expected) (some (actual ++ extra))
        = RecitationAnalyzer.calculateAccuracy (some expected) (some actual)) ∧
    (∀ extra : JSString,
      TestScript.calculateAccuracy (some expected) (some (expected ++ extra))
        = TestScript.calculateAccuracy (some expected) (some expected) ∧
      RecitationAnalyzer.calculateAccuracy (some expected) (some (expected ++ extra))
        = RecitationAnalyzer.calculateAccuracy (some expected) (some expected)) := by
  have he := ne_nil_of_stripWhitespace_ne_nil expected hs
  have hpos : 0 < (stripWhitespace expected).length := List.length_pos.mpr hs
  have ha : actual ≠ [] := by
    rintro rfl
    have h0 : (stripWhitespace ([] : JSString)).length = 0 := rfl
    omega
  have htake : (stripWhitespace actual).take (stripWhitespace expected).length ≠ [] := by
    intro h
    have := congrArg List.length h
    rw [List.length_take, List.length_nil] at this
    omega
  have h1 : RecitationAnalyzer.calculateAccuracy (some expected) (some actual)
      = RecitationAnalyzer.calculateAccuracy (some expected)
          (some ((stripWhitespace actual).take (stripWhitespace expected).length)) := by
    rw [calculateAccuracy_eq expected actual he ha, calculateAccuracy_eq expected _ he htake,
      stripWhitespace_take, ← positionalMatches_take _ _ hlen]
  have h2 : ∀ extra : JSString,
      RecitationAnalyzer.calculateAccuracy (some expected) (some (actual ++ extra))
        = RecitationAnalyzer.calculateAccuracy (some expected) (some actual) :=
    fun extra => calculateAccuracy_append expected actual extra hs hlen
  have h3 : ∀ extra : JSString,
      RecitationAnalyzer.calculateAccuracy (some expected) (some (expected ++ extra))
        = RecitationAnalyzer.calculateAccuracy (some expected) (some expected) :=
    fun extra => calculateAccuracy_append expected expected extra hs (Nat.le_refl _)
  refine ⟨⟨?_, h1⟩, fun extra => ⟨?_, h2 extra⟩, fun extra => ⟨?_, h3 extra⟩⟩
  · rw [calculateAccuracy_copies]; exact h1
  · rw [calculateAccuracy_copies]; exact h2 extra
  · rw [calculateAccuracy_copies]; exact h3 extra

/-- C9 at `expected = "ab"`, `actual = "a xyz"`. -/
theorem calculateAccuracy_ignores_excess_witness :
    (TestScript.calculateAccuracy (some [0x61, 0x62]) (some [0x61, 0x20, 0x78, 0x79, 0x7A])
        = TestScript.calculateAccuracy (some [0x61, 0x62])
            (some ((stripWhitespace [0x61, 0x20, 0x78, 0x79, 0x7A]).take
              (stripWhitespace [0x61, 0x62]).length)) ∧
      RecitationAnalyzer.calculateAccuracy (some [0x61, 0x62])
          (some [0x61, 0x20, 0x78, 0x79, 0x7A])
        = RecitationAnalyzer.calculateAccuracy (some [0x61, 0x62])
            (some ((stripWhitespace [0x61, 0x20, 0x78, 0x79, 0x7A]).take
              (stripWhitespace [0x61, 0x62]).length))) ∧
    (∀ extra : JSString,
      TestScript.calculateAccuracy (some [0x61, 0x62])
          (some ([0x61, 0x20, 0x78, 0x79, 0x7A] ++ extra))
        = TestScript.calculateAccuracy (some [0x61, 0x62])
            (some [0x61, 0x20, 0x78, 0x79, 0x7A]) ∧
      RecitationAnalyzer.calculateAccuracy (some [0x61, 0x62])
          (some ([0x61, 0x20, 0x78, 0x79, 0x7A] ++ extra))
        = RecitationAnalyzer.calculateAccuracy (some [0x61, 0x62])
            (some [0x61, 0x20, 0x78, 0x79, 0x7A])) ∧
    (∀ extra : JSString,
      TestScript.calculateAccuracy (some [0x61, 0x62]) (some ([0x61, 0x62] ++ extra))
        = TestScript.calculateAccuracy (some [0x61, 0x62]) (some [0x61, 0x62]) ∧
      RecitationAnalyzer.calculateAccuracy (some [0x61, 0x62]) (some ([0x61, 0x62] ++ extra))
        = RecitationAnalyzer.calculateAccuracy (some [0x61, 0x62]) (some [0x61, 0x62])) :=
  calculateAccuracy_ignores_excess [0x61, 0x62] [0x61, 0x20, 0x78, 0x79, 0x7A]
    (by decide) (by decide)

/-- C10: `calculateAccuracy` is not symmetric: `expected = "ab"`, `actual = "abcd"` scores
100, while the swapped call scores 50. -/
theorem calculateAccuracy_not_symmetric :
    (∃ expected actual : JSString, expected.length < actual.length ∧
      RecitationAnalyzer.calculateAccuracy (some expected) (some actual)
        ≠ RecitationAnalyzer.calculateAccuracy (some actual) (some expected)) ∧
    RecitationAnalyzer.calculateAccuracy (some [0x61, 0x62]) (some [0x61, 0x62, 0x63, 0x64])
      = Double.ofNat 100 ∧
    RecitationAnalyzer.calculateAccuracy (some [0x61, 0x62, 0x63, 0x64]) (some [0x61, 0x62])
      = Double.ofNat 50 := by
  refine ⟨⟨[0x61, 0x62], [0x61, 0x62, 0x63, 0x64], by decide, by decide⟩, by decide, by decide⟩

/-! ### The rule-pattern detector -/

theorem searchFrom_class (cls : List Nat) (text : JSString) :
    searchFrom [cls] text = true ↔ containsAnyOf cls text := by
  unfold containsAnyOf
  induction text with
  | nil => simp [searchFrom, matchesAt]
  | cons c cs ih =>
    simp only [searchFrom, matchesAt, Bool.and_true, Bool.or_eq_true, ih, List.mem_cons,
      List.contains_iff_exists_mem_beq, beq_iff_eq, exists_eq_right', exists_eq_or_imp]

theorem searchFrom_pair_aux (f : Nat) (cls : List Nat) (text : JSString) :
    searchFrom [[f], cls] text = true ↔
      ∃ i, text[i]? = some f ∧ ∃ c ∈ cls, text[i + 1]? = some c := by
  induction text with
  | nil => simp [searchFrom, matchesAt]
  | cons c cs ih =>
    simp only [searchFrom, Bool.or_eq_true, ih]
    constructor
    · rintro (h | ⟨i, hi⟩)
      · refine ⟨0, ?_⟩
        cases cs with
        | nil => simp [matchesAt] at h
        | cons d ds =>
          simp only [matchesAt, Bool.and_true, Bool.and_eq_true, List.contains_iff_exists_mem_beq, beq_iff_eq, exists_eq_right',
            List.mem_singleton] at h
          simp [h.1, h.2]
      · exact ⟨i + 1, by simpa using hi⟩
    · rintro ⟨i, hi1, d, hd, hi2⟩
      cases i with
      | zero =>
        left
        cases cs with
        | nil => simp at hi2
        | cons e es =>
          simp only [List.getElem?_cons_zero, Option.some.injEq, zero_add,
            List.getElem?_cons_succ] at hi1 hi2
          subst hi1 hi2
          simp [matchesAt, hd]
      | succ j =>
        right
        exact ⟨j, by simpa using hi1, d, hd, by simpa using hi2⟩

theorem searchFrom_pair (f : Nat) (cls : List Nat) (text : JSString) :
    searchFrom [[f], cls] text = true ↔ containsFollowedBy f cls text := by
  rw [searchFrom_pair_aux]
  unfold containsFollowedBy
  constructor
  · rintro ⟨i, h1, h2⟩
    refine ⟨i, ?_, h1, h2⟩
    by_contra hc
    rw [List.getElem?_eq_none (by omega)] at h1
    simp at h1
  · rintro ⟨i, _, h1, h2⟩
    exact ⟨i, h1, h2⟩

/-- C3: `analyzeTajweed(actual, expected)` is the rule table Madd, Ghunnah, Qalqalah,
Idgham, in this order, reduced to the rules whose pattern occurs somewhere in `expected`
and nowhere in `actual`, each with its fixed description and severity `medium`. -/
theorem analyzeTajweed_eq (actual expected : JSString) :
    RecitationAnalyzer.analyzeTajweed actual expected =
      (if containsAnyOf [alif, waw, ya] expected ∧ ¬ containsAnyOf [alif, waw, ya] actual
        then [⟨"Madd", "Elongation rules", "medium"⟩] else []) ++
      (if containsAnyOf [mim, nun] expected ∧ ¬ containsAnyOf [mim, nun] actual
        then [⟨"Ghunnah", "Nasal sound rules", "medium"⟩] else []) ++
      (if containsAnyOf [qaf, tta, ba, jim, dal] expected ∧
          ¬ containsAnyOf [qaf, tta, ba, jim, dal] actual
        then [⟨"Qalqalah", "Echoing rules", "medium"⟩] else []) ++
      (if containsFollowedBy nun [mim, lam, nun, ra, ya, waw] expected ∧
          ¬ containsFollowedBy nun [mim, lam, nun, ra, ya, waw] actual
        then [⟨"Idgham", "Merging rules", "medium"⟩] else []) := by
  have hb : ∀ (x y : Bool) (P Q : Prop), (x = true ↔ P) → (y = true ↔ Q) →
      ((x && !y) = true ↔ P ∧ ¬ Q) := by
    intro x y P Q hx hy
    rw [Bool.and_eq_true, Bool.not_eq_true', ← Bool.not_eq_true, hx, hy]
  have h1 := hb _ _ _ _ (searchFrom_class [0x0627, 0x0648, 0x064A] expected)
    (searchFrom_class [0x0627, 0x0648, 0x064A] actual)
  have h2 := hb _ _ _ _ (searchFrom_class [0x0645, 0x0646] expected)
    (searchFrom_class [0x0645, 0x0646] actual)
  have h3 := hb _ _ _ _ (searchFrom_class [0x0642, 0x0637, 0x0628, 0x062C, 0x062F] expected)
    (searchFrom_class [0x0642, 0x0637, 0x0628, 0x062C, 0x062F] actual)
  have h4 := hb _ _ _ _
    (searchFrom_pair 0x0646 [0x0645, 0x0644, 0x0646, 0x0631, 0x064A, 0x0648] expected)
    (searchFrom_pair 0x0646 [0x0645, 0x0644, 0x0646, 0x0631, 0x064A, 0x0648] actual)
  unfold RecitationAnalyzer.analyzeTajweed RecitationAnalyzer.tajweedRules
  simp only [List.foldl_cons, List.foldl_nil, RegExp.test, h1, h2, h3, h4,
    alif, waw, ya, mim, nun, qaf, tta, ba, jim, dal, lam, ra]
  split_ifs <;> rfl

/-! ### Dependence on the stripped texts only, and the shifted text -/

/-- C11: for non-empty texts, `calculateAccuracy` depends only on the whitespace-stripped
forms: if `e1`, `e2` agree after stripping and `a1`, `a2` agree after stripping, the two
scores are equal (in both copies). -/
theorem calculateAccuracy_stripped_only (e1 e2 a1 a2 : JSString)
    (he1 : e1 ≠ []) (he2 : e2 ≠ []) (ha1 : a1 ≠ []) (ha2 : a2 ≠ [])
    (he : stripWhitespace e1 = stripWhitespace e2)
    (ha : stripWhitespace a1 = stripWhitespace a2) :
    TestScript.calculateAccuracy (some e1) (some a1)
      = TestScript.calculateAccuracy (some e2) (some a2) ∧
    RecitationAnalyzer.calculateAccuracy (some e1) (some a1)
      = RecitationAnalyzer.calculateAccuracy (some e2) (some a2) := by
  have hmain : RecitationAnalyzer.calculateAccuracy (some e1) (some a1)
      = RecitationAnalyzer.calculateAccuracy (some e2) (some a2) := by
    rw [calculateAccuracy_eq e1 a1 he1 ha1, calculateAccuracy_eq e2 a2 he2 ha2, he, ha]
  exact ⟨by rw [calculateAccuracy_copies]; exact hmain, hmain⟩

/-- C11 at `e1 = "a b"`, `e2 = "ab "`, `a1 = " ax"`, `a2 = "a x"`. -/
theorem calculateAccuracy_stripped_only_witness :
    TestScript.calculateAccuracy (some [0x61, 0x20, 0x62]) (some [0x20, 0x61, 0x78])
      = TestScript.calculateAccuracy (some [0x61, 0x62, 0x20]) (some [0x61, 0x20, 0x78]) ∧
    RecitationAnalyzer.calculateAccuracy (some [0x61, 0x20, 0x62]) (some [0x20, 0x61, 0x78])
      = RecitationAnalyzer.calculateAccuracy (some [0x61, 0x62, 0x20])
          (some [0x61, 0x20, 0x78]) :=
  calculateAccuracy_stripped_only [0x61, 0x20, 0x62] [0x61, 0x62, 0x20] [0x20, 0x61, 0x78]
    [0x61, 0x20, 0x78] (by decide) (by decide) (by decide) (by decide) (by decide) (by decide)

theorem stripWhitespace_eq_self (s : JSString) (h : ∀ x ∈ s, isWhiteSpace x = false) :
    stripWhitespace s = s := by
  unfold stripWhitespace
  apply List.filter_eq_self.mpr
  intro x hx
  simp [h x hx]

theorem shifted_ne (e : JSString) : ∀ (c : Nat), e.head? ≠ some c →
    List.Chain' (fun x y => x ≠ y) e → ∀ i, i < e.length → e[i]? ≠ (c :: e)[i]? := by
  induction e with
  | nil => intro c _ _ i hi; simp at hi
  | cons x xs ih =>
    intro c hc hadj i hi
    cases i with
    | zero =>
      simp only [List.getElem?_cons_zero, ne_eq, Option.some.injEq]
      intro hx
      exact hc (by simp [hx])
    | succ j =>
      simp only [List.getElem?_cons_succ]
      have hj : j < xs.length := by simpa using hi
      apply ih x _ (List.Chain'.tail hadj) j hj
      cases xs with
      | nil => simp
      | cons y ys =>
        simp only [List.head?_cons, ne_eq, Option.some.injEq]
        intro hy
        exact (List.chain'_cons.mp hadj).1 hy.symm

theorem positionalMatches_shifted (e : JSString) (c : Nat) (hc : e.head? ≠ some c)
    (hadj : List.Chain' (fun x y => x ≠ y) e) : positionalMatches e (c :: e) = 0 := by
  unfold positionalMatches
  rw [List.length_eq_zero, List.filter_eq_nil_iff]
  intro i hi
  rw [List.mem_range] at hi
  have hi' : i < e.length := lt_of_lt_of_le hi (Nat.min_le_left _ _)
  simpa using shifted_ne e c hc hadj i hi'

theorem scoreExpr_zero (n : Nat) (hn : 0 < n) : scoreExpr 0 n = Double.ofNat 0 := by
  unfold scoreExpr
  simp [Double.ofNat, Double.div, Double.mul, Double.round64, Math.round, hn.ne']

/-- C12: for a non-empty whitespace-free `expected` without two equal adjacent characters
and a non-whitespace character `c` different from its first character, the score of
`c + expected` against `expected` is 0 (in both copies). -/
theorem calculateAccuracy_front_insertion (expected : JSString) (c : Nat)
    (hne : expected ≠ []) (hws : ∀ x ∈ expected, isWhiteSpace x = false)
    (hadj : List.Chain' (fun x y => x ≠ y) expected)
    (hc : isWhiteSpace c = false) (hfirst : expected.head? ≠ some c) :
    TestScript.calculateAccuracy (some expected) (some (c :: expected)) = Double.ofNat 0 ∧
    RecitationAnalyzer.calculateAccuracy (some expected) (some (c :: expected))
      = Double.ofNat 0 := by
  have hse : stripWhitespace expected = expected := stripWhitespace_eq_self expected hws
  have hsa : stripWhitespace (c :: expected) = c :: expected := by
    apply stripWhitespace_eq_self
    intro x hx
    rcases List.mem_cons.mp hx with rfl | hx
    · exact hc
    · exact hws x hx
  have hmain : RecitationAnalyzer.calculateAccuracy (some expected) (some (c :: expected))
      = Double.ofNat 0 := by
    rw [calculateAccuracy_eq expected (c :: expected) hne (by simp), hse, hsa,
      positionalMatches_shifted expected c hfirst hadj]
    exact scoreExpr_zero _ (List.length_pos.mpr hne)
  exact ⟨by rw [calculateAccuracy_copies]; exact hmain, hmain⟩

/-- C12 at `expected = "abc"`, `c = "x"`. -/
theorem calculateAccuracy_front_insertion_witness :
    TestScript.calculateAccuracy (some [0x61, 0x62, 0x63]) (some (0x78 :: [0x61, 0x62, 0x63]))
      = Double.ofNat 0 ∧
    RecitationAnalyzer.calculateAccuracy (some [0x61, 0x62, 0x63])
      (some (0x78 :: [0x61, 0x62, 0x63])) = Double.ofNat 0 :=
  calculateAccuracy_front_insertion [0x61, 0x62, 0x63] 0x78 (by decide) (by decide)
    (by simp) (by decide) (by decide)

/-! ### The detector on equal texts and on a missing qalqalah letter -/

theorem analyzeTajweed_split (actual expected : JSString) :
    RecitationAnalyzer.analyzeTajweed actual expected =
      (if (searchFrom [[0x0627, 0x0648, 0x064A]] expected
            && !searchFrom [[0x0627, 0x0648, 0x064A]] actual) = true
        then [⟨"Madd", "Elongation rules", "medium"⟩] else []) ++
      (if (searchFrom [[0x0645, 0x0646]] expected
            && !searchFrom [[0x0645, 0x0646]] actual) = true
        then [⟨"Ghunnah", "Nasal sound rules", "medium"⟩] else []) ++
      (if (searchFrom [[0x0642, 0x0637, 0x0628, 0x062C, 0x062F]] expected
            && !searchFrom [[0x0642, 0x0637, 0x0628, 0x062C, 0x062F]] actual) = true
        then [⟨"Qalqalah", "Echoing rules", "medium"⟩] else []) ++
      (if (searchFrom [[0x0646], [0x0645, 0x0644, 0x0646, 0x0631, 0x064A, 0x0648]] expected
            && !searchFrom [[0x0646], [0x0645, 0x0644, 0x0646, 0x0631, 0x064A, 0x0648]] actual)
            = true
        then [⟨"Idgham", "Merging rules", "medium"⟩] else []) := by
  unfold RecitationAnalyzer.analyzeTajweed RecitationAnalyzer.tajweedRules
  simp only [List.foldl_cons, List.foldl_nil, RegExp.test]
  split_ifs <;> rfl

/-- C13: for every text `x`, `analyzeTajweed(x, x)` is the empty list. -/
theorem analyzeTajweed_same (x : JSString) : RecitationAnalyzer.analyzeTajweed x x = [] := by
  rw [analyzeTajweed_split]
  simp only [Bool.and_not_self, Bool.false_eq_true, if_false, List.append_nil]

/-- C14: when `expected` contains one of qaf, tta, ba, jim, dal and `actual` none of them,
the result holds exactly one observation named `Qalqalah`; when `expected` matches no
other rule pattern the result is that single observation, as for `expected = qaf lam`,
`actual = kaf lam`. -/
theorem analyzeTajweed_qalqalah (actual expected : JSString)
    (he : containsAnyOf [qaf, tta, ba, jim, dal] expected)
    (ha : ¬ containsAnyOf [qaf, tta, ba, jim, dal] actual) :
    (RecitationAnalyzer.analyzeTajweed actual expected).filter
        (fun o => decide (o.rule = "Qalqalah"))
      = [⟨"Qalqalah", "Echoing rules", "medium"⟩] ∧
    ((¬ containsAnyOf [alif, waw, ya] expected ∧ ¬ containsAnyOf [mim, nun] expected ∧
        ¬ containsFollowedBy nun [mim, lam, nun, ra, ya, waw] expected) →
      RecitationAnalyzer.analyzeTajweed actual expected
        = [⟨"Qalqalah", "Echoing rules", "medium"⟩]) ∧
    RecitationAnalyzer.analyzeTajweed [kaf, lam] [qaf, lam]
      = [⟨"Qalqalah", "Echoing rules", "medium"⟩] := by
  have hq : (searchFrom [[0x0642, 0x0637, 0x0628, 0x062C, 0x062F]] expected
      && !searchFrom [[0x0642, 0x0637, 0x0628, 0x062C, 0x062F]] actual) = true := by
    have h1 := (searchFrom_class [0x0642, 0x0637, 0x0628, 0x062C, 0x062F] expected).mpr he
    have h2 : searchFrom [[0x0642, 0x0637, 0x0628, 0x062C, 0x062F]] actual = false := by
      rw [← Bool.not_eq_true]
      exact fun h =>
        ha ((searchFrom_class [0x0642, 0x0637, 0x0628, 0x062C, 0x062F] actual).mp h)
    rw [h1, h2]
    rfl
  refine ⟨?_, ?_, by decide⟩
  · rw [analyzeTajweed_split, if_pos hq]
    simp only [List.filter_append]
    split_ifs <;> decide
  · rintro ⟨hm, hg, hi⟩
    have h1 : searchFrom [[0x0627, 0x0648, 0x064A]] expected = false := by
      rw [← Bool.not_eq_true]
      exact fun h => hm ((searchFrom_class [0x0627, 0x0648, 0x064A] expected).mp h)
    have h2 : searchFrom [[0x0645, 0x0646]] expected = false := by
      rw [← Bool.not_eq_true]
      exact fun h => hg ((searchFrom_class [0x0645, 0x0646] expected).mp h)
    have h3 : searchFrom [[0x0646], [0x0645, 0x0644, 0x0646, 0x0631, 0x064A, 0x0648]] expected
        = false := by
      rw [← Bool.not_eq_true]
      exact fun h =>
        hi ((searchFrom_pair 0x0646 [0x0645, 0x0644, 0x0646, 0x0631, 0x064A, 0x0648]
          expected).mp h)
    rw [analyzeTajweed_split, if_pos hq, h1, h2, h3]
    rfl

/-- C14 at `expected = ba alif`, `actual = alif`. -/
theorem analyzeTajweed_qalqalah_witness :
    (RecitationAnalyzer.analyzeTajweed [alif] [ba, alif]).filter
        (fun o => decide (o.rule = "Qalqalah"))
      = [⟨"Qalqalah", "Echoing rules", "medium"⟩] ∧
    ((¬ containsAnyOf [alif, waw, ya] [ba, alif] ∧ ¬ containsAnyOf [mim, nun] [ba, alif] ∧
        ¬ containsFollowedBy nun [mim, lam, nun, ra, ya, waw] [ba, alif]) →
      RecitationAnalyzer.analyzeTajweed [alif] [ba, alif]
        = [⟨"Qalqalah", "Echoing rules", "medium"⟩]) ∧
    RecitationAnalyzer.analyzeTajweed [kaf, lam] [qaf, lam]
      = [⟨"Qalqalah", "Echoing rules", "medium"⟩] :=
  analyzeTajweed_qalqalah [alif] [ba, alif] (by decide) (by decide)

/-! ### Points on negative and on non-negative arguments -/

theorem fdiv_hundred_eq_floor (v : Int) : Int.fdiv v 100 = ⌊(v : ℚ) / 100⌋ := by
  rw [Int.fdiv_eq_ediv v (by norm_num)]
  have h := Rat.floor_intCast_div_natCast v 100
  simp only [Nat.cast_ofNat] at h
  rw [h]

/-- C15 (amended): no call of `calculateJannahPoints` ends with an error, whatever the
arguments; whenever `accuracy` or `abjadValue` is a negative integer, with
`|accuracy| <= 2^49` and `|abjadValue| < 2^53`, both copies complete normally and return
the number `10 * accuracy + floor(abjadValue / 100) + (500 if accuracy >= 95, else 0)`. -/
theorem calculateJannahPoints_negative (accuracy abjadValue : Int)
    (_h : accuracy < 0 ∨ abjadValue < 0)
    (ha : |accuracy| ≤ 2 ^ 49) (hv : |abjadValue| < 2 ^ 53) :
    (∀ x y : Number,
      (∃ r, TestScript.calculateJannahPointsCall x y = .ok r) ∧
      (∃ r, RecitationAnalyzer.calculateJannahPointsCall x y = .ok r)) ∧
    (∃ r, TestScript.calculateJannahPointsCall (Number.ofInt accuracy) (Number.ofInt abjadValue)
        = .ok r ∧
      Number.eq r (Number.ofInt
        (10 * accuracy + ⌊(abjadValue : ℚ) / 100⌋ + (if 95 ≤ accuracy then 500 else 0)))
        = true) ∧
    (∃ r, RecitationAnalyzer.calculateJannahPointsCall (Number.ofInt accuracy)
        (Number.ofInt abjadValue) = .ok r ∧
      Number.eq r (Number.ofInt
        (10 * accuracy + ⌊(abjadValue : ℚ) / 100⌋ + (if 95 ≤ accuracy then 500 else 0)))
        = true) := by
  have hfd : Int.fdiv abjadValue 100 = abjadValue / 100 := Int.fdiv_eq_ediv _ (by norm_num)
  have ha2 := abs_le.mp ha
  have hv2 := abs_lt.mp hv
  have hmain := jannahPoints_exact accuracy abjadValue
    (by rw [abs_lt]; constructor <;> omega) hv
    (by rw [hfd, abs_lt]; constructor <;> omega)
    (by rw [hfd, abs_lt]; constructor <;> split_ifs <;> omega)
  rw [fdiv_hundred_eq_floor] at hmain
  refine ⟨fun x y => ⟨⟨_, rfl⟩, ⟨_, rfl⟩⟩, ⟨_, rfl, ?_⟩, ⟨_, rfl, hmain⟩⟩
  rw [jannahPoints_copies]
  exact hmain

/-- The amended C15 at `(-1, 0)`. -/
theorem calculateJannahPoints_negative_witness :
    ((-1 : Int) < 0 ∨ (0 : Int) < 0) ∧ |(-1 : Int)| ≤ 2 ^ 49 ∧ |(0 : Int)| < 2 ^ 53 ∧
    (∀ x y : Number,
      (∃ r, TestScript.calculateJannahPointsCall x y = .ok r) ∧
      (∃ r, RecitationAnalyzer.calculateJannahPointsCall x y = .ok r)) ∧
    (∃ r, TestScript.calculateJannahPointsCall (Number.ofInt (-1)) (Number.ofInt 0) = .ok r ∧
      Number.eq r (Number.ofInt
        (10 * (-1) + ⌊((0 : Int) : ℚ) / 100⌋ + (if (95 : Int) ≤ -1 then 500 else 0)))
        = true) ∧
    (∃ r, RecitationAnalyzer.calculateJannahPointsCall (Number.ofInt (-1)) (Number.ofInt 0)
        = .ok r ∧
      Number.eq r (Number.ofInt
        (10 * (-1) + ⌊((0 : Int) : ℚ) / 100⌋ + (if (95 : Int) ≤ -1 then 500 else 0)))
        = true) :=
  ⟨Or.inl (by decide), by decide, by decide,
    calculateJannahPoints_negative (-1) 0 (Or.inl (by decide)) (by decide) (by decide)⟩

/-- C15 (counterexample): on `(-1, 0)` both copies return the number `-10`; the call does
not end with an `InvalidArgument` error. -/
theorem calculateJannahPoints_negative_no_error :
    (∃ r, TestScript.calculateJannahPointsCall (Number.ofInt (-1)) (Number.ofInt 0) = .ok r ∧
      Number.eq r (Number.ofInt (-10)) = true) ∧
    (∃ r, RecitationAnalyzer.calculateJannahPointsCall (Number.ofInt (-1)) (Number.ofInt 0)
        = .ok r ∧
      Number.eq r (Number.ofInt (-10)) = true) ∧
    TestScript.calculateJannahPointsCall (Number.ofInt (-1)) (Number.ofInt 0)
      ≠ .error JSError.invalidArgument ∧
    RecitationAnalyzer.calculateJannahPointsCall (Number.ofInt (-1)) (Number.ofInt 0)
      ≠ .error JSError.invalidArgument := by
  refine ⟨⟨_, rfl, by decide⟩, ⟨_, rfl, by decide⟩, ?_, ?_⟩ <;> intro h <;> cases h

/-- C16 (amended): on non-negative integers whose abjad value and whose exact result stay
below `2^53`, both copies of `calculateJannahPoints` return a non-negative integer, at least
`10 * accuracy`, and at least `10 * accuracy + 500` when `accuracy >= 95`; the three minima
of the test suite hold. -/
theorem calculateJannahPoints_lower_bounds (accuracy abjadValue : Nat)
    (hv : abjadValue < 2 ^ 53)
    (h : 10 * accuracy + abjadValue / 100 + (if 95 ≤ accuracy then 500 else 0) < 2 ^ 53) :
    (∃ n : Nat,
      Number.eq
      (TestScript.calculateJannahPoints (Number.ofNat accuracy) (Number.ofNat abjadValue))
        (Number.ofNat n) = true ∧
      10 * accuracy ≤ n ∧ (95 ≤ accuracy → 10 * accuracy + 500 ≤ n)) ∧
    (∃ n : Nat,
      Number.eq
      (RecitationAnalyzer.calculateJannahPoints (Number.ofNat accuracy)
        (Number.ofNat abjadValue))
        (Number.ofNat n) = true ∧
      10 * accuracy ≤ n ∧ (95 ≤ accuracy → 10 * accuracy + 500 ≤ n)) ∧
    Number.le (Number.ofNat 1500)
      (TestScript.calculateJannahPoints (Number.ofNat 100) (Number.ofNat 786)) = true ∧
    Number.le (Number.ofNat 850)
      (TestScript.calculateJannahPoints (Number.ofNat 85) (Number.ofNat 500)) = true ∧
    Number.le (Number.ofNat 1450)
      (TestScript.calculateJannahPoints (Number.ofNat 95) (Number.ofNat 1000)) = true := by
  have hmain := (jannahPoints_exact_nat accuracy abjadValue hv h).1
  have hb : 10 * accuracy
      ≤ 10 * accuracy + abjadValue / 100 + (if 95 ≤ accuracy then 500 else 0) := by
    omega
  have hb2 : 95 ≤ accuracy → 10 * accuracy + 500
      ≤ 10 * accuracy + abjadValue / 100 + (if 95 ≤ accuracy then 500 else 0) := by
    intro h95
    rw [if_pos h95]
    omega
  refine ⟨⟨_, ?_, hb, hb2⟩, ⟨_, hmain, hb, hb2⟩, by decide, by decide, by decide⟩
  rw [jannahPoints_copies]
  exact hmain

/-- The amended C16 at `(95, 1000)`. -/
theorem calculateJannahPoints_lower_bounds_witness :
    (1000 : Nat) < 2 ^ 53 ∧
    10 * 95 + 1000 / 100 + (if 95 ≤ 95 then 500 else 0) < 2 ^ 53 ∧
    (∃ n : Nat,
      Number.eq (TestScript.calculateJannahPoints (Number.ofNat 95) (Number.ofNat 1000))
        (Number.ofNat n) = true ∧
      10 * 95 ≤ n ∧ (95 ≤ 95 → 10 * 95 + 500 ≤ n)) ∧
    (∃ n : Nat,
      Number.eq (RecitationAnalyzer.calculateJannahPoints (Number.ofNat 95) (Number.ofNat 1000))
        (Number.ofNat n) = true ∧
      10 * 95 ≤ n ∧ (95 ≤ 95 → 10 * 95 + 500 ≤ n)) ∧
    Number.le (Number.ofNat 1500)
      (TestScript.calculateJannahPoints (Number.ofNat 100) (Number.ofNat 786)) = true ∧
    Number.le (Number.ofNat 850)
      (TestScript.calculateJannahPoints (Number.ofNat 85) (Number.ofNat 500)) = true ∧
    Number.le (Number.ofNat 1450)
      (TestScript.calculateJannahPoints (Number.ofNat 95) (Number.ofNat 1000)) = true :=
  ⟨by decide, by decide, calculateJannahPoints_lower_bounds 95 1000 (by decide) (by decide)⟩

/-- C16 (counterexample): for the non-negative integers `accuracy = 2^53 + 2` and
`abjadValue = 0` both copies return 90071992547410432, which is below
`10 * accuracy + 500 = 90071992547410440` although `accuracy >= 95`. -/
theorem calculateJannahPoints_below_bound :
    (95 : Nat) ≤ 9007199254740994 ∧ (9007199254740994 : Nat) = 2 ^ 53 + 2 ∧
    (10 * 9007199254740994 + 500 : Nat) = 90071992547410440 ∧
    Number.eq (TestScript.calculateJannahPoints (Number.ofNat 9007199254740994) (Number.ofNat 0))
      (Number.ofNat 90071992547410432) = true ∧
    Number.le (Number.ofNat 90071992547410440)
      (TestScript.calculateJannahPoints (Number.ofNat 9007199254740994) (Number.ofNat 0)) = false ∧
    Number.eq
      (RecitationAnalyzer.calculateJannahPoints (Number.ofNat 9007199254740994)
        (Number.ofNat 0))
      (Number.ofNat 90071992547410432) = true ∧
    Number.le (Number.ofNat 90071992547410440)
      (RecitationAnalyzer.calculateJannahPoints (Number.ofNat 9007199254740994) (Number.ofNat 0))
      = false := by
  decide

/-! ### The abjad value of particular texts -/

theorem abjad_setup_sum (text : JSString) :
    Setup.calculateAbjadValue (some text) = (text.map letterWeight).sum := by
  cases text with
  | nil => simp [Setup.calculateAbjadValue, isFalsy]
  | cons c cs =>
    simp only [Setup.calculateAbjadValue, isFalsy, Option.getD_some]
    rw [if_neg (by simp), foldl_add_eq_sum, Nat.zero_add]
    rw [show getOrZero Setup.ABJAD_MAP = letterWeight from funext getOrZero_setup]

theorem abjad_test_sum (text : JSString) :
    TestScript.calculateAbjadValue (some text) = (text.map letterWeight).sum := by
  cases text with
  | nil => simp [TestScript.calculateAbjadValue, isFalsy]
  | cons c cs =>
    simp only [TestScript.calculateAbjadValue, isFalsy, Option.getD_some]
    rw [if_neg (by simp), foldl_add_eq_sum, Nat.zero_add]
    rw [show getOrZero TestScript.ABJAD_MAP = letterWeight from funext getOrZero_test]

theorem abjad_component_sum (text : JSString) :
    RecitationAnalyzer.calculateAbjadValue (some text) = .ok (text.map letterWeight).sum := by
  simp only [RecitationAnalyzer.calculateAbjadValue]
  rw [foldl_add_eq_sum, Nat.zero_add]
  rw [show getOrZero RecitationAnalyzer.abjadMap = letterWeight from
    funext getOrZero_component]

theorem letterWeight_eq_zero (c : Nat) (h : c ∉ abjadLetters) : letterWeight c = 0 := by
  simp only [abjadLetters, List.mem_cons, List.mem_singleton, List.not_mem_nil, or_false,
    not_or] at h
  obtain ⟨h1, h2, h3, h4, h5, h6, h7, h8, h9, h10, h11, h12, h13, h14, h15, h16, h17, h18,
    h19, h20, h21, h22, h23, h24, h25, h26, h27, h28⟩ := h
  unfold letterWeight
  simp only [h1, h2, h3, h4, h5, h6, h7, h8, h9, h10, h11, h12, h13, h14, h15, h16, h17, h18,
    h19, h20, h21, h22, h23, h24, h25, h26, h27, h28, if_false]

theorem sum_letterWeight_eq_zero (s : JSString) (h : ∀ c ∈ s, c ∉ abjadLetters) :
    (s.map letterWeight).sum = 0 := by
  apply List.sum_eq_zero
  intro x hx
  obtain ⟨c, hc, rfl⟩ := List.mem_map.mp hx
  exact letterWeight_eq_zero c (h c hc)

theorem not_mem_abjadLetters (c : Nat) (h : c < 0x80 ∨ isArabicDiacritic c) :
    c ∉ abjadLetters := by
  unfold isArabicDiacritic at h
  simp only [abjadLetters, List.mem_cons, List.mem_singleton, List.not_mem_nil, or_false,
    alif, ba, ta, tha, jim, hha, kha, dal, dhal, ra, zay, sin, shin, sad, dad, tta, zza, ain,
    ghain, fa, qaf, kaf, lam, mim, nun, ha, waw, ya]
  omega

/-- C17: the abjad value of the empty string is 0 and the value of every string is
non-negative, in each of the three copies. -/
theorem calculateAbjadValue_nonneg :
    Setup.calculateAbjadValue (some []) = 0 ∧
    TestScript.calculateAbjadValue (some []) = 0 ∧
    RecitationAnalyzer.calculateAbjadValue (some []) = .ok 0 ∧
    ∀ s : JSString,
      (0 : Int) ≤ Setup.calculateAbjadValue (some s) ∧
      (0 : Int) ≤ TestScript.calculateAbjadValue (some s) ∧
      ∃ v : Nat, RecitationAnalyzer.calculateAbjadValue (some s) = .ok v ∧ (0 : Int) ≤ v := by
  refine ⟨by decide, by decide, rfl, ?_⟩
  intro s
  exact ⟨Int.natCast_nonneg _, Int.natCast_nonneg _, _, abjad_component_sum s,
    Int.natCast_nonneg _⟩

/-- C18: a string without any of the 28 table letters has abjad value 0 in each copy; in
particular every string made only of ASCII characters and Arabic diacritics. -/
theorem calculateAbjadValue_no_letters (s : JSString) (h : ∀ c ∈ s, c ∉ abjadLetters) :
    Setup.calculateAbjadValue (some s) = 0 ∧
    TestScript.calculateAbjadValue (some s) = 0 ∧
    RecitationAnalyzer.calculateAbjadValue (some s) = .ok 0 ∧
    ∀ t : JSString, (∀ c ∈ t, c < 0x80 ∨ isArabicDiacritic c) →
      Setup.calculateAbjadValue (some t) = 0 ∧
      TestScript.calculateAbjadValue (some t) = 0 ∧
      RecitationAnalyzer.calculateAbjadValue (some t) = .ok 0 := by
  have key : ∀ u : JSString, (∀ c ∈ u, c ∉ abjadLetters) →
      Setup.calculateAbjadValue (some u) = 0 ∧
      TestScript.calculateAbjadValue (some u) = 0 ∧
      RecitationAnalyzer.calculateAbjadValue (some u) = .ok 0 := by
    intro u hu
    rw [abjad_setup_sum, abjad_test_sum, abjad_component_sum, sum_letterWeight_eq_zero u hu]
    exact ⟨rfl, rfl, rfl⟩
  obtain ⟨k1, k2, k3⟩ := key s h
  refine ⟨k1, k2, k3, ?_⟩
  intro t ht
  exact key t (fun c hc => not_mem_abjadLetters c (ht c hc))

/-- C18 at the text `"Ab 1!"` followed by a fatha. -/
theorem calculateAbjadValue_no_letters_witness :
    Setup.calculateAbjadValue (some [0x41, 0x62, 0x20, 0x31, 0x21, 0x064E]) = 0 ∧
    TestScript.calculateAbjadValue (some [0x41, 0x62, 0x20, 0x31, 0x21, 0x064E]) = 0 ∧
    RecitationAnalyzer.calculateAbjadValue (some [0x41, 0x62, 0x20, 0x31, 0x21, 0x064E])
      = .ok 0 ∧
    ∀ t : JSString, (∀ c ∈ t, c < 0x80 ∨ isArabicDiacritic c) →
      Setup.calculateAbjadValue (some t) = 0 ∧
      TestScript.calculateAbjadValue (some t) = 0 ∧
      RecitationAnalyzer.calculateAbjadValue (some t) = .ok 0 :=
  calculateAbjadValue_no_letters [0x41, 0x62, 0x20, 0x31, 0x21, 0x064E] (by decide)

/-- C19: the Basmala evaluates to 786 in its three forms, in each copy of the function:
the undiacritized text of the setup validation, the diacritized verse (test sample 1 and
verse `1:1`), and the fully vocalised form printed by the test script. -/
theorem calculateAbjadValue_basmala :
    (Setup.calculateAbjadValue (some Setup.testText) = 786 ∧
      TestScript.calculateAbjadValue (some Setup.testText) = 786 ∧
      RecitationAnalyzer.calculateAbjadValue (some Setup.testText) = .ok 786) ∧
    ((TestScript.TEST_SAMPLES.head?.map fun sample =>
        Setup.calculateAbjadValue (some sample.arabic)) = some 786 ∧
      (TestScript.TEST_SAMPLES.head?.map fun sample =>
        TestScript.calculateAbjadValue (some sample.arabic)) = some 786 ∧
      (TestScript.TEST_SAMPLES.head?.map fun sample =>
        RecitationAnalyzer.calculateAbjadValue (some sample.arabic)) = some (.ok 786)) ∧
    ((RecitationAnalyzer.quranData.lookup "1:1").map
        (fun verse => RecitationAnalyzer.calculateAbjadValue (some verse)) = some (.ok 786) ∧
      (RecitationAnalyzer.quranData.lookup "1:1")
        = TestScript.TEST_SAMPLES.head?.map (fun sample => sample.arabic)) ∧
    (Setup.calculateAbjadValue (some TestScript.printedBasmala) = 786 ∧
      TestScript.calculateAbjadValue (some TestScript.printedBasmala) = 786 ∧
      RecitationAnalyzer.calculateAbjadValue (some TestScript.printedBasmala) = .ok 786) :=
  ⟨⟨by decide, by decide, rfl⟩, ⟨by decide, by decide, rfl⟩, ⟨rfl, by decide⟩,
    ⟨by decide, by decide, rfl⟩⟩

/-- C20 (failing input): the computed values of the four samples are 786, 582, 71 and
410; samples 2 and 4 miss their expected values 1038 and 319 by more than 5, so their
test cases fail. -/
theorem abjad_samples_fail :
    TestScript.TEST_SAMPLES.map (fun sample =>
      TestScript.calculateAbjadValue (some sample.arabic)) = [786, 582, 71, 410] ∧
    TestScript.TEST_SAMPLES.map (fun sample => sample.expected_abjad)
      = [786, 1038, 71, 319] ∧
    TestScript.TEST_SAMPLES.map TestScript.abjadTestPasses = [true, false, true, false] := by
  decide

/-! ### The table as data, and absent input -/

/-- C21: each copy of the table has exactly 28 distinct keys, each a single character
(one code unit); every weight lies between 1 and 1000; a character that is not a key
has weight 0. -/
theorem abjad_table_shape :
    ((Setup.ABJAD_MAP.map Prod.fst).length = 28 ∧ (Setup.ABJAD_MAP.map Prod.fst).Nodup ∧
      (∀ entry ∈ Setup.ABJAD_MAP, entry.1 < 0x10000 ∧ 1 ≤ entry.2 ∧ entry.2 ≤ 1000) ∧
      ∀ c, c ∉ Setup.ABJAD_MAP.map Prod.fst → getOrZero Setup.ABJAD_MAP c = 0) ∧
    ((TestScript.ABJAD_MAP.map Prod.fst).length = 28 ∧
      (TestScript.ABJAD_MAP.map Prod.fst).Nodup ∧
      (∀ entry ∈ TestScript.ABJAD_MAP, entry.1 < 0x10000 ∧ 1 ≤ entry.2 ∧ entry.2 ≤ 1000) ∧
      ∀ c, c ∉ TestScript.ABJAD_MAP.map Prod.fst → getOrZero TestScript.ABJAD_MAP c = 0) ∧
    ((RecitationAnalyzer.abjadMap.map Prod.fst).length = 28 ∧
      (RecitationAnalyzer.abjadMap.map Prod.fst).Nodup ∧
      (∀ entry ∈ RecitationAnalyzer.abjadMap,
        entry.1 < 0x10000 ∧ 1 ≤ entry.2 ∧ entry.2 ≤ 1000) ∧
      ∀ c, c ∉ RecitationAnalyzer.abjadMap.map Prod.fst →
        getOrZero RecitationAnalyzer.abjadMap c = 0) := by
  have k1 : Setup.ABJAD_MAP.map Prod.fst = abjadLetters := by decide
  have k2 : TestScript.ABJAD_MAP.map Prod.fst = abjadLetters := by decide
  have k3 : RecitationAnalyzer.abjadMap.map Prod.fst = abjadLetters := by decide
  refine ⟨⟨by decide, by decide, by decide, ?_⟩, ⟨by decide, by decide, by decide, ?_⟩,
    ⟨by decide, by decide, by decide, ?_⟩⟩
  · intro c hc
    rw [k1] at hc
    rw [getOrZero_setup, letterWeight_eq_zero c hc]
  · intro c hc
    rw [k2] at hc
    rw [getOrZero_test, letterWeight_eq_zero c hc]
  · intro c hc
    rw [k3] at hc
    rw [getOrZero_component, letterWeight_eq_zero c hc]

/-- C22 (failing input): on an absent text the copies of `setup.js` and `test.js` return
0, while the copy of `RecitationAnalyzer.jsx` ends with a `TypeError`. -/
theorem calculateAbjadValue_absent :
    Setup.calculateAbjadValue none = 0 ∧
    TestScript.calculateAbjadValue none = 0 ∧
    RecitationAnalyzer.calculateAbjadValue none = .error JSError.typeError ∧
    RecitationAnalyzer.calculateAbjadValue none ≠ .ok 0 := by
  refine ⟨rfl, rfl, rfl, ?_⟩
  intro h
  cases h

/-- C23 (failing input): the sixteen recorded accuracies are, per sample, 100, 93, 46, 100;
100, 93, 10, 100; 100, 33, 100, 100; and 100, 95, 30, 100. Four of the sixteen cases stay
below the target of 85. -/
theorem testAccuracy_results :
    TestScript.testAccuracy.map (fun r => r.accuracy)
      = [Double.ofNat 100, Double.ofNat 93, Double.ofNat 46, Double.ofNat 100,
         Double.ofNat 100, Double.ofNat 93, Double.ofNat 10, Double.ofNat 100,
         Double.ofNat 100, Double.ofNat 33, Double.ofNat 100, Double.ofNat 100,
         Double.ofNat 100, Double.ofNat 95, Double.ofNat 30, Double.ofNat 100] ∧
    TestScript.testAccuracy.map (fun r => r.passed)
      = [true, true, false, true, true, true, false, true,
         true, false, true, true, true, true, false, true] ∧
    (TestScript.testAccuracy.filter (fun r => !r.passed)).map
        (fun r => (r.sample_id, r.test_case))
      = [(1, "Missing Diacritics"), (2, "Missing Diacritics"), (3, "Missing End"),
         (4, "Missing Diacritics")] := by
  decide

/-! ### The end-to-end flow and the agreement of the copies -/

theorem letterWeight_le_sum (s : JSString) (c : Nat) (hc : c ∈ s) :
    letterWeight c ≤ (s.map letterWeight).sum := by
  induction s with
  | nil => simp at hc
  | cons x xs ih =>
    rw [List.map_cons, List.sum_cons]
    rcases List.mem_cons.mp hc with rfl | h
    · omega
    · have := ih h
      omega

theorem abjadLetters_facts :
    ∀ c ∈ abjadLetters, 0 < letterWeight c ∧ isWhiteSpace c = false := by
  decide

theorem letterWeight_le (c : Nat) : letterWeight c ≤ 1000 := by
  by_cases h : c ∈ abjadLetters
  · exact (by decide : ∀ x ∈ abjadLetters, letterWeight x ≤ 1000) c h
  · rw [letterWeight_eq_zero c h]
    omega

theorem sum_letterWeight_le (s : JSString) : (s.map letterWeight).sum ≤ 1000 * s.length := by
  induction s with
  | nil => simp
  | cons x xs ih =>
    rw [List.map_cons, List.sum_cons, List.length_cons]
    have := letterWeight_le x
    omega

theorem jannahPoints_perfect (abjad : Nat) (h : abjad < 2 ^ 53) :
    Number.eq (RecitationAnalyzer.calculateJannahPoints (Number.ofDouble (Double.ofNat 100))
        (Number.ofNat abjad)) (Number.ofNat (1500 + abjad / 100)) = true ∧
    Number.lt (Number.ofNat 0) (RecitationAnalyzer.calculateJannahPoints
        (Number.ofDouble (Double.ofNat 100)) (Number.ofNat abjad)) = true := by
  have hk : abjad / 100 < 2 ^ 53 - 1500 := by omega
  have hval : 10 * 100 + abjad / 100 + (if 95 ≤ 100 then 500 else 0) = 1500 + abjad / 100 := by
    rw [if_pos (by norm_num)]
    omega
  obtain ⟨h1, h2⟩ := jannahPoints_exact_nat 100 abjad h (by rw [hval]; omega)
  rw [hval] at h1 h2
  exact ⟨h1, h2 (by omega)⟩

/-- C24: for a text `s` with at least one table letter, a perfect recitation scores
accuracy 100 (which reaches the target 85) and has a positive abjad value; as long as the
abjad value is below `2^53`, the range in which Numbers count exactly (every text shorter
than `2^43` characters stays in it), it earns `1500 + floor(abjad / 100)` points, a
positive number; in the test script's flow and in the analyzer's. -/
theorem recitation_flow_perfect (s : JSString) (h : ∃ c ∈ s, c ∈ abjadLetters) :
    (TestScript.calculateAccuracy (some s) (some s) = Double.ofNat 100 ∧
      (Double.ofNat 100).geNat TestScript.CONFIG.targetAccuracy = true ∧
      0 < TestScript.calculateAbjadValue (some s) ∧
      (s.length < 2 ^ 43 → TestScript.calculateAbjadValue (some s) < 2 ^ 53) ∧
      (TestScript.calculateAbjadValue (some s) < 2 ^ 53 →
        Number.eq
          (TestScript.calculateJannahPoints
            (Number.ofDouble (TestScript.calculateAccuracy (some s) (some s)))
            (Number.ofNat (TestScript.calculateAbjadValue (some s))))
          (Number.ofNat (1500 + TestScript.calculateAbjadValue (some s) / 100)) = true ∧
        Number.lt (Number.ofNat 0)
          (TestScript.calculateJannahPoints
            (Number.ofDouble (TestScript.calculateAccuracy (some s) (some s)))
            (Number.ofNat (TestScript.calculateAbjadValue (some s)))) = true)) ∧
    (RecitationAnalyzer.calculateAccuracy (some s) (some s) = Double.ofNat 100 ∧
      ∃ abjad : Nat, RecitationAnalyzer.calculateAbjadValue (some s) = .ok abjad ∧
        0 < abjad ∧
        (s.length < 2 ^ 43 → abjad < 2 ^ 53) ∧
        (abjad < 2 ^ 53 →
          Number.eq
            (RecitationAnalyzer.calculateJannahPoints
              (Number.ofDouble (RecitationAnalyzer.calculateAccuracy (some s) (some s)))
              (Number.ofNat abjad))
            (Number.ofNat (1500 + abjad / 100)) = true ∧
          Number.lt (Number.ofNat 0)
            (RecitationAnalyzer.calculateJannahPoints
              (Number.ofDouble (RecitationAnalyzer.calculateAccuracy (some s) (some s)))
              (Number.ofNat abjad)) = true)) := by
  obtain ⟨c, hc, hl⟩ := h
  obtain ⟨hw, hs⟩ := abjadLetters_facts c hl
  have hstrip := stripWhitespace_ne_nil_of_mem s c hc hs
  have hne := ne_nil_of_stripWhitespace_ne_nil s hstrip
  have hacc : RecitationAnalyzer.calculateAccuracy (some s) (some s) = Double.ofNat 100 := by
    rw [calculateAccuracy_eq s s hne hne, positionalMatches_self]
    exact scoreExpr_self _ (List.length_pos.mpr hstrip)
  have hsum : 0 < (s.map letterWeight).sum :=
    lt_of_lt_of_le hw (letterWeight_le_sum s c hc)
  have hlen : s.length < 2 ^ 43 → (s.map letterWeight).sum < 2 ^ 53 := by
    intro hlt
    have := sum_letterWeight_le s
    omega
  refine ⟨⟨?_, by decide, ?_, ?_, ?_⟩, hacc, _, abjad_component_sum s, hsum, hlen, ?_⟩
  · rw [calculateAccuracy_copies]; exact hacc
  · rw [abjad_test_sum]; exact hsum
  · rw [abjad_test_sum]; exact hlen
  · intro hlt
    rw [calculateAccuracy_copies, hacc, jannahPoints_copies]
    exact jannahPoints_perfect _ hlt
  · intro hlt
    rw [hacc]
    exact jannahPoints_perfect _ hlt

/-- C24 at the text `alif lam mim`, whose abjad value is 71: accuracy 100 and
`1500 + floor(71 / 100) = 1500` points in both flows. -/
theorem recitation_flow_perfect_witness :
    (TestScript.calculateAccuracy (some [alif, lam, mim]) (some [alif, lam, mim])
        = Double.ofNat 100 ∧
      (Double.ofNat 100).geNat TestScript.CONFIG.targetAccuracy = true ∧
      0 < TestScript.calculateAbjadValue (some [alif, lam, mim]) ∧
      Number.eq
        (TestScript.calculateJannahPoints
          (Number.ofDouble
            (TestScript.calculateAccuracy (some [alif, lam, mim]) (some [alif, lam, mim])))
          (Number.ofNat (TestScript.calculateAbjadValue (some [alif, lam, mim]))))
        (Number.ofNat (1500 + TestScript.calculateAbjadValue (some [alif, lam, mim]) / 100))
        = true ∧
      Number.lt (Number.ofNat 0)
        (TestScript.calculateJannahPoints
          (Number.ofDouble
            (TestScript.calculateAccuracy (some [alif, lam, mim]) (some [alif, lam, mim])))
          (Number.ofNat (TestScript.calculateAbjadValue (some [alif, lam, mim])))) = true) ∧
    (RecitationAnalyzer.calculateAccuracy (some [alif, lam, mim]) (some [alif, lam, mim])
        = Double.ofNat 100 ∧
      ∃ abjad : Nat, RecitationAnalyzer.calculateAbjadValue (some [alif, lam, mim]) = .ok abjad ∧
        0 < abjad ∧
        Number.eq
          (RecitationAnalyzer.calculateJannahPoints
            (Number.ofDouble
              (RecitationAnalyzer.calculateAccuracy (some [alif, lam, mim])
                (some [alif, lam, mim])))
            (Number.ofNat abjad))
          (Number.ofNat (1500 + abjad / 100)) = true ∧
        Number.lt (Number.ofNat 0)
          (RecitationAnalyzer.calculateJannahPoints
            (Number.ofDouble
              (RecitationAnalyzer.calculateAccuracy (some [alif, lam, mim])
                (some [alif, lam, mim])))
            (Number.ofNat abjad)) = true) := by
  obtain ⟨⟨h1, h2, h3, h4, h5⟩, h6, abjad, h7, h8, h9, h10⟩ :=
    recitation_flow_perfect [alif, lam, mim] ⟨alif, by decide, by decide⟩
  have hp := h5 (h4 (by decide))
  have hq := h10 (h9 (by decide))
  exact ⟨⟨h1, h2, h3, hp.1, hp.2⟩, h6, abjad, h7, h8, hq.1, hq.2⟩

/-- C25: on every string the three copies of `calculateAbjadValue` return the same value,
and on all inputs the two copies of `calculateAccuracy` and the two copies of
`calculateJannahPoints` return the same value. -/
theorem copies_agree :
    (∀ text : JSString,
      Setup.calculateAbjadValue (some text) = TestScript.calculateAbjadValue (some text) ∧
      RecitationAnalyzer.calculateAbjadValue (some text)
        = .ok (TestScript.calculateAbjadValue (some text))) ∧
    (∀ expected actual : Option JSString,
      TestScript.calculateAccuracy expected actual
        = RecitationAnalyzer.calculateAccuracy expected actual) ∧
    (∀ accuracy abjadValue : Number,
      TestScript.calculateJannahPoints accuracy abjadValue
        = RecitationAnalyzer.calculateJannahPoints accuracy abjadValue) := by
  refine ⟨?_, ?_, ?_⟩
  · intro text
    rw [abjad_setup_sum, abjad_test_sum, abjad_component_sum]
    exact ⟨rfl, rfl⟩
  · intro expected actual
    rw [calculateAccuracy_copies]
  · intro accuracy abjadValue
    rw [jannahPoints_copies]

/-! ### The two copies of the rule patterns -/

theorem searchFrom_class_insert (a b c d : Nat) (text : JSString) :
    searchFrom [[a, b, c, d]] text = (searchFrom [[a, b, c]] text || text.contains d) := by
  rw [Bool.eq_iff_iff, Bool.or_eq_true, searchFrom_class, searchFrom_class,
    List.contains_iff_exists_mem_beq]
  simp only [containsAnyOf, List.mem_cons, List.mem_singleton, List.not_mem_nil, or_false,
    beq_iff_eq]
  constructor
  · rintro ⟨x, hx, h | h | h | h⟩
    · exact Or.inl ⟨x, hx, Or.inl h⟩
    · exact Or.inl ⟨x, hx, Or.inr (Or.inl h)⟩
    · exact Or.inl ⟨x, hx, Or.inr (Or.inr h)⟩
    · exact Or.inr ⟨x, hx, h.symm⟩
  · rintro (⟨x, hx, h | h | h⟩ | ⟨x, hx, h⟩)
    · exact ⟨x, hx, Or.inl h⟩
    · exact ⟨x, hx, Or.inr (Or.inl h)⟩
    · exact ⟨x, hx, Or.inr (Or.inr (Or.inl h))⟩
    · exact ⟨x, hx, Or.inr (Or.inr (Or.inr h.symm))⟩

/-- C26 (failing input): on the word `ilah` of sample 4 (hamza-alif, kasra, lam, superscript
alif, ha, fatha) the test script detects `madd` while none of the analyzer's patterns
matches. On every text the other three rules agree, and the script's `madd` check is the
analyzer's Madd pattern or the presence of the superscript alif U+0670. -/
theorem detectTajweedRule_madd_differs :
    (TestScript.patterns.map fun entry =>
        TestScript.detectTajweedRule [0x0625, 0x0650, 0x0644, 0x0670, 0x0647, 0x064E] entry.1)
      = [.ok true, .ok false, .ok false, .ok false] ∧
    (RecitationAnalyzer.tajweedRules.map fun rule =>
        (rule.rule, rule.pattern.test [0x0625, 0x0650, 0x0644, 0x0670, 0x0647, 0x064E]))
      = [("Madd", false), ("Ghunnah", false), ("Qalqalah", false), ("Idgham", false)] ∧
    (∀ text : JSString,
      (TestScript.patterns.map fun entry => TestScript.detectTajweedRule text entry.1).tail
        = (RecitationAnalyzer.tajweedRules.map fun rule =>
            Except.ok (rule.pattern.test text)).tail) ∧
    (∀ text : JSString,
      TestScript.detectTajweedRule text "madd"
        = .ok (((RecitationAnalyzer.tajweedRules.map fun rule => rule.pattern.test text).head?.getD
            false) || text.contains 0x0670)) := by
  refine ⟨rfl, by decide, fun text => rfl, fun text => ?_⟩
  have h : TestScript.detectTajweedRule text "madd"
      = .ok (searchFrom [[0x0627, 0x0648, 0x064A, 0x0670]] text) := rfl
  rw [h, searchFrom_class_insert]
  rfl

/-! ### A score of 100 and the prefix relation -/

theorem positionalMatches_eq_length_iff (e a : JSString) :
    positionalMatches e a = e.length ↔ e <+: a := by
  constructor
  · intro h
    unfold positionalMatches at h
    have hle : ((List.range (min e.length a.length)).filter
        (fun i => decide (e[i]? = a[i]?))).length ≤ min e.length a.length := by
      calc _ ≤ (List.range (min e.length a.length)).length := List.length_filter_le _ _
        _ = min e.length a.length := List.length_range _
    have hmin : min e.length a.length = e.length := by
      have := Nat.min_le_left e.length a.length
      omega
    have hea : e.length ≤ a.length := by
      rw [← hmin]; exact Nat.min_le_right _ _
    rw [hmin] at h
    have hall := List.Sublist.eq_of_length (List.filter_sublist (List.range e.length))
      (by rw [h, List.length_range])
    rw [List.filter_eq_self] at hall
    have htake : e = a.take e.length := by
      apply List.ext_getElem?
      intro i
      by_cases hi : i < e.length
      · rw [List.getElem?_take_of_lt hi]
        simpa using hall i (List.mem_range.mpr hi)
      · rw [List.getElem?_eq_none (by omega), List.getElem?_eq_none]
        rw [List.length_take]
        omega
    rw [htake]
    exact List.take_prefix _ _
  · rintro ⟨t, rfl⟩
    rw [positionalMatches_append e e t (Nat.le_refl _), positionalMatches_self]

theorem scoreExpr_lt_hundred (m n : Nat) (hmn : m < n) (hn : n ≤ 199) :
    ∃ k, k < 100 ∧ scoreExpr m n = Double.ofNat k := by
  have hpos : 0 < n := by omega
  obtain ⟨N, D, hval, hD, herr⟩ := percent_error m n (by omega) hpos
    (lt_of_le_of_lt hn (by norm_num))
  unfold scoreExpr
  rw [hval]
  refine ⟨(2 * N + D) / (2 * D), ?_, rfl⟩
  have hDq : (0 : ℚ) < D := by exact_mod_cast hD
  have hnq : (0 : ℚ) < n := by exact_mod_cast hpos
  have hn199 : (n : ℚ) ≤ 199 := by exact_mod_cast hn
  have hm : (m : ℚ) + 1 ≤ n := by exact_mod_cast hmn
  have hx : 100 * (m : ℚ) / n ≤ 100 - 100 / 199 := by
    rw [div_le_iff₀ hnq]
    nlinarith
  rw [abs_le] at herr
  have hp : (N : ℚ) / D < 99 + 1 / 2 := by
    have h1 : (1 : ℚ) / 2 ^ 45 < 100 / 199 - 1 / 2 := by norm_num
    linarith [herr.2]
  rw [div_lt_iff₀ hDq] at hp
  have hq : (2 * N + D : ℚ) < 100 * (2 * D) := by linarith
  have hnat : 2 * N + D < 100 * (2 * D) := by exact_mod_cast hq
  exact (Nat.div_lt_iff_lt_mul (by omega : 0 < 2 * D)).mpr hnat

/-- C27: when the stripped `expected` has between 1 and 199 characters and `actual` is
non-empty, the score is 100 exactly when the stripped `expected` is a prefix of the
stripped `actual` (in both copies). -/
theorem calculateAccuracy_hundred_iff_prefix (expected actual : JSString)
    (ha : actual ≠ []) (h1 : 1 ≤ (stripWhitespace expected).length)
    (h199 : (stripWhitespace expected).length ≤ 199) :
    (TestScript.calculateAccuracy (some expected) (some actual) = Double.ofNat 100 ↔
      stripWhitespace expected <+: stripWhitespace actual) ∧
    (RecitationAnalyzer.calculateAccuracy (some expected) (some actual) = Double.ofNat 100 ↔
      stripWhitespace expected <+: stripWhitespace actual) := by
  have hs : stripWhitespace expected ≠ [] := List.length_pos.mp (by omega)
  have he := ne_nil_of_stripWhitespace_ne_nil expected hs
  have hmain : RecitationAnalyzer.calculateAccuracy (some expected) (some actual)
      = Double.ofNat 100 ↔ stripWhitespace expected <+: stripWhitespace actual := by
    rw [calculateAccuracy_eq expected actual he ha, ← positionalMatches_eq_length_iff]
    constructor
    · intro h
      by_contra hne
      have hlt : positionalMatches (stripWhitespace expected) (stripWhitespace actual)
          < (stripWhitespace expected).length :=
        lt_of_le_of_ne (positionalMatches_le _ _) hne
      obtain ⟨k, hk, hval⟩ := scoreExpr_lt_hundred _ _ hlt h199
      rw [hval] at h
      simp only [Double.ofNat, Double.fin.injEq, and_true] at h
      omega
    · intro h
      rw [h]
      exact scoreExpr_self _ (by omega)
  exact ⟨by rw [calculateAccuracy_copies]; exact hmain, hmain⟩

/-- C27 at `expected = "a b"`, `actual = "abc"`. -/
theorem calculateAccuracy_hundred_iff_prefix_witness :
    (TestScript.calculateAccuracy (some [0x61, 0x20, 0x62]) (some [0x61, 0x62, 0x63])
        = Double.ofNat 100 ↔
      stripWhitespace [0x61, 0x20, 0x62] <+: stripWhitespace [0x61, 0x62, 0x63]) ∧
    (RecitationAnalyzer.calculateAccuracy (some [0x61, 0x20, 0x62]) (some [0x61, 0x62, 0x63])
        = Double.ofNat 100 ↔
      stripWhitespace [0x61, 0x20, 0x62] <+: stripWhitespace [0x61, 0x62, 0x63]) :=
  calculateAccuracy_hundred_iff_prefix [0x61, 0x20, 0x62] [0x61, 0x62, 0x63] (by decide)
    (by decide) (by decide)

/-! ### Additivity, monotonicity and the level thresholds -/

/-- C28: in each copy the abjad value of a concatenation is the sum of the values of its
parts; hence texts that are rearrangements of one another have the same value. -/
theorem calculateAbjadValue_append (s t : JSString) :
    Setup.calculateAbjadValue (some (s ++ t))
      = Setup.calculateAbjadValue (some s) + Setup.calculateAbjadValue (some t) ∧
    TestScript.calculateAbjadValue (some (s ++ t))
      = TestScript.calculateAbjadValue (some s) + TestScript.calculateAbjadValue (some t) ∧
    RecitationAnalyzer.calculateAbjadValue (some (s ++ t))
      = (do
          let x ← RecitationAnalyzer.calculateAbjadValue (some s)
          let y ← RecitationAnalyzer.calculateAbjadValue (some t)
          pure (x + y)) ∧
    (List.Perm s t →
      Setup.calculateAbjadValue (some s) = Setup.calculateAbjadValue (some t) ∧
      TestScript.calculateAbjadValue (some s) = TestScript.calculateAbjadValue (some t) ∧
      RecitationAnalyzer.calculateAbjadValue (some s)
        = RecitationAnalyzer.calculateAbjadValue (some t)) := by
  simp only [abjad_setup_sum, abjad_test_sum, abjad_component_sum, List.map_append,
    List.sum_append]
  refine ⟨trivial, trivial, rfl, ?_⟩
  intro hperm
  have h : (s.map letterWeight).sum = (t.map letterWeight).sum :=
    (hperm.map letterWeight).sum_eq
  rw [h]
  exact ⟨rfl, rfl, rfl⟩

/-- C29: both copies of `calculateJannahPoints` are monotone in both arguments, on all
integers (the abjad values inside the range `(-2^1024, 2^1024)` of the Number type): for
`a1 <= a2` and `v1 <= v2` the comparison
`calculateJannahPoints(a1, v1) <= calculateJannahPoints(a2, v2)` holds. -/
theorem calculateJannahPoints_monotone (a1 a2 v1 v2 : Int) (ha : a1 ≤ a2) (hv : v1 ≤ v2)
    (hlo : -(2 ^ 1024) < v1) (hhi : v2 < 2 ^ 1024) :
    Number.le (TestScript.calculateJannahPoints (Number.ofInt a1) (Number.ofInt v1))
      (TestScript.calculateJannahPoints (Number.ofInt a2) (Number.ofInt v2)) = true ∧
    Number.le (RecitationAnalyzer.calculateJannahPoints (Number.ofInt a1) (Number.ofInt v1))
      (RecitationAnalyzer.calculateJannahPoints (Number.ofInt a2) (Number.ofInt v2)) = true := by
  have hcast : ((2 ^ 1024 : Int) : ℚ) = 2 ^ 1024 := by rw [Int.cast_pow, Int.cast_ofNat]
  have h1 : -(2 ^ 1024 : ℚ) < (v1 : ℚ) := by
    have : ((-(2 ^ 1024) : Int) : ℚ) < (v1 : ℚ) := Int.cast_lt.mpr hlo
    rwa [Int.cast_neg, hcast] at this
  have h2 : (v2 : ℚ) < 2 ^ 1024 := by
    have : (v2 : ℚ) < ((2 ^ 1024 : Int) : ℚ) := Int.cast_lt.mpr hhi
    rwa [hcast] at this
  have hvq : (v1 : ℚ) ≤ v2 := Int.cast_le.mpr hv
  have haq : (a1 : ℚ) ≤ a2 := Int.cast_le.mpr ha
  have hmain : Number.le
      (RecitationAnalyzer.calculateJannahPoints (Number.ofInt a1) (Number.ofInt v1))
      (RecitationAnalyzer.calculateJannahPoints (Number.ofInt a2) (Number.ofInt v2)) = true := by
    apply jannahPoints_mono _ _ _ _ ⟨_, 1, rfl, Nat.one_pos⟩ ⟨_, 1, rfl, Nat.one_pos⟩
      ⟨_, 1, rfl, Nat.one_pos⟩ ⟨_, 1, rfl, Nat.one_pos⟩
    · rw [val_ofInt, abs_lt]; exact ⟨h1, lt_of_le_of_lt hvq h2⟩
    · rw [val_ofInt, abs_lt]; exact ⟨lt_of_lt_of_le h1 hvq, h2⟩
    · rw [val_ofInt, val_ofInt]; exact haq
    · rw [val_ofInt, val_ofInt]; exact hvq
  refine ⟨?_, hmain⟩
  rw [jannahPoints_copies]
  exact hmain

/-- C29 at `(85, 500)` and `(95, 1000)`. -/
theorem calculateJannahPoints_monotone_witness :
    (85 : Int) ≤ 95 ∧ (500 : Int) ≤ 1000 ∧ -(2 ^ 1024) < (500 : Int) ∧
    (1000 : Int) < 2 ^ 1024 ∧
    Number.le (TestScript.calculateJannahPoints (Number.ofInt 85) (Number.ofInt 500))
      (TestScript.calculateJannahPoints (Number.ofInt 95) (Number.ofInt 1000)) = true ∧
    Number.le (RecitationAnalyzer.calculateJannahPoints (Number.ofInt 85) (Number.ofInt 500))
      (RecitationAnalyzer.calculateJannahPoints (Number.ofInt 95) (Number.ofInt 1000)) = true :=
  ⟨by decide, by decide,
    lt_trans (neg_neg_of_pos (pow_pos (by decide) 1024)) (by decide),
    lt_of_lt_of_le (by decide : (1000 : Int) < 2 ^ 10)
      (pow_le_pow_right₀ (by decide) (by decide)),
    calculateJannahPoints_monotone 85 95 500 1000 (by decide) (by decide)
      (lt_trans (neg_neg_of_pos (pow_pos (by decide) 1024)) (by decide))
      (lt_of_lt_of_le (by decide : (1000 : Int) < 2 ^ 10)
        (pow_le_pow_right₀ (by decide) (by decide)))⟩

theorem levelRank_getLevelBadge (p : ℚ) :
    levelRank (IndexPage.getLevelBadge p).level
      = if 10000 ≤ p then 4 else if 5000 ≤ p then 3 else if 2000 ≤ p then 2
        else if 500 ≤ p then 1 else 0 := by
  unfold IndexPage.getLevelBadge
  simp only [ge_iff_le]
  split_ifs <;> rfl

/-- C30: `getLevelBadge` returns `Learner` exactly below 500, `Beginner` from 500 to below
2000, `Intermediate` from 2000 to below 5000, `Advanced Reciter` from 5000 to below 10000
and `Master Scholar` from 10000 on; hence the rank of the level never decreases as the
points grow. -/
theorem getLevelBadge_thresholds :
    (∀ p : ℚ,
      ((IndexPage.getLevelBadge p).level = "Learner" ↔ p < 500) ∧
      ((IndexPage.getLevelBadge p).level = "Beginner" ↔ 500 ≤ p ∧ p < 2000) ∧
      ((IndexPage.getLevelBadge p).level = "Intermediate" ↔ 2000 ≤ p ∧ p < 5000) ∧
      ((IndexPage.getLevelBadge p).level = "Advanced Reciter" ↔ 5000 ≤ p ∧ p < 10000) ∧
      ((IndexPage.getLevelBadge p).level = "Master Scholar" ↔ 10000 ≤ p)) ∧
    (∀ p q : ℚ, p ≤ q →
      levelRank (IndexPage.getLevelBadge p).level
        ≤ levelRank (IndexPage.getLevelBadge q).level) := by
  constructor
  · intro p
    unfold IndexPage.getLevelBadge
    simp only [ge_iff_le]
    split_ifs with h1 h2 h3 h4
    all_goals
      refine ⟨⟨?_, ?_⟩, ⟨?_, ?_⟩, ⟨?_, ?_⟩, ⟨?_, ?_⟩, ⟨?_, ?_⟩⟩
    all_goals
      first
      | (intro h; exact absurd h (by decide))
      | (intro h; constructor <;> linarith)
      | (intro h; linarith)
  · intro p q hpq
    rw [levelRank_getLevelBadge, levelRank_getLevelBadge]
    split_ifs <;> first | omega | (exfalso; linarith)

end QuranLab
